import Mathlib

/-
Verification of the LedgerLite engine: a shallow embedding in Lean 4 of the
Python sources (src/types.py, src/utils.py, src/storage/ledger.py,
src/index/index_manager.py, src/executor/validators.py,
src/executor/executor.py, src/parser/lexer.py, src/parser/parser.py).

Modelling conventions, used throughout:
  * Python scalar values are the inductive `Value`.  A Python `float` is
    modelled as a rational number; every float literal appearing in a theorem
    below is exactly representable as an IEEE double, so rational comparison
    agrees with float comparison on everything proved here.
  * A Python `dict` is an insertion-ordered association list.  Dicts keyed by
    strings (rows, schema registries) use structural string equality, exactly
    like Python `str` keys.  Dicts keyed by row values (the primary-key index,
    the unique indexes, the reconstruction state) compare keys with Python
    `==` (`pyEq`), under which `True == 1 == 1.0`.
  * Python exceptions become `Except Err`.  Exception *messages* are not
    modelled (they carry no behaviour); only the exception class is.
  * Wall-clock timestamps are not modelled: `create_entry` stores `""`.
-/

/-- Python scalar values stored in LedgerLite rows and ASTs. -/
inductive Value where
  | int (n : Int)
  | float (q : Rat)
  | bool (b : Bool)
  | str (s : String)
  | none
deriving DecidableEq, Repr

/-- Numeric view of a Python value: `bool` is a subtype of `int` in Python,
so `True` acts as `1` and `False` as `0` in numeric contexts. -/
def Value.toNum : Value → Option Rat
  | .int n => some (n : Rat)
  | .float q => some q
  | .bool b => some (if b then 1 else 0)
  | _ => Option.none

/-- Python `==` on scalar values: numbers (including booleans) compare
numerically across `int`/`float`/`bool`; strings compare as strings;
`None` equals only `None`; any other cross-type pair is unequal. -/
def pyEq (a b : Value) : Bool :=
  match a.toNum, b.toNum with
  | some x, some y => x == y
  | _, _ =>
    match a, b with
    | .str s, .str t => s == t
    | .none, .none => true
    | _, _ => false

/-- Python `<` on scalar values; mixed non-numeric operands raise TypeError. -/
def pyLt (a b : Value) : Option Bool :=
  match a.toNum, b.toNum with
  | some x, some y => some (decide (x < y))
  | _, _ =>
    match a, b with
    | .str s, .str t => some (decide (s < t))
    | _, _ => Option.none

/-- Python `<=`; mixed non-numeric operands raise TypeError. -/
def pyLe (a b : Value) : Option Bool :=
  match a.toNum, b.toNum with
  | some x, some y => some (decide (x ≤ y))
  | _, _ =>
    match a, b with
    | .str s, .str t => some (decide (s < t || s == t))
    | _, _ => Option.none

/-- String-keyed Python dict lookup (`d.get(k)` / `d[k]`), first binding wins;
dicts built by the operations below never hold two bindings of one key. -/
def sget {α : Type} (d : List (String × α)) (k : String) : Option α :=
  match d.find? (fun p => p.1 == k) with
  | some p => some p.2
  | _ => Option.none

/-- String-keyed Python dict store (`d[k] = v`): replace in place if the key
exists, else append, preserving insertion order. -/
def sset {α : Type} (d : List (String × α)) (k : String) (v : α) : List (String × α) :=
  match d with
  | [] => [(k, v)]
  | (k1, v1) :: tl => if k1 == k then (k1, v) :: tl else (k1, v1) :: sset tl k v

/-- A LedgerLite row: a Python dict from column name to scalar value. -/
abbrev Row := List (String × Value)

/-- Python `row.get(col)`, where an absent key yields `None`. -/
def rowGet (r : Row) (k : String) : Value :=
  (sget r k).getD Value.none

/-- One half of Python dict equality: every binding of `r1` is matched in `r2`
under value `==`. -/
def rowSub (r1 r2 : Row) : Bool :=
  r1.all (fun p =>
    match sget r2 p.1 with
    | some v => pyEq p.2 v
    | _ => false)

/-- Python `==` on two rows (dict equality: same keys, `==`-equal values). -/
def rowEq (r1 r2 : Row) : Bool :=
  rowSub r1 r2 && rowSub r2 r1

/-- A Python dict keyed by scalar values (primary-key index, unique indexes,
reconstruction state).  Lookup compares keys with Python `==`. -/
abbrev VDict := List (Value × Row)

/-- Value-keyed dict lookup (`d.get(k)` / `k in d`), via Python `==`. -/
def vget (d : VDict) (k : Value) : Option Row :=
  match d.find? (fun p => pyEq p.1 k) with
  | some p => some p.2
  | _ => Option.none

/-- Python `k in d` for a value-keyed dict. -/
def vmem (d : VDict) (k : Value) : Bool :=
  (vget d k).isSome

/-- Value-keyed dict store (`d[k] = v`): an existing `==`-equal key keeps its
original key object and position and gets the new value; a fresh key is
appended at the end, matching dict insertion order. -/
def vset (d : VDict) (k : Value) (v : Row) : VDict :=
  match d with
  | [] => [(k, v)]
  | (k1, v1) :: tl => if pyEq k1 k then (k1, v) :: tl else (k1, v1) :: vset tl k v

/-- Value-keyed dict delete (`del d[k]`): removes the binding of the first
`==`-equal key (dicts built here hold at most one). -/
def vdel (d : VDict) (k : Value) : VDict :=
  match d with
  | [] => []
  | (k1, v1) :: tl => if pyEq k1 k then tl else (k1, v1) :: vdel tl k

/-- `list(d.values())` of a value-keyed dict, in insertion order. -/
def vvalues (d : VDict) : List Row :=
  d.map Prod.snd

instance : DecidableEq VDict := inferInstance

instance : DecidableEq (List (String × VDict)) := inferInstance

instance : DecidableEq (List (String × List (String × VDict))) := inferInstance

instance {e a : Type} [DecidableEq e] [DecidableEq a] : DecidableEq (Except e a) :=
  fun x y =>
    match x, y with
    | .ok v, .ok w =>
      if h : v = w then isTrue (by rw [h]) else isFalse (by intro hc; cases hc; exact h rfl)
    | .error v, .error w =>
      if h : v = w then isTrue (by rw [h]) else isFalse (by intro hc; cases hc; exact h rfl)
    | .ok _, .error _ => isFalse (by intro hc; cases hc)
    | .error _, .ok _ => isFalse (by intro hc; cases hc)

/-- Exception classes raised by the engine (messages are not modelled). -/
inductive Err where
  | keyError (k : String)
  | typeError
  | valueError
  | constraintViolation
  | typeValidation
  | parserError
  | lexicalError (c : Char) (line col : Nat)
  | fuelExhausted
deriving DecidableEq, Repr

/-- `src/types.py` `DataType`: the closed set of column data types. -/
inductive DataType where
  | INT
  | TEXT
  | FLOAT
  | BOOLEAN
  | TIMESTAMP
deriving DecidableEq, Repr

/-- `src/types.py` `OperationType`: ledger operation kinds. -/
inductive OperationType where
  | INSERT
  | UPDATE
  | DELETE
deriving DecidableEq, Repr

/-- `src/types.py` `Column`: a column definition. -/
structure Column where
  name : String
  data_type : DataType
  is_primary_key : Bool := false
  is_unique : Bool := false
deriving DecidableEq, Repr

/-- `src/types.py` `Table`: a table schema (validation is in `mkTable`). -/
structure Table where
  name : String
  columns : List Column
deriving DecidableEq, Repr

/-- `Table.get_primary_key_column`: the first column flagged primary key
(`None` here stands for the `ValueError` raise on a table without one). -/
def Table.get_primary_key_column (t : Table) : Option Column :=
  t.columns.find? (fun c => c.is_primary_key)

/-- `Table.get_column`: column lookup by exact name. -/
def Table.get_column (t : Table) (name : String) : Option Column :=
  t.columns.find? (fun c => c.name == name)

/-- `Table.__post_init__` validation: non-empty name, at least one column,
exactly one primary key, pairwise-distinct column names. -/
def mkTable (name : String) (cols : List Column) : Except Err Table :=
  if name == "" then .error .valueError
  else if cols.isEmpty then .error .valueError
  else if (cols.filter (fun c => c.is_primary_key)).length > 1 then .error .valueError
  else if (cols.filter (fun c => c.is_primary_key)).length == 0 then .error .valueError
  else if (cols.map Column.name).Nodup = false then .error .valueError
  else .ok { name := name, columns := cols }

/-- `src/types.py` `LedgerEntry`: one ledger record. -/
structure LedgerEntry where
  transaction_id : Int
  table_name : String
  operation : OperationType
  timestamp : String
  old_value : Option Row
  new_value : Option Row
deriving DecidableEq, Repr

/-- `LedgerStore._load_transaction_counter`: the running maximum of the
`transaction_id` fields over the file's entries, starting from 0 (which is
also the result for an empty or missing file). -/
def loadTransactionCounter (entries : List LedgerEntry) : Int :=
  entries.foldl (fun m e => max m e.transaction_id) 0

/-- One step of `LedgerStore.reconstruct_state_with_primary_key`'s replay
loop, exactly as the Python source processes a single entry: entries of other
tables are skipped; INSERT and UPDATE store `new_value` under its primary-key
value when that value is present and not `None`; DELETE removes the state
entry keyed by `old_value`'s primary-key value when that value is not `None`
and is a key of the state. -/
def reconStep (table_name pk : String) (st : VDict) (e : LedgerEntry) : VDict :=
  if e.table_name ≠ table_name then st
  else
    match e.operation with
    | .INSERT =>
      match e.new_value with
      | some nv =>
        let k := rowGet nv pk
        if k = Value.none then st else vset st k nv
      | _ => st
    | .UPDATE =>
      match e.new_value with
      | some nv =>
        let k := rowGet nv pk
        if k = Value.none then st else vset st k nv
      | _ => st
    | .DELETE =>
      match e.old_value with
      | some ov =>
        let k := rowGet ov pk
        if k ≠ Value.none ∧ vmem st k then vdel st k else st
      | _ => st

/-- The keyed reconstruction state: the dict built by replaying all entries. -/
def reconKeyed (entries : List LedgerEntry) (table_name pk : String) : VDict :=
  entries.foldl (reconStep table_name pk) []

/-- `LedgerStore.reconstruct_state_with_primary_key`: replay the ledger and
return the surviving rows in key insertion order. -/
def reconstruct_state_with_primary_key
    (entries : List LedgerEntry) (table_name pk : String) : List Row :=
  vvalues (reconKeyed entries table_name pk)

/-- One step of the reconstruction algorithm as the specification words it,
over the already-filtered `T`-targeted entries: an INSERT or UPDATE whose
`new_value` is present and has a non-null primary-key value upserts that row
under the key; a DELETE whose `old_value` is present and whose primary-key
value is a key of the state removes that key; every other entry leaves the
state unchanged. -/
def reconSpecStep (pk : String) (st : VDict) (e : LedgerEntry) : VDict :=
  match e.operation with
  | .INSERT | .UPDATE =>
    match e.new_value with
    | some nv =>
      if rowGet nv pk ≠ Value.none then vset st (rowGet nv pk) nv else st
    | _ => st
  | .DELETE =>
    match e.old_value with
    | some ov =>
      if vmem st (rowGet ov pk) then vdel st (rowGet ov pk) else st
    | _ => st

/-- The reconstruction as specified: keep exactly the `T`-targeted entries in
file order, replay them with `reconSpecStep`, and return the surviving rows
in insertion order of their keys. -/
def reconSpec (entries : List LedgerEntry) (table_name pk : String) : List Row :=
  vvalues ((entries.filter (fun e => e.table_name == table_name)).foldl (reconSpecStep pk) [])

-- Basic facts about `pyEq` needed below.

theorem pyEq_none_iff (a : Value) : pyEq a Value.none = true ↔ a = Value.none := by
  cases a <;> simp [pyEq, Value.toNum]

theorem pyEq_none_left_iff (a : Value) : pyEq Value.none a = true ↔ a = Value.none := by
  cases a <;> simp [pyEq, Value.toNum]

/-- A reconstruction state reached from the empty state never holds a `None`
key, so membership of a `None` key is always false. -/
def noNoneKey (st : VDict) : Prop :=
  ∀ x ∈ st.map Prod.fst, x ≠ Value.none

theorem vget_none_of_noNoneKey : ∀ {st : VDict}, noNoneKey st →
    vget st Value.none = Option.none
  | [], _ => rfl
  | p :: tl, h => by
    have hp : p.1 ≠ Value.none := h p.1 (by simp)
    have hfalse : pyEq p.1 Value.none = false := by
      cases hq : pyEq p.1 Value.none
      · rfl
      · exact absurd ((pyEq_none_iff p.1).mp hq) hp
    have htl : noNoneKey tl := fun q hq => h q (by simp; right; simpa using hq)
    simp only [vget, List.find?, hfalse]
    simpa [vget] using vget_none_of_noNoneKey htl

theorem mem_vset_cases : ∀ (st : VDict) (k : Value) (v : Row) (p : Value × Row),
    p ∈ vset st k v → p.1 = k ∨ p.1 ∈ st.map Prod.fst
  | [], k, v, p => by
    intro hp
    simp [vset] at hp
    left; rw [hp]
  | q :: tl, k, v, p => by
    intro hp
    simp only [vset] at hp
    by_cases hq : pyEq q.1 k = true
    · simp only [hq, if_true, List.mem_cons] at hp
      rcases hp with rfl | hp
      · right; simp
      · right
        simp only [List.map_cons, List.mem_cons]
        right; exact List.mem_map_of_mem Prod.fst hp
    · simp only [hq, if_false] at hp
      cases hp with
      | head => right; simp
      | tail _ h2 =>
        rcases mem_vset_cases tl k v p h2 with h1 | h1
        · left; exact h1
        · right
          simp only [List.map_cons, List.mem_cons]
          right; exact h1

theorem mem_vdel_sub : ∀ (st : VDict) (k : Value) (p : Value × Row),
    p ∈ vdel st k → p ∈ st
  | [], k, p => by intro hp; simp [vdel] at hp
  | q :: tl, k, p => by
    intro hp
    simp only [vdel] at hp
    by_cases hq : pyEq q.1 k = true
    · simp only [hq, if_true] at hp
      exact List.mem_cons_of_mem q hp
    · simp only [hq, if_false] at hp
      cases hp with
      | head => exact List.mem_cons_self q tl
      | tail _ h2 => exact List.mem_cons_of_mem q (mem_vdel_sub tl k p h2)

theorem noNoneKey_vset {st : VDict} (h : noNoneKey st) {k : Value} (hk : k ≠ Value.none)
    (v : Row) : noNoneKey (vset st k v) := by
  intro x hx
  rcases List.mem_map.mp hx with ⟨p, hp, hpx⟩
  rcases mem_vset_cases st k v p hp with h1 | h1
  · rw [← hpx, h1]; exact hk
  · rw [← hpx]
    exact h p.1 h1

theorem noNoneKey_vdel {st : VDict} (h : noNoneKey st) (k : Value) :
    noNoneKey (vdel st k) := by
  intro x hx
  rcases List.mem_map.mp hx with ⟨p, hp, hpx⟩
  rw [← hpx]
  exact h p.1 (List.mem_map_of_mem Prod.fst (mem_vdel_sub st k p hp))

theorem noNoneKey_reconStep {st : VDict} (h : noNoneKey st) (tname pk : String)
    (e : LedgerEntry) : noNoneKey (reconStep tname pk st e) := by
  unfold reconStep
  by_cases ht : e.table_name ≠ tname
  · simp [ht]; exact h
  · simp [ht]
    cases e.operation with
    | INSERT =>
      cases e.new_value with
      | none => exact h
      | some nv =>
        by_cases hk : rowGet nv pk = Value.none
        · simp [hk]; exact h
        · simp [hk]; exact noNoneKey_vset h hk nv
    | UPDATE =>
      cases e.new_value with
      | none => exact h
      | some nv =>
        by_cases hk : rowGet nv pk = Value.none
        · simp [hk]; exact h
        · simp [hk]; exact noNoneKey_vset h hk nv
    | DELETE =>
      cases e.old_value with
      | none => exact h
      | some ov =>
        by_cases hc : rowGet ov pk ≠ Value.none ∧ vmem st (rowGet ov pk) = true
        · simp only [hc, if_true]
          exact noNoneKey_vdel h _
        · simp only [hc, if_false]
          exact h

theorem reconStep_eq_specStep {st : VDict} (h : noNoneKey st) (tname pk : String)
    (e : LedgerEntry) (ht : e.table_name = tname) :
    reconStep tname pk st e = reconSpecStep pk st e := by
  unfold reconStep reconSpecStep
  simp only [ht, ne_eq, not_true_eq_false, if_false]
  cases e.operation with
  | INSERT =>
    cases e.new_value with
    | none => rfl
    | some nv =>
      by_cases hk : rowGet nv pk = Value.none <;> simp [hk]
  | UPDATE =>
    cases e.new_value with
    | none => rfl
    | some nv =>
      by_cases hk : rowGet nv pk = Value.none <;> simp [hk]
  | DELETE =>
    cases e.old_value with
    | none => rfl
    | some ov =>
      by_cases hk : rowGet ov pk = Value.none
      · have hmem : vmem st Value.none = false := by
          simp [vmem, vget_none_of_noNoneKey h]
        simp [hk, hmem]
      · simp [hk]

theorem recon_fold_eq_spec_fold (tname pk : String) (l : List LedgerEntry)
    (st : VDict) (h : noNoneKey st) :
    l.foldl (reconStep tname pk) st
      = (l.filter (fun e => e.table_name == tname)).foldl (reconSpecStep pk) st := by
  induction l generalizing st with
  | nil => rfl
  | cons e tl ih =>
    by_cases ht : e.table_name = tname
    · have hstep := reconStep_eq_specStep h tname pk e ht
      simp only [List.foldl_cons, List.filter_cons, ht]
      simp only [beq_self_eq_true, if_true, List.foldl_cons]
      rw [hstep]
      exact ih _ (by rw [← hstep]; exact noNoneKey_reconStep h tname pk e)
    · have hne : (e.table_name == tname) = false := by
        simpa using ht
      simp only [List.foldl_cons, List.filter_cons, hne, if_false]
      have hskip : reconStep tname pk st e = st := by
        unfold reconStep
        simp [ht]
      rw [hskip]
      exact ih st h

/-- C1. `reconstruct_state_with_primary_key` replays exactly the entries
targeted at the requested table in file order: an INSERT or UPDATE whose
`new_value` is present with a non-null primary-key value upserts that row
under that key, a DELETE whose `old_value` is present and whose primary-key
value is a key of the state removes that key, every other entry leaves the
state unchanged, and the returned list holds the surviving rows in insertion
order of their keys. -/
theorem C1_reconstruct_replays_spec (entries : List LedgerEntry) (tname pk : String) :
    reconstruct_state_with_primary_key entries tname pk = reconSpec entries tname pk := by
  unfold reconstruct_state_with_primary_key reconSpec reconKeyed
  rw [recon_fold_eq_spec_fold tname pk entries [] (by intro p hp; simp at hp)]

-- ## Transaction-id allocation (`src/storage/ledger.py`)

/-- `LedgerStore._get_next_transaction_id`, as used by `create_entry`:
increment the counter and return it.  The pair is (new counter, emitted id). -/
def create_entry_tid (counter : Int) : Int × Int :=
  (counter + 1, counter + 1)

/-- The transaction ids emitted by `n` successive `create_entry` calls
starting from counter value `c`. -/
def emittedIdsFrom (c : Int) : Nat → List Int
  | 0 => []
  | n + 1 =>
    let p := create_entry_tid c
    p.2 :: emittedIdsFrom p.1 n

/-- The transaction ids emitted by a session that constructs a `LedgerStore`
over `entries` and then calls `create_entry` `n` times. -/
def emittedIds (entries : List LedgerEntry) (n : Nat) : List Int :=
  emittedIdsFrom (loadTransactionCounter entries) n

theorem foldl_max_ge_init (l : List LedgerEntry) :
    ∀ a : Int, a ≤ l.foldl (fun m e => max m e.transaction_id) a := by
  induction l with
  | nil => intro a; simp
  | cons e tl ih =>
    intro a
    calc a ≤ max a e.transaction_id := le_max_left _ _
    _ ≤ tl.foldl (fun m e => max m e.transaction_id) (max a e.transaction_id) := ih _

theorem foldl_max_ge_mem (l : List LedgerEntry) :
    ∀ a : Int, ∀ e ∈ l, e.transaction_id ≤ l.foldl (fun m e => max m e.transaction_id) a := by
  induction l with
  | nil => intro a e he; simp at he
  | cons x tl ih =>
    intro a e he
    rcases List.mem_cons.mp he with he | he
    · subst he
      calc e.transaction_id ≤ max a e.transaction_id := le_max_right _ _
      _ ≤ _ := foldl_max_ge_init tl _
    · exact ih _ e he

theorem foldl_max_attained (l : List LedgerEntry) :
    ∀ a : Int, l.foldl (fun m e => max m e.transaction_id) a = a
      ∨ ∃ e ∈ l, l.foldl (fun m e => max m e.transaction_id) a = e.transaction_id := by
  induction l with
  | nil => intro a; left; rfl
  | cons x tl ih =>
    intro a
    rcases ih (max a x.transaction_id) with h | h
    · simp only [List.foldl_cons]
      rcases le_or_lt x.transaction_id a with hle | hlt
      · left; rw [h]; exact max_eq_left hle
      · right
        exact ⟨x, by simp, by rw [h]; exact max_eq_right hlt.le⟩
    · rcases h with ⟨e, he, hfe⟩
      right
      exact ⟨e, List.mem_cons_of_mem x he, hfe⟩

theorem emittedIdsFrom_get (n : Nat) :
    ∀ (c : Int) (i : Nat), i < n → (emittedIdsFrom c n).get? i = some (c + i + 1) := by
  induction n with
  | zero => intro c i hi; omega
  | succ m ih =>
    intro c i hi
    cases i with
    | zero => simp [emittedIdsFrom, create_entry_tid]
    | succ j =>
      have hj : j < m := by omega
      have := ih (c + 1) j hj
      simp only [emittedIdsFrom, create_entry_tid, List.get?_cons_succ]
      rw [this]
      congr 1
      omega

/-- C4. The transaction counter of a `LedgerStore` is initialised to the
maximum `transaction_id` in the file (0 when the file is empty or missing,
the fold's base value); each `create_entry` returns the counter incremented
by one; hence the ids emitted by `n` successive calls are exactly
`max+1, max+2, …, max+n` — strictly increasing and starting at `max(file)+1`. -/
theorem C4_transaction_ids_monotonic (entries : List LedgerEntry) (n : Nat) :
    (∀ e ∈ entries, e.transaction_id ≤ loadTransactionCounter entries)
    ∧ (loadTransactionCounter entries = 0
        ∨ ∃ e ∈ entries, loadTransactionCounter entries = e.transaction_id)
    ∧ 0 ≤ loadTransactionCounter entries
    ∧ (∀ i : Nat, i < n →
        (emittedIds entries n).get? i = some (loadTransactionCounter entries + i + 1))
    ∧ (0 < n → (emittedIds entries n).get? 0 = some (loadTransactionCounter entries + 1))
    ∧ (∀ i j : Nat, i < j → j < n →
        (emittedIds entries n).getD i 0 < (emittedIds entries n).getD j 0) := by
  refine ⟨fun e he => foldl_max_ge_mem entries 0 e he, foldl_max_attained entries 0,
    foldl_max_ge_init entries 0, fun i hi => emittedIdsFrom_get n _ i hi, ?_, ?_⟩
  · intro hn
    have := emittedIdsFrom_get n (loadTransactionCounter entries) 0 hn
    rw [emittedIds, this]
    norm_num
  · intro i j hij hj
    have hi : i < n := lt_trans hij hj
    have h1 := emittedIdsFrom_get n (loadTransactionCounter entries) i hi
    have h2 := emittedIdsFrom_get n (loadTransactionCounter entries) j hj
    rw [emittedIds] at *
    rw [List.getD_eq_getD_get?, List.getD_eq_getD_get?, h1, h2]
    simp only [Option.getD_some]
    omega

/-- A concrete one-entry ledger file used as the witness input for C4. -/
def c4file : List LedgerEntry :=
  [{ transaction_id := 3, table_name := "t", operation := .INSERT,
     timestamp := "", old_value := Option.none, new_value := Option.none }]

/-- Closed witness for C4 at a concrete one-entry file and two calls. -/
theorem C4_witness :
    (emittedIds c4file 2).get? 1 = some 5
    ∧ (emittedIds c4file 2).getD 0 0 < (emittedIds c4file 2).getD 1 0 := by
  have h := C4_transaction_ids_monotonic c4file 2
  have h4 := h.2.2.2.1 1 (by decide)
  have h6 := h.2.2.2.2.2 0 1 (by decide) (by decide)
  constructor
  · rw [h4]; decide
  · exact h6

-- ## Value utilities (`src/utils.py`)

/-- Python `isinstance(v, int)`: `bool` is a subclass of `int`. -/
def isinstance_int : Value → Bool
  | .int _ => true
  | .bool _ => true
  | _ => false

/-- Python `isinstance(v, float)` (floats only; `int` is not a `float`). -/
def isinstance_float : Value → Bool
  | .float _ => true
  | _ => false

/-- Python `isinstance(v, str)`. -/
def isinstance_str : Value → Bool
  | .str _ => true
  | _ => false

/-- Python `isinstance(v, bool)`. -/
def isinstance_bool : Value → Bool
  | .bool _ => true
  | _ => false

/-- `src/utils.py` `validate_type`: `None` always passes; otherwise the value
must be an instance of the type mapped to the column's data type — `int` for
`INT`, `str` for `TEXT`, `(int, float)` for `FLOAT`, `bool` for `BOOLEAN`,
`str` for `TIMESTAMP`. -/
def validate_type (v : Value) (dt : DataType) : Bool :=
  if v = Value.none then true
  else
    match dt with
    | .INT => isinstance_int v
    | .TEXT => isinstance_str v
    | .FLOAT => isinstance_int v || isinstance_float v
    | .BOOLEAN => isinstance_bool v
    | .TIMESTAMP => isinstance_str v

/-- Decimal digits to a natural number. -/
def digitsToNat (l : List Char) : Nat :=
  l.foldl (fun a c => a * 10 + (c.toNat - 48)) 0

/-- Python `int(s)` on a string: optional sign followed by decimal digits
(whitespace and underscore tolerance is not modelled; no input here uses
them).  `Option.none` stands for the `ValueError` raise. -/
def pyIntOfString (s : String) : Option Int :=
  match s.toList with
  | [] => Option.none
  | c :: tl =>
    if c = '-' then
      if tl ≠ [] ∧ tl.all Char.isDigit then some (-(digitsToNat tl : Int)) else Option.none
    else if c = '+' then
      if tl ≠ [] ∧ tl.all Char.isDigit then some (digitsToNat tl : Int) else Option.none
    else if (c :: tl).all Char.isDigit then some (digitsToNat (c :: tl) : Int)
    else Option.none

/-- Split a character list at its first dot, if any. -/
def splitAtDot : List Char → List Char × Option (List Char)
  | [] => ([], Option.none)
  | c :: tl =>
    if c = '.' then ([], some tl)
    else
      let p := splitAtDot tl
      (c :: p.1, p.2)

/-- An unsigned decimal literal `digits[.digits]` as an exact rational. -/
def unsignedDecToRat (l : List Char) : Option Rat :=
  let p := splitAtDot l
  match p.2 with
  | Option.none =>
    if p.1 ≠ [] ∧ p.1.all Char.isDigit then some ((digitsToNat p.1 : Int) : Rat)
    else Option.none
  | some frac =>
    if (p.1 ≠ [] ∨ frac ≠ []) ∧ p.1.all Char.isDigit ∧ frac.all Char.isDigit then
      some ((digitsToNat p.1 : Rat) + (digitsToNat frac : Rat) / ((10 : Rat) ^ frac.length))
    else Option.none

/-- Python `float(s)` on a string (decimal forms only, exact value). -/
def pyFloatOfString (s : String) : Option Rat :=
  match s.toList with
  | [] => Option.none
  | c :: tl =>
    if c = '-' then (unsignedDecToRat tl).map (fun q => -q)
    else if c = '+' then unsignedDecToRat tl
    else unsignedDecToRat (c :: tl)

/-- Python `str(v)`.  The repr of a non-integral float is not modelled
exactly (no theorem below stringifies one). -/
def pyStr : Value → String
  | .int n => toString n
  | .bool b => if b then "True" else "False"
  | .str s => s
  | .float q =>
    if q.den = 1 then toString q.num ++ ".0"
    else toString q.num ++ "/" ++ toString q.den
  | .none => "None"

/-- Python `int(f)` on a float: truncation toward zero. -/
def ratTruncToInt (q : Rat) : Int :=
  if q < 0 then -((-q).floor) else q.floor

/-- Python `s.lower() in ('true', '1', 'yes', 'on')`. -/
def pyTruthyString (s : String) : Bool :=
  let t := s.toLower
  t == "true" || t == "1" || t == "yes" || t == "on"

/-- `src/utils.py` `convert_value`: coerce a value to a column type;
`None` is returned unchanged; a failing conversion raises `ValueError`. -/
def convert_value (v : Value) (dt : DataType) : Except Err Value :=
  match v with
  | .none => .ok .none
  | _ =>
    match dt with
    | .INT =>
      match v with
      | .int n => .ok (.int n)
      | .bool b => .ok (.int (if b then 1 else 0))
      | .float q => .ok (.int (ratTruncToInt q))
      | .str s =>
        match pyIntOfString s with
        | some n => .ok (.int n)
        | _ => .error .valueError
      | .none => .ok .none
    | .TEXT => .ok (.str (pyStr v))
    | .FLOAT =>
      match v with
      | .int n => .ok (.float (n : Rat))
      | .bool b => .ok (.float (if b then 1 else 0))
      | .float q => .ok (.float q)
      | .str s =>
        match pyFloatOfString s with
        | some q => .ok (.float q)
        | _ => .error .valueError
      | .none => .ok .none
    | .BOOLEAN =>
      match v with
      | .bool b => .ok (.bool b)
      | .str s => .ok (.bool (pyTruthyString s))
      | .int n => .ok (.bool (decide (n ≠ 0)))
      | .float q => .ok (.bool (decide (q ≠ 0)))
      | .none => .ok .none
    | .TIMESTAMP => .ok (.str (pyStr v))

/-- The per-column loop of `build_row_dict`: coerce each value and store it
under its column's name, in column order. -/
def buildRowLoop : List (Column × Value) → Row → Except Err Row
  | [], acc => .ok acc
  | (c, v) :: tl, acc =>
    match convert_value v c.data_type with
    | .ok cv => buildRowLoop tl (sset acc c.name cv)
    | .error e => .error e

/-- `src/utils.py` `build_row_dict`: positional values to a row dict, with
type coercion per column; wrong arity raises `ValueError`. -/
def build_row_dict (values : List Value) (t : Table) : Except Err Row :=
  if values.length ≠ t.columns.length then .error .valueError
  else buildRowLoop (t.columns.zip values) []

/-- The per-column loop of `src/utils.py` `validate_row`. -/
def validateRowLoop : List Column → Row → Except Err Unit
  | [], _ => .ok ()
  | c :: tl, row =>
    if (sget row c.name).isNone then .error .valueError
    else if validate_type (rowGet row c.name) c.data_type = false then .error .valueError
    else if c.is_primary_key ∧ rowGet row c.name = Value.none then .error .valueError
    else validateRowLoop tl row

/-- `src/utils.py` `validate_row`: every schema column must be present, of a
valid type, and a primary-key slot must not be `None`. -/
def validate_row (row : Row) (t : Table) : Except Err Unit :=
  validateRowLoop t.columns row

-- ## Constraint validators (`src/executor/validators.py`)

/-- The per-column loop of `validate_row_types`. -/
def rowTypesLoop : List (Column × Value) → Except Err Unit
  | [] => .ok ()
  | (c, v) :: tl =>
    if v = Value.none ∧ c.is_primary_key then .error .constraintViolation
    else if v ≠ Value.none ∧ validate_type v c.data_type = false then .error .typeValidation
    else rowTypesLoop tl

/-- `validate_row_types`: arity check, then per column a `None` primary key
raises `ConstraintViolationError` and a non-`None` value failing
`validate_type` raises `TypeValidationError`. -/
def validate_row_types (values : List Value) (t : Table) : Except Err Unit :=
  if values.length ≠ t.columns.length then .error .typeValidation
  else rowTypesLoop (t.columns.zip values)

/-- `validate_primary_key`: the new row's primary-key value must be
non-`None` and absent from the primary-key index (or, without an index, from
the existing rows). -/
def validate_primary_key (t : Table) (row : Row) (existing : List Row)
    (idx : Option VDict) : Except Err Unit :=
  match t.get_primary_key_column with
  | Option.none => .error .valueError
  | some c =>
    let pkv := rowGet row c.name
    if pkv = Value.none then .error .constraintViolation
    else
      match idx with
      | some d => if vmem d pkv then .error .constraintViolation else .ok ()
      | Option.none =>
        if existing.any (fun r => pyEq (rowGet r c.name) pkv) then .error .constraintViolation
        else .ok ()

/-- The per-column loop of `validate_unique_constraints`. -/
def uniqueLoop (row : Row) (existing : List Row)
    (uniqIdx : Option (List (String × VDict))) : List Column → Except Err Unit
  | [] => .ok ()
  | c :: tl =>
    if ¬(c.is_unique = true ∧ c.is_primary_key = false) then uniqueLoop row existing uniqIdx tl
    else if rowGet row c.name = Value.none then uniqueLoop row existing uniqIdx tl
    else
      match uniqIdx with
      | some ui =>
        match sget ui c.name with
        | some d =>
          if vmem d (rowGet row c.name) then .error .constraintViolation
          else uniqueLoop row existing uniqIdx tl
        | Option.none =>
          if existing.any (fun r => pyEq (rowGet r c.name) (rowGet row c.name)) then
            .error .constraintViolation
          else uniqueLoop row existing uniqIdx tl
      | Option.none =>
        if existing.any (fun r => pyEq (rowGet r c.name) (rowGet row c.name)) then
          .error .constraintViolation
        else uniqueLoop row existing uniqIdx tl

/-- `validate_unique_constraints`: for every non-primary-key `UNIQUE` column
with a non-`None` value in the new row, the value must be absent from that
column's index (or, without one, from the existing rows). -/
def validate_unique_constraints (t : Table) (row : Row) (existing : List Row)
    (uniqIdx : Option (List (String × VDict))) : Except Err Unit :=
  uniqueLoop row existing uniqIdx t.columns

/-- The per-column loop of `validate_constraints_for_update`: for each
non-primary-key `UNIQUE` column whose value changed to a non-`None` value,
re-run the full unique validation of the new row. -/
def updateUniqueLoop (t : Table) (old_row new_row : Row) (existing : List Row)
    (uniqIdx : Option (List (String × VDict))) : List Column → Except Err Unit
  | [] => .ok ()
  | c :: tl =>
    if ¬(c.is_unique = true ∧ c.is_primary_key = false) then
      updateUniqueLoop t old_row new_row existing uniqIdx tl
    else if ¬pyEq (rowGet old_row c.name) (rowGet new_row c.name) = true
        ∧ rowGet new_row c.name ≠ Value.none then
      match validate_unique_constraints t new_row existing uniqIdx with
      | .ok _ => updateUniqueLoop t old_row new_row existing uniqIdx tl
      | .error e => .error e
    else updateUniqueLoop t old_row new_row existing uniqIdx tl

/-- `validate_constraints_for_update`: re-validate the primary key only when
its value changed, then run `updateUniqueLoop` over the columns. -/
def validate_constraints_for_update (t : Table) (old_row new_row : Row)
    (existing : List Row) (pkIdx : Option VDict)
    (uniqIdx : Option (List (String × VDict))) : Except Err Unit :=
  match t.get_primary_key_column with
  | Option.none => .error .valueError
  | some c =>
    let old_pk := rowGet old_row c.name
    let new_pk := rowGet new_row c.name
    match (if ¬pyEq old_pk new_pk = true then
            validate_primary_key t new_row existing pkIdx
          else .ok ()) with
    | .error e => .error e
    | .ok _ => updateUniqueLoop t old_row new_row existing uniqIdx t.columns

/-- A concrete schema with an `INT` primary key, an `INT` column and a
`FLOAT` column, used for the row-level half of C9. -/
def c9table : Table :=
  { name := "t9",
    columns := [
      { name := "id", data_type := .INT, is_primary_key := true },
      { name := "n", data_type := .INT },
      { name := "x", data_type := .FLOAT } ] }

/-- C9. `validate_type` accepts a Python boolean for an `INT` column and for
a `FLOAT` column (`bool` being a subtype of `int`), so an INSERT supplying a
boolean literal for an `INT` or `FLOAT` column passes the arity/type check
(`validate_row_types`) instead of being rejected as a type error. -/
theorem C9_bool_passes_int_and_float_checks :
    (∀ b : Bool, validate_type (Value.bool b) DataType.INT = true
      ∧ validate_type (Value.bool b) DataType.FLOAT = true)
    ∧ (∀ b1 b2 : Bool,
        validate_row_types [Value.int 1, Value.bool b1, Value.bool b2] c9table = .ok ()) := by
  constructor
  · intro b; cases b <;> exact ⟨rfl, rfl⟩
  · intro b1 b2; cases b1 <;> cases b2 <;> rfl

-- ## Index manager (`src/index/index_manager.py`)

/-- The two index families of `IndexManager`: per table a primary-key dict
`pk_value → row`, and per table per unique column a dict `value → row`. -/
structure IndexManagerState where
  primary_key_indexes : List (String × VDict)
  unique_indexes : List (String × List (String × VDict))
deriving DecidableEq, Repr

/-- One column step of `IndexManager.add_row`'s unique loop: for a
non-primary-key `UNIQUE` column, ensure the table and column entries exist
and index the row's value when it is not `None`. -/
def addUniqStep (t_name : String) (row : Row)
    (u : List (String × List (String × VDict))) (c : Column) :
    List (String × List (String × VDict)) :=
  if c.is_unique && !c.is_primary_key then
    let ud := (sget u t_name).getD []
    let sub := (sget ud c.name).getD []
    let v := rowGet row c.name
    let sub := if v ≠ Value.none then vset sub v row else sub
    sset u t_name (sset ud c.name sub)
  else u

/-- `IndexManager.add_row`: create the table's index entries if missing,
index the primary-key value when not `None`, and index each non-`None`
unique-column value. -/
def IndexManagerState.add_row (im : IndexManagerState) (t : Table) (row : Row) :
    IndexManagerState :=
  match t.get_primary_key_column with
  | Option.none => im
  | some pkc =>
    let pk0 := sset im.primary_key_indexes t.name
      ((sget im.primary_key_indexes t.name).getD [])
    let u0 := sset im.unique_indexes t.name ((sget im.unique_indexes t.name).getD [])
    let pkv := rowGet row pkc.name
    let pk1 :=
      if pkv ≠ Value.none then sset pk0 t.name (vset ((sget pk0 t.name).getD []) pkv row)
      else pk0
    { primary_key_indexes := pk1, unique_indexes := t.columns.foldl (addUniqStep t.name row) u0 }

/-- One column step of `IndexManager.update_row`'s unique loop: ensure the
entries exist, remove the old value if present, add the new value if not
`None`. -/
def updUniqStep (t_name : String) (old_row new_row : Row)
    (u : List (String × List (String × VDict))) (c : Column) :
    List (String × List (String × VDict)) :=
  if c.is_unique && !c.is_primary_key then
    let ud := (sget u t_name).getD []
    let sub := (sget ud c.name).getD []
    let ov := rowGet old_row c.name
    let nv := rowGet new_row c.name
    let sub := if ov ≠ Value.none ∧ vmem sub ov then vdel sub ov else sub
    let sub := if nv ≠ Value.none then vset sub nv new_row else sub
    sset u t_name (sset ud c.name sub)
  else u

/-- `IndexManager.update_row`: remove the old primary key if present (without
creating a table entry), add the new primary key when not `None` (creating
the entry if needed), then update each unique column. -/
def IndexManagerState.update_row (im : IndexManagerState) (t : Table)
    (old_row new_row : Row) : IndexManagerState :=
  match t.get_primary_key_column with
  | Option.none => im
  | some pkc =>
    let opk := rowGet old_row pkc.name
    let npk := rowGet new_row pkc.name
    let pk1 :=
      if opk ≠ Value.none ∧ vmem ((sget im.primary_key_indexes t.name).getD []) opk then
        sset im.primary_key_indexes t.name
          (vdel ((sget im.primary_key_indexes t.name).getD []) opk)
      else im.primary_key_indexes
    let pk2 :=
      if npk ≠ Value.none then sset pk1 t.name (vset ((sget pk1 t.name).getD []) npk new_row)
      else pk1
    { primary_key_indexes := pk2,
      unique_indexes := t.columns.foldl (updUniqStep t.name old_row new_row) im.unique_indexes }

/-- One column step of `IndexManager.remove_row`'s unique loop: delete the
row's value when it is not `None` and all the nested entries exist. -/
def remUniqStep (t_name : String) (row : Row)
    (u : List (String × List (String × VDict))) (c : Column) :
    List (String × List (String × VDict)) :=
  if c.is_unique && !c.is_primary_key then
    let v := rowGet row c.name
    match sget u t_name with
    | some ud =>
      match sget ud c.name with
      | some sub =>
        if v ≠ Value.none ∧ vmem sub v then sset u t_name (sset ud c.name (vdel sub v))
        else u
      | Option.none => u
    | Option.none => u
  else u

/-- `IndexManager.remove_row`: delete the primary-key and unique-column
entries of the row, tolerating missing entries. -/
def IndexManagerState.remove_row (im : IndexManagerState) (t : Table) (row : Row) :
    IndexManagerState :=
  match t.get_primary_key_column with
  | Option.none => im
  | some pkc =>
    let pkv := rowGet row pkc.name
    let pk1 :=
      match sget im.primary_key_indexes t.name with
      | some d =>
        if pkv ≠ Value.none ∧ vmem d pkv then
          sset im.primary_key_indexes t.name (vdel d pkv)
        else im.primary_key_indexes
      | Option.none => im.primary_key_indexes
    { primary_key_indexes := pk1,
      unique_indexes := t.columns.foldl (remUniqStep t.name row) im.unique_indexes }

-- ## AST (`src/parser/ast.py`) and WHERE trees (`src/parser/parser.py`)

/-- A parsed WHERE tree: the tagged dicts the parser builds — either a
`CONDITION` node `{column, operator, value}` or an `AND`/`OR` node
`{left, right}`.  An `AND`/`OR` node has no `"column"` key. -/
inductive WhereClause where
  | condition (column : String) (op : String) (value : Value)
  | andNode (l r : WhereClause)
  | orNode (l r : WhereClause)
deriving DecidableEq, Repr

/-- `JoinClause`: joined table, join type, and the ON condition as a dict
from left column name to right column name (the parser stores one pair). -/
structure JoinClause where
  table_name : String
  join_type : String
  condition : List (String × String)
deriving DecidableEq, Repr

/-- `CreateTableStatement`. -/
structure CreateTableStatement where
  table_name : String
  columns : List Column
deriving DecidableEq, Repr

/-- `InsertStatement` (positional values in column order). -/
structure InsertStatement where
  table_name : String
  values : List Value
deriving DecidableEq, Repr

/-- `SelectStatement`. -/
structure SelectStatement where
  columns : List String
  table_name : String
  where_clause : Option WhereClause
  joins : Option (List JoinClause)
deriving DecidableEq, Repr

/-- `UpdateStatement` (`set_clauses` is a dict column → value). -/
structure UpdateStatement where
  table_name : String
  set_clauses : List (String × Value)
  where_clause : Option WhereClause
deriving DecidableEq, Repr

/-- `DeleteStatement`. -/
structure DeleteStatement where
  table_name : String
  where_clause : Option WhereClause
deriving DecidableEq, Repr

-- ## Query executor (`src/executor/executor.py`)

/-- The engine state driven by `QueryExecutor`: the schema registry, the
ledger file's entries, the transaction counter, and the indexes. -/
structure EngineState where
  schemas : List (String × Table)
  ledger : List LedgerEntry
  counter : Int
  indexes : IndexManagerState
deriving DecidableEq, Repr

/-- The empty engine over an empty ledger file. -/
def EngineState.empty : EngineState :=
  { schemas := [], ledger := [], counter := 0,
    indexes := { primary_key_indexes := [], unique_indexes := [] } }

/-- `SchemaManager.get_table`: raises `ValueError` on an unknown table. -/
def getTable (s : EngineState) (name : String) : Except Err Table :=
  match sget s.schemas name with
  | some t => .ok t
  | Option.none => .error .valueError

/-- `table.get_primary_key_column()` with its raise on a missing key. -/
def getPKCol (t : Table) : Except Err Column :=
  match t.get_primary_key_column with
  | some c => .ok c
  | Option.none => .error .valueError

/-- One row of `_apply_where_clause`'s loop on a `CONDITION` dict: fetch
`row.get(column)` and evaluate the operator; the ordered comparisons are
false when either side is `None` and raise `TypeError` on unorderable
operand types; an unknown operator keeps no rows. -/
def evalCondOnRow (row : Row) (column op : String) (value : Value) :
    Except Err Bool :=
  let row_value := rowGet row column
  if op == "=" then .ok (pyEq row_value value)
  else if op == "!=" then .ok (!pyEq row_value value)
  else if op == ">" then
    if row_value ≠ Value.none ∧ value ≠ Value.none then
      match pyLt value row_value with
      | some b => .ok b
      | Option.none => .error .typeError
    else .ok false
  else if op == "<" then
    if row_value ≠ Value.none ∧ value ≠ Value.none then
      match pyLt row_value value with
      | some b => .ok b
      | Option.none => .error .typeError
    else .ok false
  else if op == ">=" then
    if row_value ≠ Value.none ∧ value ≠ Value.none then
      match pyLe value row_value with
      | some b => .ok b
      | Option.none => .error .typeError
    else .ok false
  else if op == "<=" then
    if row_value ≠ Value.none ∧ value ≠ Value.none then
      match pyLe row_value value with
      | some b => .ok b
      | Option.none => .error .typeError
    else .ok false
  else .ok false

/-- The row loop of `_apply_where_clause` for a `CONDITION` node, keeping the
rows on which the condition evaluates true, in order. -/
def whereFilterLoop (column op : String) (value : Value) :
    List Row → Except Err (List Row)
  | [] => .ok []
  | r :: tl => do
    let b ← evalCondOnRow r column op value
    let rest ← whereFilterLoop column op value tl
    .ok (if b then r :: rest else rest)

/-- `QueryExecutor._apply_where_clause`: reads `where_clause["column"]`,
`["operator"]`, `["value"]` directly; on an `AND`/`OR` node — a dict without
a `"column"` key — the subscript raises `KeyError('column')`. -/
def applyWhereClause (rows : List Row) (w : WhereClause) : Except Err (List Row) :=
  match w with
  | .condition column op value => whereFilterLoop column op value rows
  | _ => .error (.keyError "column")

/-- The ON-condition check of `_execute_join`: every pair of the condition
dict must match under `left_row.get(l) == right_row.get(r)` — lookups use
the condition's column strings verbatim (qualifiers are not stripped), and a
missing key yields `None`. -/
def joinMatch (cond : List (String × String)) (l r : Row) : Bool :=
  cond.all (fun p => pyEq (rowGet l p.1) (rowGet r p.2))

/-- Python `{**left, **right}`: right's bindings override left's. -/
def mergeRows (l r : Row) : Row :=
  r.foldl (fun acc p => sset acc p.1 p.2) l

/-- `QueryExecutor._execute_join`: nested loop over left and right rows,
keeping the merge of every pair that satisfies the ON condition. -/
def executeJoin (left right : List Row) (cond : List (String × String)) : List Row :=
  (left.map (fun lr => (right.filter (fun rr => joinMatch cond lr rr)).map
    (fun rr => mergeRows lr rr))).flatten

/-- Split `t.c` at its first dot, mirroring `col_spec.split('.', 1)`;
`Option.none` when the string has no dot. -/
def splitQualified (s : String) : Option (String × String) :=
  let p := splitAtDot s.toList
  match p.2 with
  | some rest => some (String.mk p.1, String.mk rest)
  | Option.none => Option.none

/-- The projection step of `execute_select` for one row: `*` is handled by
the caller; a qualified selector `t.c` is emitted under the qualified key
but populated from the unqualified column (and silently dropped when
neither name is a key of the row); a bare selector is emitted with
`row.get(col, None)`. -/
def projectRow (cols : List String) (row : Row) : Row :=
  cols.foldl (fun pr spec =>
    match splitQualified spec with
    | some (tn, cn) =>
      if (sget row tn).isSome || (sget row cn).isSome then
        if (sget row cn).isSome then sset pr spec (rowGet row cn)
        else sset pr spec (rowGet row spec)
      else pr
    | Option.none => sset pr spec (rowGet row spec)) []

/-- The JOIN fold of `execute_select`: for each join clause in order,
reconstruct the joined table and replace the working set with the join. -/
def selectJoinFold (s : EngineState) (rows : List Row) :
    List JoinClause → Except Err (List Row)
  | [] => .ok rows
  | j :: tl => do
    let jt ← getTable s j.table_name
    let jpk ← getPKCol jt
    let join_rows := reconstruct_state_with_primary_key s.ledger j.table_name jpk.name
    selectJoinFold s (executeJoin rows join_rows j.condition) tl

/-- `QueryExecutor.execute_select`: reconstruct the base table, apply the
WHERE filter *before* the joins (the source's order), then the joins, then
project. -/
def execute_select (s : EngineState) (stmt : SelectStatement) :
    Except Err (List Row) := do
  let t ← getTable s stmt.table_name
  let pkc ← getPKCol t
  let rows := reconstruct_state_with_primary_key s.ledger stmt.table_name pkc.name
  let rows ←
    match stmt.where_clause with
    | some w => applyWhereClause rows w
    | Option.none => .ok rows
  let rows ←
    match stmt.joins with
    | some js => selectJoinFold s rows js
    | Option.none => .ok rows
  if stmt.columns = ["*"] then .ok rows
  else .ok (rows.map (fun row => projectRow stmt.columns row))

/-- `LedgerStore.create_entry`: allocate the next transaction id and build
the entry (the wall-clock timestamp is modelled as `""`). -/
def create_entry (counter : Int) (table_name : String) (operation : OperationType)
    (old_value new_value : Option Row) : LedgerEntry :=
  { transaction_id := counter + 1, table_name := table_name, operation := operation,
    timestamp := "", old_value := old_value, new_value := new_value }

/-- `QueryExecutor.execute_create_table`: reject a registered name, validate
the table definition, and register it.  No ledger entry is written. -/
def execute_create_table (s : EngineState) (stmt : CreateTableStatement) :
    EngineState × Except Err String :=
  if (sget s.schemas stmt.table_name).isSome then (s, .error .valueError)
  else
    match mkTable stmt.table_name stmt.columns with
    | .error e => (s, .error e)
    | .ok t => ({ s with schemas := sset s.schemas stmt.table_name t },
        .ok "table created")

/-- `QueryExecutor.execute_insert`: validate types, build the row, validate
the row structure, validate the primary-key and unique constraints against
the reconstruction and the indexes, then append one INSERT entry and index
the row.  Every failure leaves the state unchanged. -/
def insertChecks (s : EngineState) (stmt : InsertStatement) :
    Except Err (Table × Row) := do
  let t ← getTable s stmt.table_name
  let _ ← validate_row_types stmt.values t
  let row ← build_row_dict stmt.values t
  let _ ← validate_row row t
  let pkc ← getPKCol t
  let existing := reconstruct_state_with_primary_key s.ledger stmt.table_name pkc.name
  let pkIdx := sget s.indexes.primary_key_indexes stmt.table_name
  let uniqIdx := sget s.indexes.unique_indexes stmt.table_name
  let _ ← validate_primary_key t row existing pkIdx
  let _ ← validate_unique_constraints t row existing uniqIdx
  .ok (t, row)

/-- `QueryExecutor.execute_insert` (continued): on successful checks, append
one INSERT entry and index the row; every failure leaves the state
unchanged. -/
def execute_insert (s : EngineState) (stmt : InsertStatement) :
    EngineState × Except Err String :=
  match insertChecks s stmt with
  | .error e => (s, .error e)
  | .ok (t, row) =>
    let entry := create_entry s.counter stmt.table_name .INSERT Option.none (some row)
    let s1 := { s with counter := s.counter + 1, ledger := s.ledger ++ [entry] }
    ({ s1 with indexes := s1.indexes.add_row t row }, .ok "1 row inserted")

/-- The `SET`-application of `execute_update` for one candidate row:
`old_row.copy()` updated with the raw `SET` values, then each `SET` target
with a known column coerced to the column type, keeping the raw value when
the coercion raises `ValueError`. -/
def applySetClauses (t : Table) (set_clauses : List (String × Value)) (old_row : Row) : Row :=
  let merged := set_clauses.foldl (fun r p => sset r p.1 p.2) old_row
  set_clauses.foldl (fun r p =>
    match t.get_column p.1 with
    | some c =>
      match convert_value p.2 c.data_type with
      | .ok cv => sset r p.1 cv
      | .error _ => r
    | Option.none => r) merged

/-- One iteration of `execute_update`'s candidate loop: build the new row,
validate the update constraints against the other rows and the current
indexes, then append one UPDATE entry and update the indexes.  A
`ConstraintViolationError` is re-raised (still a constraint violation). -/
def updateOneRow (s : EngineState) (t : Table) (t_name : String)
    (set_clauses : List (String × Value)) (allRows : List Row) (old_row : Row) :
    EngineState × Except Err Unit :=
  let new_row := applySetClauses t set_clauses old_row
  let other_rows := allRows.filter (fun r => !rowEq r old_row)
  let pkIdx := sget s.indexes.primary_key_indexes t_name
  let uniqIdx := sget s.indexes.unique_indexes t_name
  match validate_constraints_for_update t old_row new_row other_rows pkIdx uniqIdx with
  | .error e => (s, .error e)
  | .ok _ =>
    let entry := create_entry s.counter t_name .UPDATE (some old_row) (some new_row)
    let s1 := { s with counter := s.counter + 1, ledger := s.ledger ++ [entry] }
    ({ s1 with indexes := s1.indexes.update_row t old_row new_row }, .ok ())

/-- `execute_update`'s candidate loop: process matching rows in order,
stopping at the first failure with the state it produced so far. -/
def updateLoop (t : Table) (t_name : String) (set_clauses : List (String × Value))
    (allRows : List Row) : EngineState → List Row → Nat → EngineState × Except Err Nat
  | s, [], n => (s, .ok n)
  | s, r :: tl, n =>
    match updateOneRow s t t_name set_clauses allRows r with
    | (s1, .ok _) => updateLoop t t_name set_clauses allRows s1 tl (n + 1)
    | (s1, .error e) => (s1, .error e)

/-- `QueryExecutor.execute_update`: reconstruct, filter by WHERE, then run
the candidate loop.  A mid-loop failure keeps the entries and index updates
already performed. -/
def updatePre (s : EngineState) (stmt : UpdateStatement) :
    Except Err (Table × List Row × List Row) := do
  let t ← getTable s stmt.table_name
  let pkc ← getPKCol t
  let rows := reconstruct_state_with_primary_key s.ledger stmt.table_name pkc.name
  let matching ←
    match stmt.where_clause with
    | some w => applyWhereClause rows w
    | Option.none => .ok rows
  .ok (t, rows, matching)

/-- `QueryExecutor.execute_update` (continued): run the candidate loop on the
filtered rows. -/
def execute_update (s : EngineState) (stmt : UpdateStatement) :
    EngineState × Except Err Nat :=
  match updatePre s stmt with
  | .error e => (s, .error e)
  | .ok (t, rows, matching) =>
    updateLoop t stmt.table_name stmt.set_clauses rows s matching 0

/-- `execute_delete`'s row loop: append one DELETE entry per matched row and
remove it from the indexes; the loop itself never fails. -/
def deleteLoop (t : Table) (t_name : String) :
    EngineState → List Row → Nat → EngineState × Nat
  | s, [], n => (s, n)
  | s, r :: tl, n =>
    let entry := create_entry s.counter t_name .DELETE (some r) Option.none
    let s1 := { s with counter := s.counter + 1, ledger := s.ledger ++ [entry] }
    deleteLoop t t_name { s1 with indexes := s1.indexes.remove_row t r } tl (n + 1)

/-- `QueryExecutor.execute_delete`: reconstruct, filter by WHERE, then run
the row loop. -/
def deletePre (s : EngineState) (stmt : DeleteStatement) :
    Except Err (Table × List Row) := do
  let t ← getTable s stmt.table_name
  let pkc ← getPKCol t
  let rows := reconstruct_state_with_primary_key s.ledger stmt.table_name pkc.name
  let matching ←
    match stmt.where_clause with
    | some w => applyWhereClause rows w
    | Option.none => .ok rows
  .ok (t, matching)

/-- `QueryExecutor.execute_delete` (continued): run the row loop on the
filtered rows. -/
def execute_delete (s : EngineState) (stmt : DeleteStatement) :
    EngineState × Except Err Nat :=
  match deletePre s stmt with
  | .error e => (s, .error e)
  | .ok (t, matching) =>
    let p := deleteLoop t stmt.table_name s matching 0
    (p.1, .ok p.2)

-- ## Failure atomicity (C3)

/-- `true` exactly on a successful `Except` result. -/
def isOkB {α : Type} : Except Err α → Bool
  | .ok _ => true
  | .error _ => false

theorem updateOneRow_error_state {s : EngineState} {t : Table} {t_name : String}
    {sc : List (String × Value)} {allRows : List Row} {r : Row} {s1 : EngineState} {e : Err}
    (h : updateOneRow s t t_name sc allRows r = (s1, .error e)) : s1 = s := by
  simp only [updateOneRow] at h
  cases hv : validate_constraints_for_update t r (applySetClauses t sc r)
      (allRows.filter (fun x => !rowEq x r))
      (sget s.indexes.primary_key_indexes t_name)
      (sget s.indexes.unique_indexes t_name) with
  | error e2 => rw [hv] at h; simp at h; exact h.1.symm
  | ok u => rw [hv] at h; simp at h

theorem updateLoop_error_prefix {t : Table} {t_name : String}
    {sc : List (String × Value)} {allRows : List Row} :
    ∀ (rows : List Row) (s : EngineState) (n : Nat) (s2 : EngineState) (e : Err),
    updateLoop t t_name sc allRows s rows n = (s2, .error e) →
    ∃ k, k ≤ rows.length
      ∧ updateLoop t t_name sc allRows s (rows.take k) n = (s2, .ok (n + k)) := by
  intro rows
  induction rows with
  | nil => intro s n s2 e h; simp [updateLoop] at h
  | cons r tl ih =>
    intro s n s2 e h
    unfold updateLoop at h
    cases hone : updateOneRow s t t_name sc allRows r with
    | mk s1 res =>
      cases res with
      | ok u =>
        rw [hone] at h
        simp only at h
        rcases ih s1 (n + 1) s2 e h with ⟨k, hk, hpre⟩
        refine ⟨k + 1, by simp; omega, ?_⟩
        simp only [List.take_succ_cons]
        unfold updateLoop
        rw [hone]
        simp only
        rw [hpre]
        congr 2
        omega
      | error e2 =>
        rw [hone] at h
        simp only at h
        rw [Prod.mk.injEq] at h
        have hs1 : s1 = s := updateOneRow_error_state hone
        refine ⟨0, by simp, ?_⟩
        simp only [List.take_zero, updateLoop]
        rw [← h.1, hs1]
        norm_num

theorem updateLoop_ledger_extends {t : Table} {t_name : String}
    {sc : List (String × Value)} {allRows : List Row} :
    ∀ (rows : List Row) (s : EngineState) (n : Nat),
    ∃ es, (updateLoop t t_name sc allRows s rows n).1.ledger = s.ledger ++ es
      ∧ ∀ e ∈ es, e.operation = OperationType.UPDATE ∧ e.table_name = t_name := by
  intro rows
  induction rows with
  | nil => intro s n; exact ⟨[], by simp [updateLoop], by simp⟩
  | cons r tl ih =>
    intro s n
    unfold updateLoop
    cases hone : updateOneRow s t t_name sc allRows r with
    | mk s1 res =>
      cases res with
      | ok u =>
        simp only
        rcases ih s1 (n + 1) with ⟨es, hled, hall⟩
        have hs1 : s1.ledger = s.ledger ++
            [create_entry s.counter t_name .UPDATE (some r)
              (some (applySetClauses t sc r))] := by
          simp only [updateOneRow] at hone
          cases hv : validate_constraints_for_update t r (applySetClauses t sc r)
              (allRows.filter (fun x => !rowEq x r))
              (sget s.indexes.primary_key_indexes t_name)
              (sget s.indexes.unique_indexes t_name) with
          | error e2 => rw [hv] at hone; simp at hone
          | ok u2 =>
            rw [hv] at hone
            simp only at hone
            rw [Prod.mk.injEq] at hone
            rw [← hone.1]
        refine ⟨create_entry s.counter t_name .UPDATE (some r)
            (some (applySetClauses t sc r)) :: es, ?_, ?_⟩
        · rw [hled, hs1]; simp
        · intro e he
          rcases List.mem_cons.mp he with he | he
          · subst he; exact ⟨rfl, rfl⟩
          · exact hall e he
      | error e2 =>
        simp only
        have hs1 : s1 = s := updateOneRow_error_state hone
        exact ⟨[], by rw [hs1]; simp, by simp⟩

/-- C3 (amended). A failing INSERT leaves the engine unchanged; a failing
DELETE leaves the engine unchanged (its row loop performs no validation and
never fails); a failing UPDATE keeps exactly the ledger entries and index
updates of the candidate rows processed before the failing candidate — its
final state is the state after successfully processing some prefix of the
candidate set, and its ledger is the old ledger extended by UPDATE entries
for the affected table only.  (The original claim's "byte-for-byte unchanged"
is false for a multi-row UPDATE failing on a later candidate.) -/
theorem C3_amended_failure_atomicity :
    (∀ (s : EngineState) (stmt : InsertStatement) (s2 : EngineState) (e : Err),
      execute_insert s stmt = (s2, .error e) → s2 = s)
    ∧ (∀ (s : EngineState) (stmt : DeleteStatement) (s2 : EngineState) (e : Err),
      execute_delete s stmt = (s2, .error e) → s2 = s)
    ∧ (∀ (t : Table) (t_name : String) (sc : List (String × Value)) (allRows rows : List Row)
        (s : EngineState) (n : Nat) (s2 : EngineState) (e : Err),
      updateLoop t t_name sc allRows s rows n = (s2, .error e) →
      ∃ k, k ≤ rows.length
        ∧ updateLoop t t_name sc allRows s (rows.take k) n = (s2, .ok (n + k)))
    ∧ (∀ (s : EngineState) (stmt : UpdateStatement) (s2 : EngineState) (e : Err),
      execute_update s stmt = (s2, .error e) →
      ∃ es, s2.ledger = s.ledger ++ es
        ∧ ∀ en ∈ es, en.operation = OperationType.UPDATE ∧ en.table_name = stmt.table_name) := by
  refine ⟨?_, ?_, ?_, ?_⟩
  · intro s stmt s2 e h
    unfold execute_insert at h
    cases hc : insertChecks s stmt with
    | error e2 => rw [hc] at h; simp at h; exact h.1.symm
    | ok p => rw [hc] at h; simp at h
  · intro s stmt s2 e h
    unfold execute_delete at h
    cases hc : deletePre s stmt with
    | error e2 => rw [hc] at h; simp at h; exact h.1.symm
    | ok p => rw [hc] at h; simp at h
  · intro t t_name sc allRows rows s n s2 e h
    exact updateLoop_error_prefix rows s n s2 e h
  · intro s stmt s2 e h
    unfold execute_update at h
    cases hc : updatePre s stmt with
    | error e2 =>
      rw [hc] at h; simp at h
      exact ⟨[], by rw [← h.1]; simp, by simp⟩
    | ok p =>
      rw [hc] at h
      simp only at h
      rcases @updateLoop_ledger_extends p.1 stmt.table_name stmt.set_clauses p.2.1 p.2.2 s 0
        with ⟨es, hled, hall⟩
      rw [h] at hled
      exact ⟨es, hled, hall⟩

-- ## Concrete engine scenarios for C3, C5 and C8

/-- Column constructor shorthand for the concrete scenarios below. -/
def mkColumn (n : String) (dt : DataType) (pk u : Bool) : Column :=
  { name := n, data_type := dt, is_primary_key := pk, is_unique := u }

/-- Engine after `CREATE TABLE v (id INT PRIMARY KEY, u TEXT UNIQUE)` and
inserting rows `(1, 'a')` and `(2, 'b')`. -/
def c3_state : EngineState :=
  (execute_insert
    (execute_insert
      (execute_create_table EngineState.empty
        { table_name := "v",
          columns := [mkColumn "id" .INT true false, mkColumn "u" .TEXT false true] }).1
      { table_name := "v", values := [.int 1, .str "a"] }).1
    { table_name := "v", values := [.int 2, .str "b"] }).1

/-- `UPDATE v SET u = 'c'` (no WHERE): two candidates, the second fails. -/
def c3_stmt : UpdateStatement :=
  { table_name := "v", set_clauses := [("u", .str "c")], where_clause := Option.none }

/-- C3 counterexample: a multi-row UPDATE whose second candidate fails
validation raises a constraint violation but leaves the first candidate's
UPDATE entry in the ledger — the ledger is not byte-for-byte unchanged. -/
theorem C3_counterexample_multirow_update :
    (execute_update c3_state c3_stmt).2 = .error .constraintViolation
    ∧ c3_state.ledger.length = 2
    ∧ (execute_update c3_state c3_stmt).1.ledger.length = 3 :=
  ⟨rfl, rfl, rfl⟩

/-- Closed witness for C3 (amended): a failing INSERT (duplicate primary
key) leaves the engine state unchanged, and the failing multi-row UPDATE's
final state is the state after the successful one-candidate prefix. -/
theorem C3_amended_witness :
    (execute_insert c3_state { table_name := "v", values := [.int 1, .str "zz"] }).1 = c3_state
    ∧ (execute_update c3_state c3_stmt).1
        = (updateLoop (Table.mk "v" [mkColumn "id" .INT true false, mkColumn "u" .TEXT false true])
            "v" [("u", .str "c")]
            (reconstruct_state_with_primary_key c3_state.ledger "v" "id")
            c3_state
            ((reconstruct_state_with_primary_key c3_state.ledger "v" "id").take 1) 0).1 := by
  constructor
  · exact C3_amended_failure_atomicity.1 c3_state
      { table_name := "v", values := [.int 1, .str "zz"] }
      (execute_insert c3_state { table_name := "v", values := [.int 1, .str "zz"] }).1
      .constraintViolation rfl
  · have h := C3_amended_failure_atomicity.2.2.1
      (Table.mk "v" [mkColumn "id" .INT true false, mkColumn "u" .TEXT false true])
      "v" [("u", .str "c")]
      (reconstruct_state_with_primary_key c3_state.ledger "v" "id")
      (reconstruct_state_with_primary_key c3_state.ledger "v" "id")
      c3_state 0
      (execute_update c3_state c3_stmt).1 .constraintViolation rfl
    rcases h with ⟨k, hk, hpre⟩
    have hk1 : k = 1 := by
      rcases Nat.lt_or_ge k 1 with h1 | h1
      · interval_cases k
        · exact absurd hpre (by decide)
      · rcases Nat.lt_or_ge k 2 with h2 | h2
        · omega
        · have hk2 : k = 2 := by
            have : (reconstruct_state_with_primary_key c3_state.ledger "v" "id").length = 2 := by
              decide
            omega
          rw [hk2] at hpre
          exact absurd hpre (by decide)
    rw [hk1] at hpre
    rw [congrArg Prod.fst hpre]

-- ## Index/ledger agreement (C5) — counterexample

/-- Engine after `CREATE TABLE t (id INT PRIMARY KEY)` and `INSERT (1)`. -/
def c5_state : EngineState :=
  (execute_insert
    (execute_create_table EngineState.empty
      { table_name := "t", columns := [mkColumn "id" .INT true false] }).1
    { table_name := "t", values := [.int 1] }).1

/-- `UPDATE t SET id = 2` — a primary-key-changing update. -/
def c5_stmt : UpdateStatement :=
  { table_name := "t", set_clauses := [("id", .int 2)], where_clause := Option.none }

/-- C5 counterexample: a successful primary-key-changing UPDATE leaves the
reconstruction with both the old slot (key 1) and the new slot (key 2),
while the primary-key index holds only the new slot — the index does not
equal the reconstruction keyed by the primary key. -/
theorem C5_counterexample_pk_change :
    (execute_update c5_state c5_stmt).2 = .ok 1
    ∧ vget ((sget (execute_update c5_state c5_stmt).1.indexes.primary_key_indexes "t").getD [])
        (Value.int 1) = Option.none
    ∧ vget (reconKeyed (execute_update c5_state c5_stmt).1.ledger "t" "id")
        (Value.int 1) = some [("id", Value.int 1)] :=
  ⟨rfl, rfl, rfl⟩

-- ## UPDATE constraint validation (C8)

theorem updateUniqueLoop_ok_of_unchanged (t : Table) (old_row new_row : Row)
    (existing : List Row) (uniqIdx : Option (List (String × VDict))) :
    ∀ cols : List Column,
    (∀ c ∈ cols, c.is_unique = true → c.is_primary_key = false →
      (pyEq (rowGet old_row c.name) (rowGet new_row c.name) = true
        ∨ rowGet new_row c.name = Value.none)) →
    updateUniqueLoop t old_row new_row existing uniqIdx cols = .ok () := by
  intro cols
  induction cols with
  | nil => intro _; rfl
  | cons c tl ih =>
    intro hall
    unfold updateUniqueLoop
    by_cases hcu : c.is_unique = true ∧ c.is_primary_key = false
    · simp only [hcu, not_true_eq_false, if_false]
      have hc := hall c (by simp) hcu.1 hcu.2
      have hcond : ¬(¬pyEq (rowGet old_row c.name) (rowGet new_row c.name) = true
          ∧ rowGet new_row c.name ≠ Value.none) := by
        rcases hc with hc | hc
        · intro hx; exact hx.1 hc
        · intro hx; exact hx.2 hc
      simp only [hcond, if_false]
      exact ih (fun c2 h2 => hall c2 (by simp [h2]))
    · simp only [hcu, not_false_eq_true, if_true]
      exact ih (fun c2 h2 => hall c2 (by simp [h2]))

theorem uniqueLoop_error_of_indexed (row : Row) (existing : List Row)
    (ui : List (String × VDict)) (c2 : Column) (d : VDict) :
    ∀ cols : List Column,
    c2 ∈ cols → c2.is_unique = true → c2.is_primary_key = false →
    rowGet row c2.name ≠ Value.none →
    sget ui c2.name = some d → vmem d (rowGet row c2.name) = true →
    isOkB (uniqueLoop row existing (some ui) cols) = false := by
  intro cols
  induction cols with
  | nil => intro hmem; simp at hmem
  | cons c tl ih =>
    intro hmem hu hpk hnn hsg hvm
    unfold uniqueLoop
    by_cases hcu : c.is_unique = true ∧ c.is_primary_key = false
    · simp only [hcu, not_true_eq_false, if_false]
      by_cases hvn : rowGet row c.name = Value.none
      · simp only [hvn, if_pos rfl]
        have hmem2 : c2 ∈ tl := by
          rcases List.mem_cons.mp hmem with h | h
          · subst h; exact absurd hvn hnn
          · exact h
        exact ih hmem2 hu hpk hnn hsg hvm
      · simp only [hvn, if_neg hvn]
        cases hsub : sget ui c.name with
        | some dc =>
          by_cases hvmc : vmem dc (rowGet row c.name) = true
          · simp [hvmc, isOkB]
          · simp only [hvmc, if_false]
            have hmem2 : c2 ∈ tl := by
              rcases List.mem_cons.mp hmem with h | h
              · subst h
                rw [hsg] at hsub
                cases hsub
                exact absurd hvm hvmc
              · exact h
            simpa using ih hmem2 hu hpk hnn hsg hvm
        | none =>
          by_cases hany : existing.any (fun r => pyEq (rowGet r c.name) (rowGet row c.name)) = true
          · simp [hany, isOkB]
          · simp only [hany, if_false]
            have hmem2 : c2 ∈ tl := by
              rcases List.mem_cons.mp hmem with h | h
              · subst h; rw [hsg] at hsub; cases hsub
              · exact h
            simpa using ih hmem2 hu hpk hnn hsg hvm
    · simp only [hcu, not_false_eq_true, if_true]
      have hmem2 : c2 ∈ tl := by
        rcases List.mem_cons.mp hmem with h | h
        · subst h; exact absurd ⟨hu, hpk⟩ hcu
        · exact h
      exact ih hmem2 hu hpk hnn hsg hvm

theorem updateUniqueLoop_error_of_changed (t : Table) (old_row new_row : Row)
    (existing : List Row) (ui : List (String × VDict)) (c1 : Column) :
    ∀ cols : List Column,
    c1 ∈ cols → c1.is_unique = true → c1.is_primary_key = false →
    pyEq (rowGet old_row c1.name) (rowGet new_row c1.name) = false →
    rowGet new_row c1.name ≠ Value.none →
    isOkB (validate_unique_constraints t new_row existing (some ui)) = false →
    isOkB (updateUniqueLoop t old_row new_row existing (some ui) cols) = false := by
  intro cols
  induction cols with
  | nil => intro hmem; simp at hmem
  | cons c tl ih =>
    intro hmem hu hpk hch hnn hv
    unfold updateUniqueLoop
    by_cases hcu : c.is_unique = true ∧ c.is_primary_key = false
    · rw [if_neg (not_not_intro hcu)]
      by_cases htrig : ¬pyEq (rowGet old_row c.name) (rowGet new_row c.name) = true
          ∧ rowGet new_row c.name ≠ Value.none
      · rw [if_pos htrig]
        cases hvc : validate_unique_constraints t new_row existing (some ui) with
        | ok u => rw [hvc] at hv; simp [isOkB] at hv
        | error e => simp [isOkB]
      · rw [if_neg htrig]
        have hmem2 : c1 ∈ tl := by
          rcases List.mem_cons.mp hmem with h | h
          · subst h
            exact absurd ⟨by rw [hch]; simp, hnn⟩ htrig
          · exact h
        exact ih hmem2 hu hpk hch hnn hv
    · rw [if_pos hcu]
      have hmem2 : c1 ∈ tl := by
        rcases List.mem_cons.mp hmem with h | h
        · subst h; exact absurd ⟨hu, hpk⟩ hcu
        · exact h
      exact ih hmem2 hu hpk hch hnn hv

/-- C8 (amended). For an UPDATE, an unchanged primary key is not re-checked,
and when every non-primary-key unique column is unchanged (or set to NULL)
no unique re-validation runs at all — `validate_constraints_for_update`
succeeds.  But when any unique column's value changes to a non-`None` value,
the *entire* unique validation of the post-mutation row re-runs against the
unique indexes, which still hold the pre-update row; so an update that
changes one unique column while leaving another unique column's non-`None`
indexed value unchanged fails with a unique-constraint violation on the
unchanged column, contrary to the original claim. -/
theorem C8_amended_update_validation :
    (∀ (t : Table) (old_row new_row : Row) (existing : List Row)
        (pkIdx : Option VDict) (uniqIdx : Option (List (String × VDict))) (pkc : Column),
      t.get_primary_key_column = some pkc →
      pyEq (rowGet old_row pkc.name) (rowGet new_row pkc.name) = true →
      (∀ c ∈ t.columns, c.is_unique = true → c.is_primary_key = false →
        (pyEq (rowGet old_row c.name) (rowGet new_row c.name) = true
          ∨ rowGet new_row c.name = Value.none)) →
      validate_constraints_for_update t old_row new_row existing pkIdx uniqIdx = .ok ())
    ∧ (∀ (t : Table) (old_row new_row : Row) (existing : List Row)
        (pkIdx : Option VDict) (ui : List (String × VDict)) (pkc c1 c2 : Column) (d : VDict),
      t.get_primary_key_column = some pkc →
      pyEq (rowGet old_row pkc.name) (rowGet new_row pkc.name) = true →
      c1 ∈ t.columns → c1.is_unique = true → c1.is_primary_key = false →
      pyEq (rowGet old_row c1.name) (rowGet new_row c1.name) = false →
      rowGet new_row c1.name ≠ Value.none →
      c2 ∈ t.columns → c2.is_unique = true → c2.is_primary_key = false →
      rowGet new_row c2.name ≠ Value.none →
      sget ui c2.name = some d →
      vmem d (rowGet new_row c2.name) = true →
      isOkB (validate_constraints_for_update t old_row new_row existing pkIdx (some ui))
        = false) := by
  constructor
  · intro t old_row new_row existing pkIdx uniqIdx pkc hpkc hpkeq hall
    unfold validate_constraints_for_update
    rw [hpkc]
    simp only [hpkeq, not_true_eq_false, if_false]
    exact updateUniqueLoop_ok_of_unchanged t old_row new_row existing uniqIdx t.columns hall
  · intro t old_row new_row existing pkIdx ui pkc c1 c2 d hpkc hpkeq hm1 hu1 hp1 hch1 hnn1
      hm2 hu2 hp2 hnn2 hsg hvm
    unfold validate_constraints_for_update
    rw [hpkc]
    simp only [hpkeq, not_true_eq_false, if_false]
    have hfull : isOkB (validate_unique_constraints t new_row existing (some ui)) = false :=
      uniqueLoop_error_of_indexed new_row existing ui c2 d t.columns hm2 hu2 hp2 hnn2 hsg hvm
    exact updateUniqueLoop_error_of_changed t old_row new_row existing ui c1 t.columns
      hm1 hu1 hp1 hch1 hnn1 hfull

/-- Engine after `CREATE TABLE u (id INT PRIMARY KEY, a TEXT UNIQUE,
b TEXT UNIQUE)` and `INSERT (1, 'x', 'y')`. -/
def c8_state : EngineState :=
  (execute_insert
    (execute_create_table EngineState.empty
      { table_name := "u",
        columns := [mkColumn "id" .INT true false, mkColumn "a" .TEXT false true,
          mkColumn "b" .TEXT false true] }).1
    { table_name := "u", values := [.int 1, .str "x", .str "y"] }).1

/-- `UPDATE u SET a = 'z'`: changes unique column `a`, leaves `b` unchanged. -/
def c8_stmt : UpdateStatement :=
  { table_name := "u", set_clauses := [("a", .str "z")], where_clause := Option.none }

/-- C8 counterexample: the update changing only unique column `a` fails with
a unique-constraint violation (raised for the unchanged column `b`, whose
value is still indexed from the row itself), leaving the state unchanged —
the original claim says it must not fail on the unchanged column. -/
theorem C8_counterexample_unchanged_unique_fails :
    (execute_update c8_state c8_stmt).2 = .error .constraintViolation
    ∧ (execute_update c8_state c8_stmt).1 = c8_state :=
  ⟨rfl, rfl⟩

/-- Closed witness for C8 (amended), at the concrete `u` table: an update
leaving every unique column unchanged validates, and the `a`-changing update
fails validation against the live unique indexes. -/
theorem C8_amended_witness :
    validate_constraints_for_update
      (Table.mk "u" [mkColumn "id" .INT true false, mkColumn "a" .TEXT false true,
        mkColumn "b" .TEXT false true])
      [("id", .int 1), ("a", .str "x"), ("b", .str "y")]
      [("id", .int 1), ("a", .str "x"), ("b", .str "y")]
      [] Option.none Option.none = .ok ()
    ∧ isOkB (validate_constraints_for_update
        (Table.mk "u" [mkColumn "id" .INT true false, mkColumn "a" .TEXT false true,
          mkColumn "b" .TEXT false true])
        [("id", .int 1), ("a", .str "x"), ("b", .str "y")]
        [("id", .int 1), ("a", .str "z"), ("b", .str "y")]
        []
        Option.none
        (some [("a", [(Value.str "x", [("id", .int 1), ("a", .str "x"), ("b", .str "y")])]),
               ("b", [(Value.str "y", [("id", .int 1), ("a", .str "x"), ("b", .str "y")])])]))
      = false := by
  constructor
  · exact C8_amended_update_validation.1
      (Table.mk "u" [mkColumn "id" .INT true false, mkColumn "a" .TEXT false true,
        mkColumn "b" .TEXT false true])
      [("id", .int 1), ("a", .str "x"), ("b", .str "y")]
      [("id", .int 1), ("a", .str "x"), ("b", .str "y")]
      [] Option.none Option.none (mkColumn "id" .INT true false)
      (by decide) (by decide) (by decide)
  · exact C8_amended_update_validation.2
      (Table.mk "u" [mkColumn "id" .INT true false, mkColumn "a" .TEXT false true,
        mkColumn "b" .TEXT false true])
      [("id", .int 1), ("a", .str "x"), ("b", .str "y")]
      [("id", .int 1), ("a", .str "z"), ("b", .str "y")]
      []
      Option.none
      [("a", [(Value.str "x", [("id", .int 1), ("a", .str "x"), ("b", .str "y")])]),
       ("b", [(Value.str "y", [("id", .int 1), ("a", .str "x"), ("b", .str "y")])])]
      (mkColumn "id" .INT true false) (mkColumn "a" .TEXT false true)
      (mkColumn "b" .TEXT false true)
      [(Value.str "y", [("id", .int 1), ("a", .str "x"), ("b", .str "y")])]
      (by decide) (by decide) (by decide) (by decide) (by decide) (by decide)
      (by decide) (by decide) (by decide) (by decide) (by decide) (by decide) (by decide)

-- ## Lexer (`src/parser/lexer.py`)

/-- Token kinds produced by the lexer. -/
inductive TokenType where
  | CREATE | TABLE | INSERT | INTO | VALUES | SELECT | FROM | WHERE | UPDATE
  | SET | DELETE | JOIN | INNER | ON
  | INT | TEXT | FLOAT | BOOLEAN | TIMESTAMP
  | PRIMARY | KEY | UNIQUE
  | EQUALS | NOT_EQUALS | GREATER | LESS | GREATER_EQUAL | LESS_EQUAL | AND | OR
  | IDENTIFIER | STRING | NUMBER | BOOLEAN_LITERAL | NULL
  | SEMICOLON | COMMA | LEFT_PAREN | RIGHT_PAREN | DOT | ASTERISK
  | EOF
deriving DecidableEq, Repr

/-- A lexer token with its line/column. -/
structure Token where
  type : TokenType
  value : String
  line : Nat
  col : Nat
deriving DecidableEq, Repr

/-- The single-quote character. -/
def squoteChar : Char := Char.ofNat 39

/-- The double-quote character. -/
def dquoteChar : Char := Char.ofNat 34

/-- The backslash character. -/
def backslashChar : Char := Char.ofNat 92

/-- The newline character. -/
def newlineChar : Char := Char.ofNat 10

/-- Python `str.isspace` (ASCII whitespace; no input here uses more). -/
def pyIsSpace (c : Char) : Bool :=
  c == ' ' || c == Char.ofNat 9 || c == newlineChar || c == Char.ofNat 13
    || c == Char.ofNat 11 || c == Char.ofNat 12

/-- Line/column tracking of the lexer. -/
structure LexPos where
  line : Nat
  col : Nat
deriving DecidableEq, Repr

/-- `Lexer.advance`'s position update for one consumed character (advancing
past end of input still bumps the column, as the Python does). -/
def advPos (p : LexPos) (c : Char) : LexPos :=
  if c == newlineChar then { line := p.line + 1, col := 1 }
  else { line := p.line, col := p.col + 1 }

/-- Position after consuming a list of characters. -/
def advPosMany (p : LexPos) (cs : List Char) : LexPos :=
  cs.foldl advPos p

/-- A character of an identifier tail (`isalnum() or '_'`). -/
def isIdentChar (c : Char) : Bool :=
  c.isAlphanum || c == '_'

/-- `Lexer.read_identifier`: the identifier characters and the rest. -/
def readIdent : List Char → List Char × List Char
  | [] => ([], [])
  | c :: tl =>
    if isIdentChar c then
      let p := readIdent tl
      (c :: p.1, p.2)
    else ([], c :: tl)

/-- A digit run and the rest. -/
def readDigits : List Char → List Char × List Char
  | [] => ([], [])
  | c :: tl =>
    if c.isDigit then
      let p := readDigits tl
      (c :: p.1, p.2)
    else ([], c :: tl)

/-- `Lexer.read_number`: digits, optionally a dot and more digits. -/
def readNumber (cs : List Char) : List Char × List Char :=
  let p := readDigits cs
  match p.2 with
  | c :: tl =>
    if c == '.' then
      let q := readDigits tl
      (p.1 ++ c :: q.1, q.2)
    else p
  | [] => p

/-- The scanning loop of `Lexer.read_string` after the opening quote: stop
before an unescaped closing quote; a backslash always consumes the following
character into the raw value; an unterminated string consumes to the end of
input.  Returns the raw (still escaped) characters and the rest, which
starts with the closing quote when one was found. -/
def readStringLoop (q : Char) : List Char → List Char × List Char
  | [] => ([], [])
  | c :: tl =>
    if c == q then ([], c :: tl)
    else if c == backslashChar then
      match tl with
      | [] => ([c], [])
      | c2 :: tl2 =>
        let p := readStringLoop q tl2
        (c :: c2 :: p.1, p.2)
    else
      let p := readStringLoop q tl
      (c :: p.1, p.2)

/-- One pass of Python `str.replace` for a two-character pattern
`backslash·x`, replaced left-to-right and non-overlapping by `rep`. -/
def replaceEsc (x rep : Char) : List Char → List Char
  | [] => []
  | [c] => [c]
  | c1 :: c2 :: tl =>
    if c1 == backslashChar && c2 == x then rep :: replaceEsc x rep tl
    else c1 :: replaceEsc x rep (c2 :: tl)

/-- `Lexer.read_string`'s unescaping:
`value.replace("\\'", "'").replace('\\"', '"').replace("\\n", "\n")`. -/
def unescapeString (l : List Char) : List Char :=
  replaceEsc 'n' newlineChar
    (replaceEsc dquoteChar dquoteChar (replaceEsc squoteChar squoteChar l))

/-- Python `identifier.upper()` (ASCII). -/
def pyUpper (s : String) : String :=
  String.mk (s.toList.map Char.toUpper)

/-- The keyword table of the lexer (`Lexer.KEYWORDS`). -/
def keywordType (s : String) : Option TokenType :=
  if s == "CREATE" then some .CREATE
  else if s == "TABLE" then some .TABLE
  else if s == "INSERT" then some .INSERT
  else if s == "INTO" then some .INTO
  else if s == "VALUES" then some .VALUES
  else if s == "SELECT" then some .SELECT
  else if s == "FROM" then some .FROM
  else if s == "WHERE" then some .WHERE
  else if s == "UPDATE" then some .UPDATE
  else if s == "SET" then some .SET
  else if s == "DELETE" then some .DELETE
  else if s == "JOIN" then some .JOIN
  else if s == "INNER" then some .INNER
  else if s == "ON" then some .ON
  else if s == "INT" then some .INT
  else if s == "TEXT" then some .TEXT
  else if s == "FLOAT" then some .FLOAT
  else if s == "BOOLEAN" then some .BOOLEAN
  else if s == "TIMESTAMP" then some .TIMESTAMP
  else if s == "PRIMARY" then some .PRIMARY
  else if s == "KEY" then some .KEY
  else if s == "UNIQUE" then some .UNIQUE
  else if s == "AND" then some .AND
  else if s == "OR" then some .OR
  else if s == "NULL" then some .NULL
  else Option.none

/-- Token constructor shorthand. -/
def mkTok (t : TokenType) (v : String) (line col : Nat) : Token :=
  { type := t, value := v, line := line, col := col }

/-- `Lexer.tokenize`'s main loop, fuel-indexed (every iteration consumes at
least one character, so fuel exceeding the remaining length never runs out;
`tokenize` supplies such fuel). -/
def lexLoop : Nat → List Char → LexPos → List Token → Except Err (List Token)
  | 0, _, _, _ => .error .fuelExhausted
  | _ + 1, [], pos, acc => .ok (acc ++ [mkTok .EOF "" pos.line pos.col])
  | fuel + 1, c :: tl, pos, acc =>
    if pyIsSpace c then lexLoop fuel tl (advPos pos c) acc
    else if c == '-' && tl.head? == some '-' then
      -- skip_comment: consume to (not including) the newline; `c` itself
      -- satisfies the predicate, so dropping from `tl` drops from `c :: tl`
      lexLoop fuel (tl.dropWhile (fun x => !(x == newlineChar)))
        (advPosMany pos (c :: tl.takeWhile (fun x => !(x == newlineChar)))) acc
    else if c == ';' then
      lexLoop fuel tl (advPos pos c) (acc ++ [mkTok .SEMICOLON ";" pos.line pos.col])
    else if c == ',' then
      lexLoop fuel tl (advPos pos c) (acc ++ [mkTok .COMMA "," pos.line pos.col])
    else if c == '(' then
      lexLoop fuel tl (advPos pos c) (acc ++ [mkTok .LEFT_PAREN "(" pos.line pos.col])
    else if c == ')' then
      lexLoop fuel tl (advPos pos c) (acc ++ [mkTok .RIGHT_PAREN ")" pos.line pos.col])
    else if c == '.' then
      lexLoop fuel tl (advPos pos c) (acc ++ [mkTok .DOT "." pos.line pos.col])
    else if c == '*' then
      lexLoop fuel tl (advPos pos c) (acc ++ [mkTok .ASTERISK "*" pos.line pos.col])
    else if c == '=' then
      lexLoop fuel tl (advPos pos c) (acc ++ [mkTok .EQUALS "=" pos.line pos.col])
    else if c == '!' && tl.head? == some '=' then
      lexLoop fuel (tl.drop 1) (advPos (advPos pos c) '=')
        (acc ++ [mkTok .NOT_EQUALS "!=" pos.line pos.col])
    else if c == '<' then
      if tl.head? == some '=' then
        lexLoop fuel (tl.drop 1) (advPos (advPos pos c) '=')
          (acc ++ [mkTok .LESS_EQUAL "<=" pos.line pos.col])
      else
        lexLoop fuel tl (advPos pos c) (acc ++ [mkTok .LESS "<" pos.line pos.col])
    else if c == '>' then
      if tl.head? == some '=' then
        lexLoop fuel (tl.drop 1) (advPos (advPos pos c) '=')
          (acc ++ [mkTok .GREATER_EQUAL ">=" pos.line pos.col])
      else
        lexLoop fuel tl (advPos pos c) (acc ++ [mkTok .GREATER ">" pos.line pos.col])
    else if c == squoteChar || c == dquoteChar then
      match (readStringLoop c tl).2, (readStringLoop c tl).1 with
      | q2 :: tl2, raw =>
        lexLoop fuel tl2 (advPos (advPosMany (advPos pos c) raw) q2)
          (acc ++ [mkTok .STRING (String.mk (unescapeString raw))
            (advPos (advPosMany (advPos pos c) raw) q2).line pos.col])
      | [], raw =>
        lexLoop fuel []
          (LexPos.mk (advPosMany (advPos pos c) raw).line
            ((advPosMany (advPos pos c) raw).col + 1))
          (acc ++ [mkTok .STRING (String.mk (unescapeString raw))
            (advPosMany (advPos pos c) raw).line pos.col])
    else if c.isDigit then
      lexLoop fuel (readNumber (c :: tl)).2 (advPosMany pos (readNumber (c :: tl)).1)
        (acc ++ [mkTok .NUMBER (String.mk (readNumber (c :: tl)).1)
          (advPosMany pos (readNumber (c :: tl)).1).line pos.col])
    else if c.isAlpha || c == '_' then
      match keywordType (pyUpper (String.mk (readIdent (c :: tl)).1)) with
      | some kt =>
        lexLoop fuel (readIdent (c :: tl)).2 (advPosMany pos (readIdent (c :: tl)).1)
          (acc ++ [mkTok kt (pyUpper (String.mk (readIdent (c :: tl)).1))
            (advPosMany pos (readIdent (c :: tl)).1).line pos.col])
      | Option.none =>
        lexLoop fuel (readIdent (c :: tl)).2 (advPosMany pos (readIdent (c :: tl)).1)
          (acc ++ [mkTok .IDENTIFIER (String.mk (readIdent (c :: tl)).1)
            (advPosMany pos (readIdent (c :: tl)).1).line pos.col])
    else .error (.lexicalError c pos.line pos.col)

/-- `Lexer.tokenize`: run the loop from line 1, column 1. -/
def tokenize (s : String) : Except Err (List Token) :=
  lexLoop (s.toList.length + 1) s.toList { line := 1, col := 1 } []

-- ## Unterminated strings and lexer errors (C10)

/-- The input after an opening `q`-quote has no matching closing quote: no
unescaped occurrence of `q` before the end (a backslash always skips the
following character, exactly as the `read_string` loop does). -/
def untermB (q : Char) : List Char → Bool
  | [] => true
  | [c] => !(c == q)
  | c :: c2 :: tl =>
    if c == q then false
    else if c == backslashChar then untermB q tl
    else untermB q (c2 :: tl)

theorem rsl_unterm (q : Char) : ∀ cs : List Char, untermB q cs = true →
    readStringLoop q cs = (cs, [])
  | [], _ => rfl
  | [c], h => by
    simp only [untermB, Bool.not_eq_true'] at h
    simp only [readStringLoop, h, if_false]
    by_cases hb : c == backslashChar
    · simp [hb]
    · simp [hb, readStringLoop]
  | c1 :: c2 :: tl, h => by
    simp only [untermB] at h
    by_cases h1 : c1 == q
    · rw [h1] at h; simp at h
    · rw [if_neg (by simp_all)] at h
      by_cases hb : c1 == backslashChar
      · rw [if_pos hb] at h
        have ih := rsl_unterm q tl h
        rw [readStringLoop, if_neg h1, if_pos hb]
        simp only [ih]
      · rw [if_neg hb] at h
        have ih := rsl_unterm q (c2 :: tl) h
        rw [readStringLoop, if_neg h1, if_neg hb]
        simp only [ih]

theorem readStringLoop_rest_le (q : Char) : ∀ cs : List Char,
    (readStringLoop q cs).2.length ≤ cs.length
  | [] => by simp [readStringLoop]
  | [c] => by
    by_cases h1 : c == q
    · simp [readStringLoop, h1]
    · by_cases hb : c == backslashChar
      · simp [readStringLoop, h1, hb]
      · simp [readStringLoop, h1, hb]
  | c1 :: c2 :: tl => by
    by_cases h1 : c1 == q
    · simp [readStringLoop, h1]
    · by_cases hb : c1 == backslashChar
      · have ih := readStringLoop_rest_le q tl
        rw [readStringLoop, if_neg h1, if_pos hb]
        simp only [List.length_cons]
        omega
      · have ih := readStringLoop_rest_le q (c2 :: tl)
        rw [readStringLoop, if_neg h1, if_neg hb]
        simp only [List.length_cons] at ih ⊢
        omega

theorem readDigits_rest_le : ∀ cs : List Char, (readDigits cs).2.length ≤ cs.length
  | [] => by simp [readDigits]
  | c :: tl => by
    by_cases hd : c.isDigit
    · have ih := readDigits_rest_le tl
      simp only [readDigits, hd, if_true]
      simp only [List.length_cons]
      omega
    · simp [readDigits, hd]

theorem readNumber_rest_le_of_digit (c : Char) (tl : List Char) (hd : c.isDigit = true) :
    (readNumber (c :: tl)).2.length ≤ tl.length := by
  unfold readNumber
  simp only [readDigits, hd, if_true]
  have h1 := readDigits_rest_le tl
  cases hrest : (readDigits tl).2 with
  | nil => simp
  | cons x xs =>
    by_cases hx : x == '.'
    · simp only [hx, if_true]
      have h2 := readDigits_rest_le xs
      rw [hrest] at h1
      simp only [List.length_cons] at h1
      omega
    · simp only [hx, if_false]
      rw [hrest] at h1
      exact h1

theorem readIdent_rest_le : ∀ cs : List Char, (readIdent cs).2.length ≤ cs.length
  | [] => by simp [readIdent]
  | c :: tl => by
    by_cases hi : isIdentChar c
    · have ih := readIdent_rest_le tl
      simp only [readIdent, hi, if_true]
      simp only [List.length_cons]
      omega
    · simp [readIdent, hi]

theorem readIdent_rest_le_cons (c : Char) (tl : List Char) (hi : isIdentChar c = true) :
    (readIdent (c :: tl)).2.length ≤ tl.length := by
  simp only [readIdent, hi, if_true]
  exact readIdent_rest_le tl

/-- The only error the lexer can report with adequate fuel. -/
def isUnexpectedCharErr : Err → Bool
  | .lexicalError _ _ _ => true
  | _ => false

theorem lexLoop_error_unexpected : ∀ (fuel : Nat) (cs : List Char) (pos : LexPos)
    (acc : List Token) (e : Err), cs.length < fuel →
    lexLoop fuel cs pos acc = .error e → isUnexpectedCharErr e = true := by
  intro fuel
  induction fuel with
  | zero => intro cs pos acc e h; omega
  | succ f ih =>
    intro cs pos acc e hlen h
    cases cs with
    | nil => rw [lexLoop] at h; simp at h
    | cons c tl =>
      simp only [List.length_cons] at hlen
      rw [lexLoop] at h
      by_cases h1 : pyIsSpace c = true
      · rw [if_pos h1] at h
        exact ih _ _ _ _ (by omega) h
      · rw [if_neg h1] at h
        by_cases h2 : (c == '-' && tl.head? == some '-') = true
        · rw [if_pos h2] at h
          refine ih _ _ _ _ ?_ h
          have : (tl.dropWhile (fun x => !(x == newlineChar))).length ≤ tl.length :=
            (List.dropWhile_sublist (fun x => !(x == newlineChar))).length_le
          omega
        · rw [if_neg h2] at h
          by_cases h3 : (c == ';') = true
          · rw [if_pos h3] at h
            exact ih _ _ _ _ (by omega) h
          · rw [if_neg h3] at h
            by_cases h4 : (c == ',') = true
            · rw [if_pos h4] at h
              exact ih _ _ _ _ (by omega) h
            · rw [if_neg h4] at h
              by_cases h5 : (c == '(') = true
              · rw [if_pos h5] at h
                exact ih _ _ _ _ (by omega) h
              · rw [if_neg h5] at h
                by_cases h6 : (c == ')') = true
                · rw [if_pos h6] at h
                  exact ih _ _ _ _ (by omega) h
                · rw [if_neg h6] at h
                  by_cases h7 : (c == '.') = true
                  · rw [if_pos h7] at h
                    exact ih _ _ _ _ (by omega) h
                  · rw [if_neg h7] at h
                    by_cases h8 : (c == '*') = true
                    · rw [if_pos h8] at h
                      exact ih _ _ _ _ (by omega) h
                    · rw [if_neg h8] at h
                      by_cases h9 : (c == '=') = true
                      · rw [if_pos h9] at h
                        exact ih _ _ _ _ (by omega) h
                      · rw [if_neg h9] at h
                        by_cases h10 : (c == '!' && tl.head? == some '=') = true
                        · rw [if_pos h10] at h
                          refine ih _ _ _ _ ?_ h
                          have := List.length_drop 1 tl
                          omega
                        · rw [if_neg h10] at h
                          by_cases h11 : (c == '<') = true
                          · rw [if_pos h11] at h
                            by_cases h11a : (tl.head? == some '=') = true
                            · rw [if_pos h11a] at h
                              refine ih _ _ _ _ ?_ h
                              have := List.length_drop 1 tl
                              omega
                            · rw [if_neg h11a] at h
                              exact ih _ _ _ _ (by omega) h
                          · rw [if_neg h11] at h
                            by_cases h12 : (c == '>') = true
                            · rw [if_pos h12] at h
                              by_cases h12a : (tl.head? == some '=') = true
                              · rw [if_pos h12a] at h
                                refine ih _ _ _ _ ?_ h
                                have := List.length_drop 1 tl
                                omega
                              · rw [if_neg h12a] at h
                                exact ih _ _ _ _ (by omega) h
                            · rw [if_neg h12] at h
                              by_cases h13 : (c == squoteChar || c == dquoteChar) = true
                              · rw [if_pos h13] at h
                                have hble := readStringLoop_rest_le c tl
                                rcases hrs : (readStringLoop c tl).2 with _ | ⟨q2, tl2⟩
                                · rw [hrs] at h
                                  exact ih _ _ _ _
                                    (by simp only [List.length_nil]; omega) h
                                · rw [hrs] at h
                                  rw [hrs] at hble
                                  simp only [List.length_cons] at hble
                                  exact ih _ _ _ _ (by omega) h
                              · rw [if_neg h13] at h
                                by_cases h14 : c.isDigit = true
                                · rw [if_pos h14] at h
                                  have := readNumber_rest_le_of_digit c tl h14
                                  exact ih _ _ _ _ (by omega) h
                                · rw [if_neg h14] at h
                                  by_cases h15 : (c.isAlpha || c == '_') = true
                                  · rw [if_pos h15] at h
                                    have hic : isIdentChar c = true := by
                                      have h15a : c.isAlpha = true ∨ (c == '_') = true := by
                                        simpa using h15
                                      rcases h15a with ha | ha
                                      · simp [isIdentChar, Char.isAlphanum, ha]
                                      · simp [isIdentChar, ha]
                                    have hr := readIdent_rest_le_cons c tl hic
                                    cases hkw : keywordType
                                        (pyUpper (String.mk (readIdent (c :: tl)).1)) with
                                    | some kt =>
                                      rw [hkw] at h
                                      exact ih _ _ _ _ (by omega) h
                                    | none =>
                                      rw [hkw] at h
                                      exact ih _ _ _ _ (by omega) h
                                  · rw [if_neg h15] at h
                                    rw [Except.error.injEq] at h
                                    rw [← h]
                                    rfl

theorem lexLoop_string_step (f : Nat) (q : Char) (cs : List Char) (pos : LexPos)
    (acc : List Token)
    (h1 : pyIsSpace q = false) (h2 : (q == '-') = false) (h3 : (q == ';') = false)
    (h4 : (q == ',') = false) (h5 : (q == '(') = false) (h6 : (q == ')') = false)
    (h7 : (q == '.') = false) (h8 : (q == '*') = false) (h9 : (q == '=') = false)
    (h10 : (q == '!') = false) (h11 : (q == '<') = false) (h12 : (q == '>') = false)
    (h13 : (q == squoteChar || q == dquoteChar) = true)
    (hrs : readStringLoop q cs = (cs, [])) :
    lexLoop (f + 1) (q :: cs) pos acc
      = lexLoop f []
          (LexPos.mk (advPosMany (advPos pos q) cs).line
            ((advPosMany (advPos pos q) cs).col + 1))
          (acc ++ [mkTok .STRING (String.mk (unescapeString cs))
            (advPosMany (advPos pos q) cs).line pos.col]) := by
  rw [lexLoop]
  rw [if_neg (by simp [h1]), if_neg (by simp [h2]), if_neg (by simp [h3]),
    if_neg (by simp [h4]), if_neg (by simp [h5]), if_neg (by simp [h6]),
    if_neg (by simp [h7]), if_neg (by simp [h8]), if_neg (by simp [h9]),
    if_neg (by simp [h10]), if_neg (by simp [h11]), if_neg (by simp [h12]),
    if_pos h13]
  rw [hrs]

/-- C10 (amended). On an input whose string literal has no matching closing
quote, the lexer does not raise: `read_string`'s loop consumes to the end of
input with the raw value being all remaining text, and `tokenize` emits a
STRING token whose value is that remaining text *with the simple escapes
`\'`, `\"`, `\n` decoded* (followed only by the EOF token); and `tokenize`
raises a lexical error only on an unexpected character outside any token. -/
theorem C10_amended_unterminated_string :
    (∀ (q : Char) (cs : List Char), untermB q cs = true →
      readStringLoop q cs = (cs, []))
    ∧ (∀ (q : Char) (cs : List Char), (q = squoteChar ∨ q = dquoteChar) →
      untermB q cs = true →
      (tokenize (String.mk (q :: cs))).map (fun ts => ts.map (fun t => (t.type, t.value)))
        = .ok [(TokenType.STRING, String.mk (unescapeString cs)), (TokenType.EOF, "")])
    ∧ (∀ (s : String) (e : Err), tokenize s = .error e →
      isUnexpectedCharErr e = true) := by
  refine ⟨fun q cs hu => rsl_unterm q cs hu, ?_, ?_⟩
  · intro q cs hq hu
    have hrs := rsl_unterm q cs hu
    rcases hq with rfl | rfl
    · show (lexLoop ((squoteChar :: cs).length + 1) (squoteChar :: cs)
          (LexPos.mk 1 1) []).map (fun ts => ts.map (fun t => (t.type, t.value))) = _
      rw [show (squoteChar :: cs).length + 1 = cs.length + 1 + 1 from by simp]
      rw [lexLoop_string_step (cs.length + 1) squoteChar cs (LexPos.mk 1 1) []
        (by decide) (by decide) (by decide) (by decide) (by decide) (by decide)
        (by decide) (by decide) (by decide) (by decide) (by decide) (by decide)
        (by decide) hrs]
      rw [lexLoop]
      rfl
    · show (lexLoop ((dquoteChar :: cs).length + 1) (dquoteChar :: cs)
          (LexPos.mk 1 1) []).map (fun ts => ts.map (fun t => (t.type, t.value))) = _
      rw [show (dquoteChar :: cs).length + 1 = cs.length + 1 + 1 from by simp]
      rw [lexLoop_string_step (cs.length + 1) dquoteChar cs (LexPos.mk 1 1) []
        (by decide) (by decide) (by decide) (by decide) (by decide) (by decide)
        (by decide) (by decide) (by decide) (by decide) (by decide) (by decide)
        (by decide) hrs]
      rw [lexLoop]
      rfl
  · intro s e h
    exact lexLoop_error_unexpected (s.toList.length + 1) s.toList (LexPos.mk 1 1) [] e
      (Nat.lt_succ_self _) h

/-- The unterminated input `'a\nb` (opening quote, then `a`, backslash, `n`,
`b`, no closing quote). -/
def c10cs : List Char := ['a', backslashChar, 'n', 'b']

/-- C10 counterexample: tokenizing the unterminated string `'a\nb` emits a
STRING token whose value decodes the `\n` escape to a newline — the token
value is *not* the remaining text after the opening quote, contrary to the
original claim's wording. -/
theorem C10_counterexample_escape_decoded :
    (tokenize (String.mk (squoteChar :: c10cs))).map (fun ts => ts.map (fun t => t.value))
      = .ok [String.mk ['a', newlineChar, 'b'], ""]
    ∧ String.mk ['a', newlineChar, 'b'] ≠ String.mk c10cs := by
  constructor
  · rfl
  · decide

/-- Closed witness for C10 (amended) at the concrete unterminated inputs
`'x` and `"-` (no escapes, value equals the remaining text verbatim). -/
theorem C10_amended_witness :
    readStringLoop squoteChar ['x'] = (['x'], [])
    ∧ (tokenize (String.mk [dquoteChar, 'y'])).map
        (fun ts => ts.map (fun t => (t.type, t.value)))
      = .ok [(TokenType.STRING, String.mk (unescapeString ['y'])), (TokenType.EOF, "")]
    ∧ isUnexpectedCharErr (Err.lexicalError '@' 1 1) = true := by
  refine ⟨?_, ?_, ?_⟩
  · exact C10_amended_unterminated_string.1 squoteChar ['x'] (by decide)
  · exact C10_amended_unterminated_string.2.1 dquoteChar ['y'] (Or.inr rfl) (by decide)
  · have h : tokenize "@" = .error (Err.lexicalError '@' 1 1) := rfl
    exact C10_amended_unterminated_string.2.2 "@" (Err.lexicalError '@' 1 1) h

-- ## Parser (`src/parser/parser.py`)

/-- `SQLParser.expect`: the head token must have the given type; returns the
token and the rest of the stream. -/
def expect (tt : TokenType) : List Token → Except Err (Token × List Token)
  | [] => .error .parserError
  | t :: tl => if t.type == tt then .ok (t, tl) else .error .parserError

/-- `parse_value`'s NUMBER branch: a dot makes the literal a float, else an
int (the lexer guarantees a parseable digit shape; `getD` is never hit). -/
def parseNumberValue (s : String) : Value :=
  if s.toList.contains '.' then .float ((unsignedDecToRat s.toList).getD 0)
  else .int ((pyIntOfString s).getD 0)

/-- `SQLParser.parse_value`: string, number, boolean or NULL literal. -/
def parse_value : List Token → Except Err (Value × List Token)
  | [] => .error .parserError
  | t :: tl =>
    if t.type == .STRING then .ok (.str t.value, tl)
    else if t.type == .NUMBER then .ok (parseNumberValue t.value, tl)
    else if t.type == .BOOLEAN_LITERAL then .ok (.bool (t.value.toLower == "true"), tl)
    else if t.type == .NULL then .ok (.none, tl)
    else .error .parserError

/-- `SQLParser.parse_simple_condition`: `identifier CMPOP value`, building a
`CONDITION` node. -/
def parse_simple_condition (toks : List Token) : Except Err (WhereClause × List Token) :=
  match expect .IDENTIFIER toks with
  | .error e => .error e
  | .ok (tid, toks1) =>
    match toks1 with
    | [] => .error .parserError
    | t :: tl =>
      let opRes : Except Err (String × List Token) :=
        if t.type == .EQUALS then .ok ("=", tl)
        else if t.type == .NOT_EQUALS then .ok ("!=", tl)
        else if t.type == .GREATER then .ok (">", tl)
        else if t.type == .LESS then .ok ("<", tl)
        else if t.type == .GREATER_EQUAL then .ok (">=", tl)
        else if t.type == .LESS_EQUAL then .ok ("<=", tl)
        else .error .parserError
      match opRes with
      | .error e => .error e
      | .ok (op, toks2) =>
        match parse_value toks2 with
        | .error e => .error e
        | .ok (v, toks3) => .ok (.condition tid.value op v, toks3)

/-- The `while AND` loop of `parse_and_condition` (fuel-indexed; callers pass
fuel exceeding the stream length, which a loop consuming at least three
tokens per iteration never exhausts). -/
def parseAndLoop : Nat → WhereClause → List Token → Except Err (WhereClause × List Token)
  | 0, _, _ => .error .fuelExhausted
  | f + 1, left, toks =>
    match toks with
    | t :: tl =>
      if t.type == .AND then
        match parse_simple_condition tl with
        | .ok (right, rest) => parseAndLoop f (.andNode left right) rest
        | .error e => .error e
      else .ok (left, toks)
    | [] => .ok (left, toks)

/-- `SQLParser.parse_and_condition`. -/
def parse_and_condition (fuel : Nat) (toks : List Token) :
    Except Err (WhereClause × List Token) :=
  match parse_simple_condition toks with
  | .ok (left, rest) => parseAndLoop fuel left rest
  | .error e => .error e

/-- The `while OR` loop of `parse_or_condition`. -/
def parseOrLoop : Nat → WhereClause → List Token → Except Err (WhereClause × List Token)
  | 0, _, _ => .error .fuelExhausted
  | f + 1, left, toks =>
    match toks with
    | t :: tl =>
      if t.type == .OR then
        match parse_and_condition f tl with
        | .ok (right, rest) => parseOrLoop f (.orNode left right) rest
        | .error e => .error e
      else .ok (left, toks)
    | [] => .ok (left, toks)

/-- `SQLParser.parse_or_condition` (OR binds weaker than AND). -/
def parse_or_condition (fuel : Nat) (toks : List Token) :
    Except Err (WhereClause × List Token) :=
  match parse_and_condition fuel toks with
  | .ok (left, rest) => parseOrLoop fuel left rest
  | .error e => .error e

/-- `SQLParser.parse_where_clause`: `WHERE` then the OR-level grammar. -/
def parse_where_clause (fuel : Nat) (toks : List Token) :
    Except Err (WhereClause × List Token) :=
  match expect .WHERE toks with
  | .error e => .error e
  | .ok (_, toks1) => parse_or_condition fuel toks1

/-- A bare or qualified (`t.c`) identifier, as parsed by both the SELECT
column list and the JOIN condition sides: `IDENTIFIER DOT IDENTIFIER` is
joined with a dot, otherwise a single `IDENTIFIER` is taken verbatim. -/
def parseQualifiedName : List Token → Except Err (String × List Token)
  | [] => .error .parserError
  | [t] => if t.type == .IDENTIFIER then .ok (t.value, []) else .error .parserError
  | t :: d :: tl =>
    if t.type == .IDENTIFIER && d.type == .DOT then
      match tl with
      | c :: tl2 =>
        if c.type == .IDENTIFIER then .ok (t.value ++ "." ++ c.value, tl2)
        else .error .parserError
      | [] => .error .parserError
    else if t.type == .IDENTIFIER then .ok (t.value, d :: tl)
    else .error .parserError

/-- `SQLParser.parse_join`: `[INNER] JOIN table ON side = side`, storing the
condition as the single-pair dict `{left: right}` with the sides' spellings
kept verbatim (qualified names keep their qualifier). -/
def parse_join (toks : List Token) : Except Err (JoinClause × List Token) :=
  let toks0 :=
    match toks with
    | t :: tl => if t.type == .INNER then tl else t :: tl
    | [] => []
  match expect .JOIN toks0 with
  | .error e => .error e
  | .ok (_, toks1) =>
    match expect .IDENTIFIER toks1 with
    | .error e => .error e
    | .ok (tname, toks2) =>
      match expect .ON toks2 with
      | .error e => .error e
      | .ok (_, toks3) =>
        match parseQualifiedName toks3 with
        | .error e => .error e
        | .ok (lcol, toks4) =>
          match expect .EQUALS toks4 with
          | .error e => .error e
          | .ok (_, toks5) =>
            match parseQualifiedName toks5 with
            | .error e => .error e
            | .ok (rcol, toks6) =>
              .ok (JoinClause.mk tname.value "INNER" [(lcol, rcol)], toks6)

/-- The SELECT column-list loop (`col [, col]*`). -/
def parseColsLoop : Nat → List String → List Token → Except Err (List String × List Token)
  | 0, _, _ => .error .fuelExhausted
  | f + 1, acc, toks =>
    match parseQualifiedName toks with
    | .error e => .error e
    | .ok (col, rest) =>
      match rest with
      | t :: tl =>
        if t.type == .COMMA then parseColsLoop f (acc ++ [col]) tl
        else .ok (acc ++ [col], rest)
      | [] => .ok (acc ++ [col], [])

/-- The `while INNER|JOIN` loop of `parse_select`. -/
def parseJoinsLoop : Nat → List JoinClause → List Token →
    Except Err (List JoinClause × List Token)
  | 0, _, _ => .error .fuelExhausted
  | f + 1, acc, toks =>
    match toks with
    | t :: _ =>
      if t.type == .INNER || t.type == .JOIN then
        match parse_join toks with
        | .ok (j, rest) => parseJoinsLoop f (acc ++ [j]) rest
        | .error e => .error e
      else .ok (acc, toks)
    | [] => .ok (acc, toks)

/-- `SQLParser.parse_select`: column list, `FROM`, table name, *then* the
optional WHERE clause, *then* the JOIN clauses, then an optional semicolon.
Whatever follows (such as a WHERE clause written after the joins) is left
unconsumed and silently ignored by `parse`. -/
def parse_select (toks : List Token) : Except Err (SelectStatement × List Token) :=
  match expect .SELECT toks with
  | .error e => .error e
  | .ok (_, toks1) =>
    let colsRes : Except Err (List String × List Token) :=
      match toks1 with
      | t :: tl =>
        if t.type == .ASTERISK then .ok (["*"], tl)
        else parseColsLoop (toks1.length + 1) [] toks1
      | [] => .error .parserError
    match colsRes with
    | .error e => .error e
    | .ok (cols, toks2) =>
      match expect .FROM toks2 with
      | .error e => .error e
      | .ok (_, toks3) =>
        match expect .IDENTIFIER toks3 with
        | .error e => .error e
        | .ok (tname, toks4) =>
          let wcRes : Except Err (Option WhereClause × List Token) :=
            match toks4 with
            | t :: _ =>
              if t.type == .WHERE then
                match parse_where_clause (toks4.length + 1) toks4 with
                | .ok (w, rest) => .ok (some w, rest)
                | .error e => .error e
              else .ok (Option.none, toks4)
            | [] => .ok (Option.none, toks4)
          match wcRes with
          | .error e => .error e
          | .ok (wc, toks5) =>
            match parseJoinsLoop (toks5.length + 1) [] toks5 with
            | .error e => .error e
            | .ok (joins, toks6) =>
              let toks7 :=
                match toks6 with
                | t :: tl => if t.type == .SEMICOLON then tl else t :: tl
                | [] => []
              .ok (SelectStatement.mk cols tname.value wc
                (if joins.isEmpty then Option.none else some joins), toks7)

-- ## Compound WHERE filtering (C2), joins (C6), statement form (C7)

/-- Modelled from the spec: WHERE-tree evaluation as the specification words
it — `AND`/`OR` are short-circuit boolean on the child evaluations and a
`CONDITION` node evaluates as in §4.7.6.  This is the comparison semantics
the executor's `_apply_where_clause` is claimed (and fails) to implement for
compound trees. -/
def specEvalWhere : WhereClause → Row → Except Err Bool
  | .condition c op v, row => evalCondOnRow row c op v
  | .andNode l r, row =>
    match specEvalWhere l row with
    | .ok true => specEvalWhere r row
    | .ok false => .ok false
    | .error e => .error e
  | .orNode l r, row =>
    match specEvalWhere l row with
    | .ok true => .ok true
    | .ok false => specEvalWhere r row
    | .error e => .error e

/-- Modelled from the spec: keep exactly the rows on which the WHERE tree
evaluates to true. -/
def specWhereFilter (w : WhereClause) : List Row → Except Err (List Row)
  | [] => .ok []
  | r :: tl =>
    match specEvalWhere w r with
    | .error e => .error e
    | .ok b =>
      match specWhereFilter w tl with
      | .error e => .error e
      | .ok rest => .ok (if b then r :: rest else rest)

/-- The mixed AND/OR scenario query of the claim. -/
def c2_sql : String := "SELECT * FROM p WHERE price > 12 AND price < 20 OR price < 10"

/-- Engine after `CREATE TABLE p (id INT PRIMARY KEY, price INT)` and
inserting prices 10, 25 and 15. -/
def c2_state : EngineState :=
  (execute_insert
    (execute_insert
      (execute_insert
        (execute_create_table EngineState.empty
          { table_name := "p",
            columns := [mkColumn "id" .INT true false, mkColumn "price" .INT false false] }).1
        { table_name := "p", values := [.int 1, .int 10] }).1
      { table_name := "p", values := [.int 2, .int 25] }).1
    { table_name := "p", values := [.int 3, .int 15] }).1

/-- The scenario query lexed and parsed. -/
def c2_stmtE : Except Err (SelectStatement × List Token) :=
  match tokenize c2_sql with
  | .ok toks => parse_select toks
  | .error e => .error e

/-- The WHERE tree the parser builds for the scenario query. -/
def c2_tree : WhereClause :=
  .orNode
    (.andNode (.condition "price" ">" (.int 12)) (.condition "price" "<" (.int 20)))
    (.condition "price" "<" (.int 10))

/-- C2 is a code bug: the scenario query parses to the compound AND/OR tree,
but `execute_select` raises `KeyError('column')` — `_apply_where_clause`
subscripts `where_clause["column"]`, which an `AND`/`OR` node does not have —
instead of returning the one price-15 row that the spec's short-circuit
evaluation (and the repository's own integration tests) require. -/
theorem C2_compound_where_raises_keyerror :
    c2_stmtE.map (fun p => (p.1.where_clause, p.2.map (fun t => t.type)))
      = .ok (some c2_tree, [TokenType.EOF])
    ∧ c2_stmtE.map (fun p => execute_select c2_state p.1)
      = .ok (.error (.keyError "column"))
    ∧ applyWhereClause (reconstruct_state_with_primary_key c2_state.ledger "p" "id") c2_tree
      = .error (.keyError "column")
    ∧ specWhereFilter c2_tree (reconstruct_state_with_primary_key c2_state.ledger "p" "id")
      = .ok [[("id", Value.int 3), ("price", Value.int 15)]] :=
  ⟨rfl, rfl, rfl, rfl⟩

-- C6: qualified join conditions are not stripped

/-- The join clause text of the repository's own join test. -/
def c6_sql : String := "INNER JOIN orders ON users.id = orders.user_id"

/-- The join clause parsed from `c6_sql`. -/
def c6_joinE : Except Err (JoinClause × List Token) :=
  match tokenize c6_sql with
  | .ok toks => parse_join toks
  | .error e => .error e

/-- The users rows of the repository's join test. -/
def c6_users : List Row :=
  [[("id", .int 1), ("name", .str "Alice")],
   [("id", .int 2), ("name", .str "Bob")]]

/-- The orders rows of the repository's join test. -/
def c6_orders : List Row :=
  [[("id", .int 1), ("user_id", .int 1), ("amount", .int 100)],
   [("id", .int 2), ("user_id", .int 1), ("amount", .int 50)],
   [("id", .int 3), ("user_id", .int 2), ("amount", .int 75)]]

/-- C6 is a code bug: the parser keeps the qualified spellings `users.id`
and `orders.user_id` in the join condition, and `_execute_join` looks rows
up by those strings verbatim; both lookups default to `None`, `None == None`
holds, so every pair matches: the 2×3 input yields all 6 merged pairs
instead of the 3 matched pairs that stripping the qualifier (last conjunct)
— and the repository's own `test_join_operations` — produce. -/
theorem C6_qualified_join_is_cross_join :
    c6_joinE.map (fun p => p.1)
      = .ok (JoinClause.mk "orders" "INNER" [("users.id", "orders.user_id")])
    ∧ (executeJoin c6_users c6_orders [("users.id", "orders.user_id")]).length = 6
    ∧ executeJoin c6_users c6_orders [("users.id", "orders.user_id")]
      = (c6_users.map (fun lr => c6_orders.map (fun rr => mergeRows lr rr))).flatten
    ∧ (executeJoin c6_users c6_orders [("id", "user_id")]).length = 3 :=
  ⟨rfl, rfl, rfl, rfl⟩

-- C7: the statement form `SELECT … JOIN … ON … WHERE …`

/-- A SELECT in the dialect's stated form: JOIN before WHERE. -/
def c7_sql : String :=
  "SELECT * FROM users INNER JOIN orders ON id = user_id WHERE amount > 50"

/-- The same query in the order the parser actually accepts:
WHERE before JOIN. -/
def c7b_sql : String :=
  "SELECT * FROM users WHERE amount > 50 INNER JOIN orders ON id = user_id"

/-- `c7_sql` lexed and parsed. -/
def c7_stmtE : Except Err (SelectStatement × List Token) :=
  match tokenize c7_sql with
  | .ok toks => parse_select toks
  | .error e => .error e

/-- `c7b_sql` lexed and parsed. -/
def c7b_stmtE : Except Err (SelectStatement × List Token) :=
  match tokenize c7b_sql with
  | .ok toks => parse_select toks
  | .error e => .error e

/-- Engine with the users/orders tables and rows of the join scenario. -/
def c7_state : EngineState :=
  (execute_insert
    (execute_insert
      (execute_insert
        (execute_insert
          (execute_insert
            (execute_create_table
              (execute_create_table EngineState.empty
                { table_name := "users",
                  columns := [mkColumn "id" .INT true false,
                    mkColumn "name" .TEXT false false] }).1
              { table_name := "orders",
                columns := [mkColumn "id" .INT true false, mkColumn "user_id" .INT false false,
                  mkColumn "amount" .INT false false] }).1
            { table_name := "users", values := [.int 1, .str "Alice"] }).1
          { table_name := "users", values := [.int 2, .str "Bob"] }).1
        { table_name := "orders", values := [.int 1, .int 1, .int 100] }).1
      { table_name := "orders", values := [.int 2, .int 1, .int 50] }).1
    { table_name := "orders", values := [.int 3, .int 2, .int 75] }).1

/-- C7 is a code bug: the dialect's stated form (JOIN before WHERE) does
"parse" without an error only because `parse_select` parses the optional
WHERE *before* the joins and silently leaves the trailing WHERE clause
unconsumed — the parsed statement has `where_clause = None` and the WHERE
tokens remain in the stream.  In the order the parser does accept (WHERE
before JOIN), `execute_select` applies the filter *before* the joins: on the
users/orders data the filter on `amount` (a column only the joined rows
have) empties the working set and the query returns `[]`, while the claimed
join-first-then-filter semantics (last conjunct) keeps the two joined rows
with amount 100 and 75. -/
theorem C7_where_after_join_dropped :
    c7_stmtE.map (fun p => (p.1.where_clause, p.1.joins, p.2.map (fun t => t.type)))
      = .ok (Option.none,
          some [JoinClause.mk "orders" "INNER" [("id", "user_id")]],
          [TokenType.WHERE, TokenType.IDENTIFIER, TokenType.GREATER, TokenType.NUMBER,
            TokenType.EOF])
    ∧ c7b_stmtE.map (fun p => (p.1.where_clause, p.1.joins, p.2.map (fun t => t.type)))
      = .ok (some (.condition "amount" ">" (.int 50)),
          some [JoinClause.mk "orders" "INNER" [("id", "user_id")]],
          [TokenType.EOF])
    ∧ c7b_stmtE.map (fun p => execute_select c7_state p.1) = .ok (.ok [])
    ∧ (specWhereFilter (.condition "amount" ">" (.int 50))
        (executeJoin
          (reconstruct_state_with_primary_key c7_state.ledger "users" "id")
          (reconstruct_state_with_primary_key c7_state.ledger "orders" "id")
          [("id", "user_id")])).map (fun rows => rows.map (fun r => rowGet r "amount"))
      = .ok [Value.int 100, Value.int 75] :=
  ⟨rfl, rfl, rfl, rfl⟩

-- ## Index/ledger agreement (C5) — preservation development.
-- Python `==` is an equivalence on scalar values.

theorem pyEq_refl (a : Value) : pyEq a a = true := by
  cases a <;> simp [pyEq, Value.toNum]

theorem pyEq_symm {a b : Value} (h : pyEq a b = true) : pyEq b a = true := by
  cases a <;> cases b <;>
    first
    | rfl
    | (simp only [pyEq, Value.toNum] at h ⊢
       exact beq_iff_eq.mpr (beq_iff_eq.mp h).symm)
    | simp [pyEq, Value.toNum] at h

theorem pyEq_trans {a b c : Value} (h1 : pyEq a b = true) (h2 : pyEq b c = true) :
    pyEq a c = true := by
  cases a <;> cases b <;> cases c <;>
    first
    | rfl
    | (simp only [pyEq, Value.toNum] at h1 h2 ⊢
       exact beq_iff_eq.mpr ((beq_iff_eq.mp h1).trans (beq_iff_eq.mp h2)))
    | simp [pyEq, Value.toNum] at h1 h2

theorem pyEq_congr_r {k1 k2 : Value} (h : pyEq k1 k2 = true) (x : Value) :
    pyEq x k1 = pyEq x k2 := by
  cases h1 : pyEq x k1 <;> cases h2 : pyEq x k2 <;> try rfl
  · exact absurd (pyEq_trans h2 (pyEq_symm h)) (by simp [h1])
  · exact absurd (pyEq_trans h1 h) (by simp [h2])

-- Pointwise facts about value-keyed dict operations.

theorem vget_nil (k : Value) : vget [] k = Option.none := rfl

theorem vget_cons (p : Value × Row) (tl : VDict) (k : Value) :
    vget (p :: tl) k = if pyEq p.1 k then some p.2 else vget tl k := by
  by_cases h : pyEq p.1 k = true
  · simp [vget, List.find?, h]
  · simp only [Bool.not_eq_true] at h
    simp [vget, List.find?, h]

theorem vset_cons (p : Value × Row) (tl : VDict) (k : Value) (v : Row) :
    vset (p :: tl) k v = if pyEq p.1 k then (p.1, v) :: tl else p :: vset tl k v := rfl

theorem vdel_cons (p : Value × Row) (tl : VDict) (k : Value) :
    vdel (p :: tl) k = if pyEq p.1 k then tl else p :: vdel tl k := rfl

theorem vget_eq_none_iff (d : VDict) (k : Value) :
    vget d k = Option.none ↔ ∀ p ∈ d, pyEq p.1 k = false := by
  induction d with
  | nil => simp [vget]
  | cons hd tl ih =>
    rw [vget_cons]
    by_cases h : pyEq hd.1 k = true
    · simp [h]
    · simp only [Bool.not_eq_true] at h
      simp [h, ih]

theorem vget_eq_some_elim {d : VDict} {k : Value} {r : Row} (h : vget d k = some r) :
    ∃ k0, (k0, r) ∈ d ∧ pyEq k0 k = true := by
  induction d with
  | nil => simp [vget] at h
  | cons hd tl ih =>
    rw [vget_cons] at h
    by_cases h1 : pyEq hd.1 k = true
    · rw [if_pos h1] at h
      exact ⟨hd.1, by simp [← Option.some_inj.mp h], h1⟩
    · rw [if_neg h1] at h
      obtain ⟨k0, hm, hk⟩ := ih h
      exact ⟨k0, List.mem_cons_of_mem _ hm, hk⟩

theorem vget_vset_eq {k w : Value} (h : pyEq k w = true) (d : VDict) (v : Row) :
    vget (vset d k v) w = some v := by
  induction d with
  | nil => simp [vset, vget_cons, h]
  | cons hd tl ih =>
    rw [vset_cons]
    by_cases h1 : pyEq hd.1 k = true
    · rw [if_pos h1, vget_cons]
      simp [pyEq_trans h1 h]
    · rw [if_neg h1, vget_cons, if_neg ?_]
      · exact ih
      · intro hc
        exact h1 (pyEq_trans hc (pyEq_symm h))

theorem vget_vset_ne {k w : Value} (h : pyEq k w = false) (d : VDict) (v : Row) :
    vget (vset d k v) w = vget d w := by
  induction d with
  | nil =>
    rw [show vset [] k v = [(k, v)] from rfl, vget_cons, if_neg (by simp [h]), vget_nil]
  | cons hd tl ih =>
    rw [vset_cons]
    by_cases h1 : pyEq hd.1 k = true
    · rw [if_pos h1, vget_cons, vget_cons]
      have : pyEq hd.1 w = false := by
        cases hq : pyEq hd.1 w
        · rfl
        · exact absurd (pyEq_trans (pyEq_symm h1) hq) (by simp [h])
      simp [this]
    · rw [if_neg h1, vget_cons, vget_cons, ih]

theorem vget_vdel_ne {k w : Value} (h : pyEq k w = false) (d : VDict) :
    vget (vdel d k) w = vget d w := by
  induction d with
  | nil => rfl
  | cons hd tl ih =>
    rw [vdel_cons]
    by_cases h1 : pyEq hd.1 k = true
    · rw [if_pos h1, vget_cons]
      have : pyEq hd.1 w = false := by
        cases hq : pyEq hd.1 w
        · rfl
        · exact absurd (pyEq_trans (pyEq_symm h1) hq) (by simp [h])
      simp [this]
    · rw [if_neg h1, vget_cons, vget_cons, ih]

/-- Well-formedness of a value-keyed dict: its keys are pairwise `==`-unequal. -/
def vdictWF (d : VDict) : Prop :=
  List.Pairwise (fun p q => pyEq p.1 q.1 = false) d

theorem vget_vdel_eq {d : VDict} (hwf : vdictWF d) {k w : Value} (h : pyEq k w = true) :
    vget (vdel d k) w = Option.none := by
  induction d with
  | nil => rfl
  | cons hd tl ih =>
    have hwf2 := (List.pairwise_cons.mp hwf).2
    have hhd := (List.pairwise_cons.mp hwf).1
    rw [vdel_cons]
    by_cases h1 : pyEq hd.1 k = true
    · rw [if_pos h1, vget_eq_none_iff]
      intro p hp
      cases hq : pyEq p.1 w
      · rfl
      · have hc : pyEq hd.1 p.1 = true :=
          pyEq_symm (pyEq_trans (pyEq_trans hq (pyEq_symm h)) (pyEq_symm h1))
        exact absurd hc (by simp [hhd p hp])
    · rw [if_neg h1, vget_cons, if_neg ?_]
      · exact ih hwf2
      · intro hc
        exact h1 (pyEq_trans hc (pyEq_symm h))

theorem vdictWF_nil : vdictWF [] := List.Pairwise.nil

theorem vset_keys_sub {d : VDict} {k : Value} {v : Row} {p : Value × Row}
    (hp : p ∈ vset d k v) : p.1 = k ∨ p.1 ∈ d.map Prod.fst := by
  induction d with
  | nil =>
    rw [show vset [] k v = [(k, v)] from rfl] at hp
    simp at hp
    simp [hp]
  | cons hd tl ih =>
    rw [vset_cons] at hp
    by_cases h1 : pyEq hd.1 k = true
    · rw [if_pos h1] at hp
      rcases List.mem_cons.mp hp with h2 | h2
      · right; simp [h2]
      · right; exact List.mem_map_of_mem Prod.fst (List.mem_cons_of_mem hd h2)
    · rw [if_neg h1] at hp
      rcases List.mem_cons.mp hp with h2 | h2
      · right; simp [h2]
      · rcases ih h2 with h3 | h3
        · left; exact h3
        · right; exact List.mem_cons_of_mem hd.1 h3

theorem vdictWF_vset {d : VDict} (hwf : vdictWF d) (k : Value) (v : Row) :
    vdictWF (vset d k v) := by
  induction d with
  | nil =>
    rw [show vset [] k v = [(k, v)] from rfl]
    exact List.pairwise_singleton _ _
  | cons hd tl ih =>
    have hwf2 := (List.pairwise_cons.mp hwf).2
    have hhd := (List.pairwise_cons.mp hwf).1
    rw [vset_cons]
    by_cases h1 : pyEq hd.1 k = true
    · rw [if_pos h1]
      exact List.pairwise_cons.mpr ⟨fun q hq => hhd q hq, hwf2⟩
    · rw [if_neg h1]
      refine List.pairwise_cons.mpr ⟨?_, ih hwf2⟩
      intro q hq
      rcases vset_keys_sub hq with h2 | h2
      · rw [h2]
        simpa using h1
      · simp only [List.mem_map] at h2
        obtain ⟨q0, hq0, hq0e⟩ := h2
        have := hhd q0 hq0
        cases hc : pyEq hd.1 q.1
        · rfl
        · rw [← hq0e] at hc
          exact absurd hc (by simp [this])

theorem vdel_sublist (d : VDict) (k : Value) : List.Sublist (vdel d k) d := by
  induction d with
  | nil => exact List.Sublist.refl _
  | cons hd tl ih =>
    rw [vdel_cons]
    by_cases h1 : pyEq hd.1 k = true
    · rw [if_pos h1]
      exact List.sublist_cons_of_sublist hd (List.Sublist.refl tl)
    · rw [if_neg h1]
      exact List.Sublist.cons₂ hd ih

theorem vdictWF_vdel {d : VDict} (hwf : vdictWF d) (k : Value) : vdictWF (vdel d k) :=
  List.Pairwise.sublist (vdel_sublist d k) hwf

/-- Decomposition of a successful lookup: the dict splits around the first
`==`-matching binding, and `vset`/`vdel` act exactly there. -/
theorem vget_decomp {d : VDict} {k : Value} {r : Row} (h : vget d k = some r) (v : Row) :
    ∃ d1 k0 d2, d = d1 ++ (k0, r) :: d2 ∧ pyEq k0 k = true ∧
      (∀ p ∈ d1, pyEq p.1 k = false) ∧
      vset d k v = d1 ++ (k0, v) :: d2 ∧ vdel d k = d1 ++ d2 := by
  induction d with
  | nil => simp [vget] at h
  | cons hd tl ih =>
    rw [vget_cons] at h
    by_cases h1 : pyEq hd.1 k = true
    · rw [if_pos h1] at h
      refine ⟨[], hd.1, tl, ?_, h1, by simp, ?_, ?_⟩
      · simp [← Option.some_inj.mp h]
      · rw [vset_cons, if_pos h1]
        simp
      · rw [vdel_cons, if_pos h1]
        simp
    · rw [if_neg h1] at h
      obtain ⟨d1, k0, d2, hde, hk0, hd1, hvs, hvd⟩ := ih h
      refine ⟨hd :: d1, k0, d2, by simp [hde], hk0, ?_, ?_, ?_⟩
      · intro p hp
        rcases List.mem_cons.mp hp with h2 | h2
        · rw [h2]; simpa using h1
        · exact hd1 p h2
      · rw [vset_cons, if_neg h1, hvs]
        simp
      · rw [vdel_cons, if_neg h1, hvd]
        simp

theorem vset_append_of_none {d : VDict} {k : Value} (h : vget d k = Option.none) (v : Row) :
    vset d k v = d ++ [(k, v)] := by
  induction d with
  | nil => rfl
  | cons hd tl ih =>
    rw [vget_cons] at h
    by_cases h1 : pyEq hd.1 k = true
    · rw [if_pos h1] at h
      exact absurd h (by simp)
    · rw [if_neg h1] at h
      rw [vset_cons, if_neg h1, ih h]
      simp

theorem mem_vget {d : VDict} (hwf : vdictWF d) {k0 k : Value} {r : Row}
    (hm : (k0, r) ∈ d) (hk : pyEq k0 k = true) : vget d k = some r := by
  induction d with
  | nil => simp at hm
  | cons hd tl ih =>
    have hwf2 := (List.pairwise_cons.mp hwf).2
    have hhd := (List.pairwise_cons.mp hwf).1
    rw [vget_cons]
    rcases List.mem_cons.mp hm with h2 | h2
    · rw [show hd = (k0, r) from h2.symm]
      simp [hk]
    · by_cases h1 : pyEq hd.1 k = true
      · have : pyEq hd.1 k0 = true := pyEq_trans h1 (pyEq_symm hk)
        exact absurd this (by simp [hhd _ h2])
      · rw [if_neg h1]
        exact ih hwf2 h2

theorem vget_mem_values {d : VDict} {k : Value} {r : Row} (h : vget d k = some r) :
    r ∈ vvalues d := by
  obtain ⟨k0, hm, _⟩ := vget_eq_some_elim h
  exact List.mem_map_of_mem Prod.snd hm

-- The last-writer-wins shape of a unique-column index.

/-- The matcher of a unique-column index probe: a row whose `c`-value is
non-null and `==`-equal to the probe. -/
def uniqMatches (c : String) (w : Value) (r : Row) : Bool :=
  decide (rowGet r c ≠ Value.none) && pyEq (rowGet r c) w

/-- The last row of `rows` matching the probe `w` on column `c`. -/
def lastMatch (rows : List Row) (c : String) (w : Value) : Option Row :=
  rows.reverse.find? (uniqMatches c w)

/-- The projection of a row list on a column restricted to non-null values:
the `value → row` dict built in row order, the last writer winning. -/
def uniqProj (rows : List Row) (c : String) : VDict :=
  rows.foldl (fun d r => if rowGet r c ≠ Value.none then vset d (rowGet r c) r else d) []

theorem uniqMatches_true_iff (c : String) (w : Value) (r : Row) :
    uniqMatches c w r = true ↔ rowGet r c ≠ Value.none ∧ pyEq (rowGet r c) w = true := by
  simp [uniqMatches]

theorem lastMatch_nil (c : String) (w : Value) : lastMatch [] c w = Option.none := rfl

theorem lastMatch_cons (r : Row) (tl : List Row) (c : String) (w : Value) :
    lastMatch (r :: tl) c w =
      match lastMatch tl c w with
      | some x => some x
      | Option.none => if uniqMatches c w r then some r else Option.none := by
  unfold lastMatch
  rw [List.reverse_cons, List.find?_append]
  cases h : List.find? (uniqMatches c w) tl.reverse
  · by_cases hm : uniqMatches c w r = true
    · rw [List.find?_cons_of_pos _ hm]
      simp [hm]
    · rw [List.find?_cons_of_neg _ hm]
      simp [hm]
  · rfl

theorem lastMatch_split (rows1 rows2 : List Row) (r : Row) (c : String) (w : Value) :
    lastMatch (rows1 ++ r :: rows2) c w =
      match lastMatch rows2 c w with
      | some x => some x
      | Option.none => if uniqMatches c w r then some r else lastMatch rows1 c w := by
  unfold lastMatch
  rw [show (rows1 ++ r :: rows2).reverse = rows2.reverse ++ r :: rows1.reverse by simp,
    List.find?_append]
  cases h : List.find? (uniqMatches c w) rows2.reverse
  · by_cases hm : uniqMatches c w r = true
    · rw [List.find?_cons_of_pos _ hm]
      simp [hm]
    · rw [List.find?_cons_of_neg _ hm]
      simp [hm]
  · rfl

theorem lastMatch_append (rows1 rows2 : List Row) (c : String) (w : Value) :
    lastMatch (rows1 ++ rows2) c w =
      match lastMatch rows2 c w with
      | some x => some x
      | Option.none => lastMatch rows1 c w := by
  unfold lastMatch
  rw [List.reverse_append, List.find?_append]
  cases h : List.find? (uniqMatches c w) rows2.reverse <;> rfl

theorem lastMatch_eq_none_iff (rows : List Row) (c : String) (w : Value) :
    lastMatch rows c w = Option.none ↔ ∀ r ∈ rows, uniqMatches c w r = false := by
  unfold lastMatch
  rw [List.find?_eq_none]
  constructor
  · intro h r hr
    have := h r (List.mem_reverse.mpr hr)
    simpa using this
  · intro h r hr
    simp [h r (List.mem_reverse.mp hr)]

theorem lastMatch_some_elim {rows : List Row} {c : String} {w : Value} {r : Row}
    (h : lastMatch rows c w = some r) : r ∈ rows ∧ uniqMatches c w r = true :=
  ⟨List.mem_reverse.mp (List.mem_of_find?_eq_some h), List.find?_some h⟩

theorem uniqProj_fold (c : String) (rows : List Row) :
    ∀ (d : VDict) (w : Value),
      vget (rows.foldl (fun d r => if rowGet r c ≠ Value.none then vset d (rowGet r c) r else d) d) w
        = match lastMatch rows c w with
          | some x => some x
          | Option.none => vget d w := by
  induction rows with
  | nil => intro d w; rfl
  | cons r tl ih =>
    intro d w
    rw [List.foldl_cons, ih, lastMatch_cons]
    cases hlm : lastMatch tl c w
    · by_cases hm : uniqMatches c w r = true
      · obtain ⟨hn, hw⟩ := (uniqMatches_true_iff c w r).mp hm
        rw [if_pos hn, vget_vset_eq hw]
        simp [hm]
      · simp only [hm]
        by_cases hn : rowGet r c ≠ Value.none
        · rw [if_pos hn]
          have hw : pyEq (rowGet r c) w = false := by
            cases hq : pyEq (rowGet r c) w
            · rfl
            · exact absurd ((uniqMatches_true_iff c w r).mpr ⟨hn, hq⟩) hm
          rw [vget_vset_ne hw]
          rfl
        · rw [if_neg hn]
          rfl
    · rfl

theorem uniqProj_lookup (rows : List Row) (c : String) (w : Value) :
    vget (uniqProj rows c) w = lastMatch rows c w := by
  rw [uniqProj, uniqProj_fold]
  cases lastMatch rows c w <;> rfl

/-- Distinctness of a row list on a column: any two rows have a null first
value or `==`-unequal values in the column. -/
def uniqDistinct (rows : List Row) (c : String) : Prop :=
  List.Pairwise (fun r1 r2 =>
    rowGet r1 c = Value.none ∨ pyEq (rowGet r1 c) (rowGet r2 c) = false) rows

theorem lastMatch_self {rows : List Row} {c : String} {r : Row}
    (hdist : uniqDistinct rows c) (hr : r ∈ rows) (hn : rowGet r c ≠ Value.none)
    {w : Value} (hw : pyEq (rowGet r c) w = true) : lastMatch rows c w = some r := by
  induction rows with
  | nil => simp at hr
  | cons hd tl ih =>
    have hd2 := (List.pairwise_cons.mp hdist).2
    have hhd := (List.pairwise_cons.mp hdist).1
    rw [lastMatch_cons]
    rcases List.mem_cons.mp hr with h2 | h2
    · subst h2
      have hnone : lastMatch tl c w = Option.none := by
        rw [lastMatch_eq_none_iff]
        intro x hx
        cases hq : uniqMatches c w x
        · rfl
        · obtain ⟨hxn, hxw⟩ := (uniqMatches_true_iff c w x).mp hq
          rcases hhd x hx with h3 | h3
          · exact absurd h3 hn
          · exact absurd (pyEq_trans hw (pyEq_symm hxw)) (by simp [h3])
      rw [hnone]
      have hm : uniqMatches c w r = true := (uniqMatches_true_iff c w r).mpr ⟨hn, hw⟩
      simp [hm]
    · rw [ih hd2 h2]

theorem uniqDistinct_split_elim {rows1 rows2 : List Row} {r : Row} {c : String}
    (h : uniqDistinct (rows1 ++ r :: rows2) c) :
    (∀ x ∈ rows1, rowGet x c = Value.none ∨ pyEq (rowGet x c) (rowGet r c) = false)
    ∧ (∀ x ∈ rows2, rowGet r c = Value.none ∨ pyEq (rowGet r c) (rowGet x c) = false) := by
  rw [uniqDistinct, List.pairwise_append] at h
  obtain ⟨_, hp2, hcross⟩ := h
  refine ⟨fun x hx => hcross x hx r (List.mem_cons_self r rows2), ?_⟩
  exact fun x hx => (List.pairwise_cons.mp hp2).1 x hx

theorem uniqDistinct_replace {rows1 rows2 : List Row} {r b : Row} {c : String}
    (h : uniqDistinct (rows1 ++ r :: rows2) c)
    (h1 : ∀ x ∈ rows1, rowGet x c = Value.none ∨ pyEq (rowGet x c) (rowGet b c) = false)
    (h2 : ∀ x ∈ rows2, rowGet b c = Value.none ∨ pyEq (rowGet b c) (rowGet x c) = false) :
    uniqDistinct (rows1 ++ b :: rows2) c := by
  rw [uniqDistinct, List.pairwise_append] at h ⊢
  obtain ⟨hp1, hp2, hcross⟩ := h
  have hp2tl := (List.pairwise_cons.mp hp2).2
  refine ⟨hp1, List.pairwise_cons.mpr ⟨h2, hp2tl⟩, ?_⟩
  intro a ha x hx
  rcases List.mem_cons.mp hx with h3 | h3
  · rw [h3]
    exact h1 a ha
  · exact hcross a ha x (List.mem_cons_of_mem r h3)

theorem uniqDistinct_remove {rows1 rows2 : List Row} {r : Row} {c : String}
    (h : uniqDistinct (rows1 ++ r :: rows2) c) : uniqDistinct (rows1 ++ rows2) c :=
  List.Pairwise.sublist
    (List.Sublist.append (List.Sublist.refl rows1) (List.sublist_cons_self r rows2)) h

theorem uniqDistinct_append_one {rows : List Row} {b : Row} {c : String}
    (h : uniqDistinct rows c)
    (h1 : ∀ x ∈ rows, rowGet x c = Value.none ∨ pyEq (rowGet x c) (rowGet b c) = false) :
    uniqDistinct (rows ++ [b]) c := by
  rw [uniqDistinct, List.pairwise_append]
  refine ⟨h, List.pairwise_singleton _ _, ?_⟩
  intro a ha x hx
  rw [List.mem_singleton.mp hx]
  exact h1 a ha

-- Per-column index transformations of `IndexManager` (`add_row`, `update_row`,
-- `remove_row` act on one unique column's dict exactly this way).

/-- The unique-column dict change of `IndexManager.add_row`. -/
def uniqColAdd (c : String) (sub : VDict) (row : Row) : VDict :=
  if rowGet row c ≠ Value.none then vset sub (rowGet row c) row else sub

/-- The unique-column dict change of `IndexManager.remove_row`. -/
def uniqColRem (c : String) (sub : VDict) (row : Row) : VDict :=
  if rowGet row c ≠ Value.none ∧ vmem sub (rowGet row c) then vdel sub (rowGet row c) else sub

/-- The unique-column dict change of `IndexManager.update_row`: remove the
old value, then add the new one. -/
def uniqColUpd (c : String) (sub : VDict) (old_row new_row : Row) : VDict :=
  uniqColAdd c (uniqColRem c sub old_row) new_row

theorem uniqDistinct_insert_mid {rows1 rows2 : List Row} {b : Row} {c : String}
    (h : uniqDistinct (rows1 ++ rows2) c)
    (h1 : ∀ x ∈ rows1, rowGet x c = Value.none ∨ pyEq (rowGet x c) (rowGet b c) = false)
    (h2 : ∀ x ∈ rows2, rowGet b c = Value.none ∨ pyEq (rowGet b c) (rowGet x c) = false) :
    uniqDistinct (rows1 ++ b :: rows2) c := by
  rw [uniqDistinct, List.pairwise_append] at h ⊢
  obtain ⟨hp1, hp2, hcross⟩ := h
  refine ⟨hp1, List.pairwise_cons.mpr ⟨h2, hp2⟩, ?_⟩
  intro a ha x hx
  rcases List.mem_cons.mp hx with h3 | h3
  · rw [h3]
    exact h1 a ha
  · exact hcross a ha x h3

/-- Removing a row from a unique-column dict that mirrors a row list keeps it
mirroring the list without that row. -/
theorem uniq_col_delete_step (c : String) (sub : VDict) (rows1 rows2 : List Row) (row : Row)
    (hwf : vdictWF sub)
    (hagree : ∀ w, vget sub w = lastMatch (rows1 ++ row :: rows2) c w)
    (hdist : uniqDistinct (rows1 ++ row :: rows2) c) :
    vdictWF (uniqColRem c sub row)
    ∧ (∀ w, vget (uniqColRem c sub row) w = lastMatch (rows1 ++ rows2) c w)
    ∧ uniqDistinct (rows1 ++ rows2) c := by
  have hdsplit := uniqDistinct_split_elim hdist
  rw [uniqColRem]
  by_cases hn : rowGet row c ≠ Value.none
  · have hvm : vmem sub (rowGet row c) = true := by
      have := hagree (rowGet row c)
      rw [lastMatch_self hdist (by simp) hn (pyEq_refl _)] at this
      simp [vmem, this]
    rw [if_pos ⟨hn, hvm⟩]
    refine ⟨vdictWF_vdel hwf _, ?_, uniqDistinct_remove hdist⟩
    intro w
    by_cases hw : pyEq (rowGet row c) w = true
    · rw [vget_vdel_eq hwf hw]
      symm
      rw [lastMatch_eq_none_iff]
      intro x hx
      rcases List.mem_append.mp hx with h1 | h1
      · cases hq : uniqMatches c w x
        · rfl
        · obtain ⟨hxn, hxw⟩ := (uniqMatches_true_iff _ _ _).mp hq
          rcases hdsplit.1 x h1 with h3 | h3
          · exact absurd h3 hxn
          · exact absurd (pyEq_trans hxw (pyEq_symm hw)) (by simp [h3])
      · cases hq : uniqMatches c w x
        · rfl
        · obtain ⟨hxn, hxw⟩ := (uniqMatches_true_iff _ _ _).mp hq
          rcases hdsplit.2 x h1 with h3 | h3
          · exact absurd h3 hn
          · exact absurd (pyEq_symm (pyEq_trans hxw (pyEq_symm hw))) (by simp [h3])
    · have hwb : pyEq (rowGet row c) w = false := by simpa using hw
      rw [vget_vdel_ne hwb, hagree w, lastMatch_split, lastMatch_append]
      have hm : uniqMatches c w row = false := by
        cases hq : uniqMatches c w row
        · rfl
        · exact absurd ((uniqMatches_true_iff _ _ _).mp hq).2 hw
      cases h2 : lastMatch rows2 c w
      · simp [hm]
      · rfl
  · rw [if_neg (fun hc => hn hc.1)]
    have hnone : rowGet row c = Value.none := not_not.mp hn
    refine ⟨hwf, ?_, uniqDistinct_remove hdist⟩
    intro w
    rw [hagree w, lastMatch_split, lastMatch_append]
    have hm : uniqMatches c w row = false := by simp [uniqMatches, hnone]
    cases h2 : lastMatch rows2 c w
    · simp [hm]
    · rfl

/-- Adding a fresh-valued (or null-valued) row to a unique-column dict that
mirrors a row list keeps it mirroring the list with the row inserted. -/
theorem uniq_col_addmid_step (c : String) (sub : VDict) (rows1 rows2 : List Row) (row : Row)
    (hwf : vdictWF sub)
    (hagree : ∀ w, vget sub w = lastMatch (rows1 ++ rows2) c w)
    (hdist : uniqDistinct (rows1 ++ rows2) c)
    (hfresh : rowGet row c ≠ Value.none →
      ∀ x ∈ rows1 ++ rows2, uniqMatches c (rowGet row c) x = false) :
    vdictWF (uniqColAdd c sub row)
    ∧ (∀ w, vget (uniqColAdd c sub row) w = lastMatch (rows1 ++ row :: rows2) c w)
    ∧ uniqDistinct (rows1 ++ row :: rows2) c := by
  rw [uniqColAdd]
  by_cases hn : rowGet row c ≠ Value.none
  · rw [if_pos hn]
    have hothers := hfresh hn
    refine ⟨vdictWF_vset hwf _ _, ?_, ?_⟩
    · intro w
      rw [lastMatch_split]
      by_cases hw : pyEq (rowGet row c) w = true
      · rw [vget_vset_eq hw]
        have hm : uniqMatches c w row = true := (uniqMatches_true_iff _ _ _).mpr ⟨hn, hw⟩
        have h2 : lastMatch rows2 c w = Option.none := by
          rw [lastMatch_eq_none_iff]
          intro x hx
          cases hq : uniqMatches c w x
          · rfl
          · obtain ⟨hxn, hxw⟩ := (uniqMatches_true_iff _ _ _).mp hq
            have : uniqMatches c (rowGet row c) x = true :=
              (uniqMatches_true_iff _ _ _).mpr ⟨hxn, pyEq_trans hxw (pyEq_symm hw)⟩
            exact absurd this (by simp [hothers x (List.mem_append_right rows1 hx)])
        rw [h2]
        simp [hm]
      · have hwb : pyEq (rowGet row c) w = false := by simpa using hw
        rw [vget_vset_ne hwb, hagree w, lastMatch_append]
        have hm : uniqMatches c w row = false := by
          cases hq : uniqMatches c w row
          · rfl
          · exact absurd ((uniqMatches_true_iff _ _ _).mp hq).2 hw
        cases h2 : lastMatch rows2 c w
        · simp [hm]
        · rfl
    · refine uniqDistinct_insert_mid hdist ?_ ?_
      · intro x hx
        by_cases hxn : rowGet x c = Value.none
        · exact Or.inl hxn
        · right
          cases hq : pyEq (rowGet x c) (rowGet row c)
          · rfl
          · exact absurd ((uniqMatches_true_iff _ _ _).mpr ⟨hxn, hq⟩)
              (by simp [hothers x (List.mem_append_left rows2 hx)])
      · intro x hx
        by_cases hxn : rowGet x c = Value.none
        · right
          rw [hxn]
          cases hq : pyEq (rowGet row c) Value.none
          · rfl
          · exact absurd ((pyEq_none_iff _).mp hq) hn
        · right
          cases hq : pyEq (rowGet row c) (rowGet x c)
          · rfl
          · exact absurd ((uniqMatches_true_iff _ _ _).mpr ⟨hxn, pyEq_symm hq⟩)
              (by simp [hothers x (List.mem_append_right rows1 hx)])
  · rw [if_neg hn]
    have hnone : rowGet row c = Value.none := not_not.mp hn
    have hm : ∀ w, uniqMatches c w row = false := fun w => by simp [uniqMatches, hnone]
    refine ⟨hwf, ?_, ?_⟩
    · intro w
      rw [hagree w, lastMatch_split, lastMatch_append]
      cases h2 : lastMatch rows2 c w
      · simp [hm]
      · rfl
    · refine uniqDistinct_insert_mid hdist ?_ ?_
      · intro x hx
        by_cases hxn : rowGet x c = Value.none
        · exact Or.inl hxn
        · right
          rw [hnone]
          cases hq : pyEq (rowGet x c) Value.none
          · rfl
          · exact absurd ((pyEq_none_iff _).mp hq) hxn
      · intro x hx
        exact Or.inl hnone

/-- Updating a row in a unique-column dict that mirrors a row list keeps it
mirroring the list with the row replaced, provided a changed non-null value
is fresh. -/
theorem uniq_col_update_step (c : String) (sub : VDict) (rows1 rows2 : List Row)
    (old_row new_row : Row)
    (hwf : vdictWF sub)
    (hagree : ∀ w, vget sub w = lastMatch (rows1 ++ old_row :: rows2) c w)
    (hdist : uniqDistinct (rows1 ++ old_row :: rows2) c)
    (hfresh : ¬pyEq (rowGet old_row c) (rowGet new_row c) = true →
      rowGet new_row c ≠ Value.none →
      lastMatch (rows1 ++ old_row :: rows2) c (rowGet new_row c) = Option.none) :
    vdictWF (uniqColUpd c sub old_row new_row)
    ∧ (∀ w, vget (uniqColUpd c sub old_row new_row) w
        = lastMatch (rows1 ++ new_row :: rows2) c w)
    ∧ uniqDistinct (rows1 ++ new_row :: rows2) c := by
  have hdsplit := uniqDistinct_split_elim hdist
  obtain ⟨hwf1, hag1, hd1⟩ := uniq_col_delete_step c sub rows1 rows2 old_row hwf hagree hdist
  rw [uniqColUpd]
  refine uniq_col_addmid_step c _ rows1 rows2 new_row hwf1 hag1 hd1 ?_
  intro hn x hx
  by_cases hch : pyEq (rowGet old_row c) (rowGet new_row c) = true
  · cases hq : uniqMatches c (rowGet new_row c) x
    · rfl
    · obtain ⟨hxn, hxw⟩ := (uniqMatches_true_iff _ _ _).mp hq
      rcases List.mem_append.mp hx with h1 | h1
      · rcases hdsplit.1 x h1 with h3 | h3
        · exact absurd h3 hxn
        · exact absurd (pyEq_trans hxw (pyEq_symm hch)) (by simp [h3])
      · rcases hdsplit.2 x h1 with h3 | h3
        · have h5 : rowGet new_row c = Value.none := by
            have h4 := hch
            rw [h3] at h4
            exact (pyEq_none_left_iff _).mp h4
          exact absurd h5 hn
        · exact absurd (pyEq_trans hch (pyEq_symm hxw)) (by simp [h3])
  · have hall := (lastMatch_eq_none_iff _ _ _).mp (hfresh hch hn)
    apply hall x
    rcases List.mem_append.mp hx with h1 | h1
    · exact List.mem_append_left _ h1
    · exact List.mem_append_right _ (List.mem_cons_of_mem _ h1)

-- Pointwise congruence of dict updates, and the reconstruction invariants.

theorem vget_vset_congr {d1 d2 : VDict} (h : ∀ w, vget d1 w = vget d2 w) (k : Value)
    (v : Row) : ∀ w, vget (vset d1 k v) w = vget (vset d2 k v) w := by
  intro w
  by_cases hw : pyEq k w = true
  · rw [vget_vset_eq hw, vget_vset_eq hw]
  · have hwb : pyEq k w = false := by simpa using hw
    rw [vget_vset_ne hwb, vget_vset_ne hwb, h w]

theorem vget_vdel_congr {d1 d2 : VDict} (hwf1 : vdictWF d1) (hwf2 : vdictWF d2)
    (h : ∀ w, vget d1 w = vget d2 w) (k : Value) :
    ∀ w, vget (vdel d1 k) w = vget (vdel d2 k) w := by
  intro w
  by_cases hw : pyEq k w = true
  · rw [vget_vdel_eq hwf1 hw, vget_vdel_eq hwf2 hw]
  · have hwb : pyEq k w = false := by simpa using hw
    rw [vget_vdel_ne hwb, vget_vdel_ne hwb, h w]

theorem mem_vset_elim : ∀ (d : VDict) (k : Value) (v : Row) (p : Value × Row),
    p ∈ vset d k v → (pyEq p.1 k = true ∧ p.2 = v) ∨ p ∈ d := by
  intro d
  induction d with
  | nil =>
    intro k v p hp
    rw [show vset [] k v = [(k, v)] from rfl] at hp
    have := List.mem_singleton.mp hp
    left
    rw [this]
    exact ⟨pyEq_refl k, rfl⟩
  | cons hd tl ih =>
    intro k v p hp
    rw [vset_cons] at hp
    by_cases h1 : pyEq hd.1 k = true
    · rw [if_pos h1] at hp
      rcases List.mem_cons.mp hp with h2 | h2
      · left
        rw [h2]
        exact ⟨h1, rfl⟩
      · right
        exact List.mem_cons_of_mem hd h2
    · rw [if_neg h1] at hp
      rcases List.mem_cons.mp hp with h2 | h2
      · right
        rw [h2]
        exact List.mem_cons_self hd tl
      · rcases ih k v p h2 with h3 | h3
        · left; exact h3
        · right; exact List.mem_cons_of_mem hd h3

/-- Key coherence of a reconstruction dict: every binding's key is `==` to
its row's primary-key value. -/
def keyCoherent (st : VDict) (pk : String) : Prop :=
  ∀ p ∈ st, pyEq p.1 (rowGet p.2 pk) = true

theorem keyCoherent_vset {st : VDict} {pk : String} (h : keyCoherent st pk)
    {k : Value} {v : Row} (hk : pyEq k (rowGet v pk) = true) :
    keyCoherent (vset st k v) pk := by
  intro p hp
  rcases mem_vset_elim st k v p hp with ⟨h1, h2⟩ | h1
  · rw [h2]
    exact pyEq_trans h1 hk
  · exact h p h1

theorem keyCoherent_vdel {st : VDict} {pk : String} (h : keyCoherent st pk) (k : Value) :
    keyCoherent (vdel st k) pk :=
  fun p hp => h p (mem_vdel_sub st k p hp)

theorem keyCoherent_reconStep {st : VDict} {pk : String} (h : keyCoherent st pk)
    (tname : String) (e : LedgerEntry) : keyCoherent (reconStep tname pk st e) pk := by
  unfold reconStep
  by_cases ht : e.table_name ≠ tname
  · simp [ht]; exact h
  · simp [ht]
    cases e.operation with
    | INSERT =>
      cases e.new_value with
      | none => exact h
      | some nv =>
        by_cases hk : rowGet nv pk = Value.none
        · simp [hk]; exact h
        · simp [hk]; exact keyCoherent_vset h (pyEq_refl _)
    | UPDATE =>
      cases e.new_value with
      | none => exact h
      | some nv =>
        by_cases hk : rowGet nv pk = Value.none
        · simp [hk]; exact h
        · simp [hk]; exact keyCoherent_vset h (pyEq_refl _)
    | DELETE =>
      cases e.old_value with
      | none => exact h
      | some ov =>
        by_cases hc : rowGet ov pk ≠ Value.none ∧ vmem st (rowGet ov pk) = true
        · simp only [hc, if_true]
          exact keyCoherent_vdel h _
        · simp only [hc, if_false]
          exact h

theorem vdictWF_reconStep {st : VDict} (h : vdictWF st) (tname pk : String)
    (e : LedgerEntry) : vdictWF (reconStep tname pk st e) := by
  unfold reconStep
  by_cases ht : e.table_name ≠ tname
  · simp [ht]; exact h
  · simp [ht]
    cases e.operation with
    | INSERT =>
      cases e.new_value with
      | none => exact h
      | some nv =>
        by_cases hk : rowGet nv pk = Value.none
        · simp [hk]; exact h
        · simp [hk]; exact vdictWF_vset h _ _
    | UPDATE =>
      cases e.new_value with
      | none => exact h
      | some nv =>
        by_cases hk : rowGet nv pk = Value.none
        · simp [hk]; exact h
        · simp [hk]; exact vdictWF_vset h _ _
    | DELETE =>
      cases e.old_value with
      | none => exact h
      | some ov =>
        by_cases hc : rowGet ov pk ≠ Value.none ∧ vmem st (rowGet ov pk) = true
        · simp only [hc, if_true]
          exact vdictWF_vdel h _
        · simp only [hc, if_false]
          exact h


theorem recon_fold_invariants (tname pk : String) :
    ∀ (l : List LedgerEntry) (st : VDict), vdictWF st → keyCoherent st pk →
      noNoneKey st →
      vdictWF (l.foldl (reconStep tname pk) st)
      ∧ keyCoherent (l.foldl (reconStep tname pk) st) pk
      ∧ noNoneKey (l.foldl (reconStep tname pk) st)
  | [], st, hw, hc, hn => ⟨hw, hc, hn⟩
  | e :: tl, st, hw, hc, hn =>
    recon_fold_invariants tname pk tl _ (vdictWF_reconStep hw tname pk e)
      (keyCoherent_reconStep hc tname e) (noNoneKey_reconStep hn tname pk e)

theorem vdictWF_reconKeyed (l : List LedgerEntry) (tname pk : String) :
    vdictWF (reconKeyed l tname pk) :=
  (recon_fold_invariants tname pk l [] vdictWF_nil (fun p hp => by simp at hp)
    (fun x hx => by simp at hx)).1

theorem keyCoherent_reconKeyed (l : List LedgerEntry) (tname pk : String) :
    keyCoherent (reconKeyed l tname pk) pk :=
  (recon_fold_invariants tname pk l [] vdictWF_nil (fun p hp => by simp at hp)
    (fun x hx => by simp at hx)).2.1

theorem noNoneKey_reconKeyed (l : List LedgerEntry) (tname pk : String) :
    noNoneKey (reconKeyed l tname pk) :=
  (recon_fold_invariants tname pk l [] vdictWF_nil (fun p hp => by simp at hp)
    (fun x hx => by simp at hx)).2.2

theorem reconKeyed_append (l : List LedgerEntry) (e : LedgerEntry) (tname pk : String) :
    reconKeyed (l ++ [e]) tname pk = reconStep tname pk (reconKeyed l tname pk) e := by
  rw [reconKeyed, reconKeyed, List.foldl_append]
  rfl

theorem recon_values_pk_pairwise {d : VDict} {pk : String} (hwf : vdictWF d)
    (hc : keyCoherent d pk) :
    List.Pairwise (fun r1 r2 => pyEq (rowGet r1 pk) (rowGet r2 pk) = false) (vvalues d) := by
  rw [vvalues, List.pairwise_map]
  refine List.Pairwise.imp_of_mem ?_ hwf
  intro p q hp hq hR
  cases hx : pyEq (rowGet p.2 pk) (rowGet q.2 pk)
  · rfl
  · have h1 := hc p hp
    have h2 := hc q hq
    exact absurd (pyEq_trans (pyEq_trans h1 hx) (pyEq_symm h2)) (by simp [hR])

theorem vget_of_mem_values {d : VDict} {pk : String} (hwf : vdictWF d)
    (hc : keyCoherent d pk) {r : Row} (hr : r ∈ vvalues d) :
    vget d (rowGet r pk) = some r := by
  rw [vvalues] at hr
  obtain ⟨p, hp, hpe⟩ := List.mem_map.mp hr
  rw [← hpe]
  exact mem_vget hwf hp (hc p hp)

-- String-keyed dict store/lookup interaction.

theorem sget_nil {α : Type} (k : String) : sget ([] : List (String × α)) k = Option.none := rfl

theorem sget_cons {α : Type} (p : String × α) (tl : List (String × α)) (k : String) :
    sget (p :: tl) k = if p.1 == k then some p.2 else sget tl k := by
  by_cases h : (p.1 == k) = true
  · simp [sget, List.find?, h]
  · simp only [Bool.not_eq_true] at h
    simp [sget, List.find?, h]

theorem sset_cons {α : Type} (p : String × α) (tl : List (String × α)) (k : String) (v : α) :
    sset (p :: tl) k v = if p.1 == k then (p.1, v) :: tl else p :: sset tl k v := rfl

theorem sget_sset_self {α : Type} (d : List (String × α)) (k : String) (v : α) :
    sget (sset d k v) k = some v := by
  induction d with
  | nil => simp [sset, sget_cons]
  | cons hd tl ih =>
    rw [sset_cons]
    by_cases h : (hd.1 == k) = true
    · rw [if_pos h, sget_cons, if_pos h]
    · rw [if_neg h, sget_cons, if_neg h]
      exact ih

theorem sget_sset_ne {α : Type} (d : List (String × α)) (k k2 : String) (v : α)
    (h : k ≠ k2) : sget (sset d k v) k2 = sget d k2 := by
  induction d with
  | nil =>
    rw [show sset ([] : List (String × α)) k v = [(k, v)] from rfl, sget_cons,
      if_neg (by simpa using h), sget_nil]
  | cons hd tl ih =>
    rw [sset_cons]
    by_cases h1 : (hd.1 == k) = true
    · have he : hd.1 = k := by simpa using h1
      have h2 : (hd.1 == k2) = false := by
        rw [he]
        simpa using h
      rw [if_pos h1, sget_cons, sget_cons]
      simp [h2]
    · rw [if_neg h1, sget_cons, sget_cons, ih]

-- The collapsed per-column lookup in the unique-index family, and how the
-- per-column folds of `IndexManager` transform it.

/-- The dict a unique column's index presents: missing table or column
entries read as empty. -/
def uniqLook (u : List (String × List (String × VDict))) (t_name cname : String) : VDict :=
  (sget ((sget u t_name).getD []) cname).getD []

theorem fold_uniq_lookup_other (t_name : String)
    (step : List (String × List (String × VDict)) → Column →
      List (String × List (String × VDict)))
    (hother : ∀ u c cn, (c.is_unique && !c.is_primary_key) = true → cn ≠ c.name →
      uniqLook (step u c) t_name cn = uniqLook u t_name cn)
    (hskip : ∀ u c, (c.is_unique && !c.is_primary_key) = false → step u c = u) :
    ∀ (cols : List Column) (u : List (String × List (String × VDict))) (cn : String),
      (∀ c ∈ cols, (c.is_unique && !c.is_primary_key) = true → c.name ≠ cn) →
      uniqLook (cols.foldl step u) t_name cn = uniqLook u t_name cn
  | [], u, cn, _ => rfl
  | hd :: tl, u, cn, h => by
    rw [List.foldl_cons]
    by_cases hu : (hd.is_unique && !hd.is_primary_key) = true
    · rw [fold_uniq_lookup_other t_name step hother hskip tl (step u hd) cn
        (fun c hc => h c (List.mem_cons_of_mem hd hc))]
      exact hother u hd cn hu (fun he => (h hd (List.mem_cons_self hd tl) hu) he.symm)
    · rw [hskip u hd (by simpa using hu)]
      exact fold_uniq_lookup_other t_name step hother hskip tl u cn
        (fun c hc => h c (List.mem_cons_of_mem hd hc))

theorem fold_uniq_lookup_target (t_name : String)
    (step : List (String × List (String × VDict)) → Column →
      List (String × List (String × VDict)))
    (g : String → VDict → VDict)
    (hself : ∀ u c, (c.is_unique && !c.is_primary_key) = true →
      uniqLook (step u c) t_name c.name = g c.name (uniqLook u t_name c.name))
    (hother : ∀ u c cn, (c.is_unique && !c.is_primary_key) = true → cn ≠ c.name →
      uniqLook (step u c) t_name cn = uniqLook u t_name cn)
    (hskip : ∀ u c, (c.is_unique && !c.is_primary_key) = false → step u c = u) :
    ∀ (cols : List Column) (u : List (String × List (String × VDict))) (c : Column),
      c ∈ cols → (c.is_unique && !c.is_primary_key) = true →
      (cols.map Column.name).Nodup →
      uniqLook (cols.foldl step u) t_name c.name = g c.name (uniqLook u t_name c.name)
  | [], _, c, hc, _, _ => by simp at hc
  | hd :: tl, u, c, hc, hcu, hnd => by
    rw [List.foldl_cons]
    have hnd2 : (tl.map Column.name).Nodup := (List.nodup_cons.mp (by simpa using hnd)).2
    have hhd : hd.name ∉ tl.map Column.name := (List.nodup_cons.mp (by simpa using hnd)).1
    by_cases hu : (hd.is_unique && !hd.is_primary_key) = true
    · by_cases hn : hd.name = c.name
      · rw [fold_uniq_lookup_other t_name step hother hskip tl (step u hd) c.name ?_]
        · rw [← hn]
          exact hself u hd hu
        · intro c2 hc2 _
          intro he
          apply hhd
          rw [hn, ← he]
          exact List.mem_map_of_mem Column.name hc2
      · have hctl : c ∈ tl := by
          rcases List.mem_cons.mp hc with h2 | h2
          · exact absurd (by rw [h2]) hn
          · exact h2
        rw [fold_uniq_lookup_target t_name step g hself hother hskip tl (step u hd) c
          hctl hcu hnd2]
        rw [hother u hd c.name hu (fun he => hn he.symm)]
    · rw [hskip u hd (by simpa using hu)]
      have hctl : c ∈ tl := by
        rcases List.mem_cons.mp hc with h2 | h2
        · rw [h2] at hcu
          exact absurd hcu (by simpa using hu)
        · exact h2
      exact fold_uniq_lookup_target t_name step g hself hother hskip tl u c hctl hcu hnd2

theorem addUniqStep_eq (t_name : String) (row : Row)
    (u : List (String × List (String × VDict))) (c : Column)
    (hu : (c.is_unique && !c.is_primary_key) = true) :
    addUniqStep t_name row u c
      = sset u t_name (sset ((sget u t_name).getD []) c.name
          (uniqColAdd c.name ((sget ((sget u t_name).getD []) c.name).getD []) row)) := by
  simp [addUniqStep, hu, uniqColAdd]

theorem addUniqStep_self (t_name : String) (row : Row)
    (u : List (String × List (String × VDict))) (c : Column)
    (hu : (c.is_unique && !c.is_primary_key) = true) :
    uniqLook (addUniqStep t_name row u c) t_name c.name
      = uniqColAdd c.name (uniqLook u t_name c.name) row := by
  rw [addUniqStep_eq t_name row u c hu]
  simp only [uniqLook, sget_sset_self, Option.getD_some]

theorem addUniqStep_other (t_name : String) (row : Row)
    (u : List (String × List (String × VDict))) (c : Column) (cn : String)
    (hu : (c.is_unique && !c.is_primary_key) = true) (hne : cn ≠ c.name) :
    uniqLook (addUniqStep t_name row u c) t_name cn = uniqLook u t_name cn := by
  rw [addUniqStep_eq t_name row u c hu]
  simp only [uniqLook, sget_sset_self, Option.getD_some]
  rw [sget_sset_ne _ c.name cn _ (fun he => hne he.symm)]

theorem addUniqStep_skip (t_name : String) (row : Row)
    (u : List (String × List (String × VDict))) (c : Column)
    (hu : (c.is_unique && !c.is_primary_key) = false) :
    addUniqStep t_name row u c = u := by
  simp [addUniqStep, hu]

theorem updUniqStep_eq (t_name : String) (old_row new_row : Row)
    (u : List (String × List (String × VDict))) (c : Column)
    (hu : (c.is_unique && !c.is_primary_key) = true) :
    updUniqStep t_name old_row new_row u c
      = sset u t_name (sset ((sget u t_name).getD []) c.name
          (uniqColUpd c.name ((sget ((sget u t_name).getD []) c.name).getD [])
            old_row new_row)) := by
  simp [updUniqStep, hu, uniqColUpd, uniqColAdd, uniqColRem]

theorem updUniqStep_self (t_name : String) (old_row new_row : Row)
    (u : List (String × List (String × VDict))) (c : Column)
    (hu : (c.is_unique && !c.is_primary_key) = true) :
    uniqLook (updUniqStep t_name old_row new_row u c) t_name c.name
      = uniqColUpd c.name (uniqLook u t_name c.name) old_row new_row := by
  rw [updUniqStep_eq t_name old_row new_row u c hu]
  simp only [uniqLook, sget_sset_self, Option.getD_some]

theorem updUniqStep_other (t_name : String) (old_row new_row : Row)
    (u : List (String × List (String × VDict))) (c : Column) (cn : String)
    (hu : (c.is_unique && !c.is_primary_key) = true) (hne : cn ≠ c.name) :
    uniqLook (updUniqStep t_name old_row new_row u c) t_name cn = uniqLook u t_name cn := by
  rw [updUniqStep_eq t_name old_row new_row u c hu]
  simp only [uniqLook, sget_sset_self, Option.getD_some]
  rw [sget_sset_ne _ c.name cn _ (fun he => hne he.symm)]

theorem updUniqStep_skip (t_name : String) (old_row new_row : Row)
    (u : List (String × List (String × VDict))) (c : Column)
    (hu : (c.is_unique && !c.is_primary_key) = false) :
    updUniqStep t_name old_row new_row u c = u := by
  simp [updUniqStep, hu]

theorem remUniqStep_self (t_name : String) (row : Row)
    (u : List (String × List (String × VDict))) (c : Column)
    (hu : (c.is_unique && !c.is_primary_key) = true) :
    uniqLook (remUniqStep t_name row u c) t_name c.name
      = uniqColRem c.name (uniqLook u t_name c.name) row := by
  cases hut : sget u t_name with
  | none =>
    have h1 : remUniqStep t_name row u c = u := by
      simp [remUniqStep, hu, hut]
    rw [h1, uniqLook, hut]
    have h2 : (sget (((Option.none : Option (List (String × VDict)))).getD []) c.name).getD []
        = ([] : VDict) := rfl
    rw [show ((Option.none : Option (List (String × VDict)))).getD [] = [] from rfl]
    rw [show sget ([] : List (String × VDict)) c.name = Option.none from rfl]
    rw [uniqColRem, if_neg ?_]
    intro hc
    simpa [vmem, vget] using hc.2
  | some ud =>
    cases huc : sget ud c.name with
    | none =>
      have h1 : remUniqStep t_name row u c = u := by
        simp [remUniqStep, hu, hut, huc]
      rw [h1, uniqLook, hut]
      rw [show (some ud).getD ([] : List (String × VDict)) = ud from rfl, huc]
      rw [show ((Option.none : Option VDict)).getD [] = ([] : VDict) from rfl]
      rw [uniqColRem, if_neg ?_]
      intro hc
      simpa [vmem, vget] using hc.2
    | some sub =>
      by_cases hg : rowGet row c.name ≠ Value.none ∧ vmem sub (rowGet row c.name) = true
      · have h1 : remUniqStep t_name row u c
            = sset u t_name (sset ud c.name (vdel sub (rowGet row c.name))) := by
          simp [remUniqStep, hu, hut, huc, hg]
        rw [h1]
        simp only [uniqLook, sget_sset_self, Option.getD_some, hut, huc]
        simp only [uniqColRem]
        rw [if_pos hg]
      · have h1 : remUniqStep t_name row u c = u := by
          simp only [remUniqStep, hu, if_true, hut, huc]
          rw [if_neg hg]
        rw [h1, uniqLook, hut]
        rw [show (some ud).getD ([] : List (String × VDict)) = ud from rfl, huc]
        rw [show (some sub).getD ([] : VDict) = sub from rfl]
        rw [uniqColRem, if_neg hg]

theorem remUniqStep_other (t_name : String) (row : Row)
    (u : List (String × List (String × VDict))) (c : Column) (cn : String)
    (hu : (c.is_unique && !c.is_primary_key) = true) (hne : cn ≠ c.name) :
    uniqLook (remUniqStep t_name row u c) t_name cn = uniqLook u t_name cn := by
  cases hut : sget u t_name with
  | none =>
    have h1 : remUniqStep t_name row u c = u := by
      simp [remUniqStep, hu, hut]
    rw [h1]
  | some ud =>
    cases huc : sget ud c.name with
    | none =>
      have h1 : remUniqStep t_name row u c = u := by
        simp [remUniqStep, hu, hut, huc]
      rw [h1]
    | some sub =>
      by_cases hg : rowGet row c.name ≠ Value.none ∧ vmem sub (rowGet row c.name) = true
      · have h1 : remUniqStep t_name row u c
            = sset u t_name (sset ud c.name (vdel sub (rowGet row c.name))) := by
          simp [remUniqStep, hu, hut, huc, hg]
        rw [h1]
        simp only [uniqLook, sget_sset_self, Option.getD_some, hut]
        rw [sget_sset_ne _ c.name cn _ (fun he => hne he.symm)]
      · have h1 : remUniqStep t_name row u c = u := by
          simp only [remUniqStep, hu, if_true, hut, huc]
          rw [if_neg hg]
        rw [h1]

theorem remUniqStep_skip (t_name : String) (row : Row)
    (u : List (String × List (String × VDict))) (c : Column)
    (hu : (c.is_unique && !c.is_primary_key) = false) :
    remUniqStep t_name row u c = u := by
  simp [remUniqStep, hu]

-- The C5 agreement invariant and how `IndexManager` transforms the indexes.

/-- The primary-key index dict of a table (a missing entry reads empty). -/
def pkIdxOf (s : EngineState) (t_name : String) : VDict :=
  (sget s.indexes.primary_key_indexes t_name).getD []

/-- The unique index dict of one column of a table (missing entries read
empty). -/
def uniqIdxOf (s : EngineState) (t_name cname : String) : VDict :=
  uniqLook s.indexes.unique_indexes t_name cname

/-- The index/reconstruction agreement for one table: the primary-key index
looks up exactly like the reconstruction dict, and each non-primary-key
unique column's index looks up exactly like the projection of the
reconstructed rows on that column, together with the well-formedness and
value-distinctness these rest on. -/
def idxAgree (s : EngineState) (t : Table) (pkc : Column) : Prop :=
  vdictWF (pkIdxOf s t.name)
  ∧ (∀ w, vget (pkIdxOf s t.name) w = vget (reconKeyed s.ledger t.name pkc.name) w)
  ∧ ∀ c ∈ t.columns, (c.is_unique && !c.is_primary_key) = true →
      vdictWF (uniqIdxOf s t.name c.name)
      ∧ (∀ w, vget (uniqIdxOf s t.name c.name) w
          = vget (uniqProj (reconstruct_state_with_primary_key s.ledger t.name pkc.name)
              c.name) w)
      ∧ uniqDistinct (reconstruct_state_with_primary_key s.ledger t.name pkc.name) c.name

theorem add_row_pk (im : IndexManagerState) (t : Table) (row : Row) (pkc : Column)
    (hpk : t.get_primary_key_column = some pkc) (hn : rowGet row pkc.name ≠ Value.none) :
    (sget (im.add_row t row).primary_key_indexes t.name).getD []
      = vset ((sget im.primary_key_indexes t.name).getD []) (rowGet row pkc.name) row := by
  simp only [IndexManagerState.add_row, hpk]
  rw [if_pos hn, sget_sset_self, Option.getD_some, sget_sset_self, Option.getD_some]

theorem add_row_uniq (im : IndexManagerState) (t : Table) (row : Row) (pkc : Column)
    (hpk : t.get_primary_key_column = some pkc) (c : Column) (hc : c ∈ t.columns)
    (hu : (c.is_unique && !c.is_primary_key) = true)
    (hnd : (t.columns.map Column.name).Nodup) :
    uniqLook (im.add_row t row).unique_indexes t.name c.name
      = uniqColAdd c.name (uniqLook im.unique_indexes t.name c.name) row := by
  have h1 : (im.add_row t row).unique_indexes
      = t.columns.foldl (addUniqStep t.name row)
          (sset im.unique_indexes t.name ((sget im.unique_indexes t.name).getD [])) := by
    simp [IndexManagerState.add_row, hpk]
  rw [h1]
  rw [fold_uniq_lookup_target t.name (addUniqStep t.name row)
    (fun cn sub => uniqColAdd cn sub row)
    (fun u c2 hu2 => addUniqStep_self t.name row u c2 hu2)
    (fun u c2 cn hu2 hne => addUniqStep_other t.name row u c2 cn hu2 hne)
    (fun u c2 hu2 => addUniqStep_skip t.name row u c2 hu2)
    t.columns _ c hc hu hnd]
  have h2 : uniqLook (sset im.unique_indexes t.name
        ((sget im.unique_indexes t.name).getD [])) t.name c.name
      = uniqLook im.unique_indexes t.name c.name := by
    simp only [uniqLook, sget_sset_self, Option.getD_some]
  rw [h2]

theorem update_row_pk (im : IndexManagerState) (t : Table) (old_row new_row : Row)
    (pkc : Column) (hpk : t.get_primary_key_column = some pkc)
    (hov : vmem ((sget im.primary_key_indexes t.name).getD [])
      (rowGet old_row pkc.name) = true)
    (hon : rowGet old_row pkc.name ≠ Value.none)
    (hnn : rowGet new_row pkc.name ≠ Value.none) :
    (sget (im.update_row t old_row new_row).primary_key_indexes t.name).getD []
      = vset (vdel ((sget im.primary_key_indexes t.name).getD [])
          (rowGet old_row pkc.name)) (rowGet new_row pkc.name) new_row := by
  have h1 : (im.update_row t old_row new_row).primary_key_indexes
      = sset (sset im.primary_key_indexes t.name
            (vdel ((sget im.primary_key_indexes t.name).getD []) (rowGet old_row pkc.name)))
          t.name
          (vset ((sget (sset im.primary_key_indexes t.name
              (vdel ((sget im.primary_key_indexes t.name).getD [])
                (rowGet old_row pkc.name))) t.name).getD [])
            (rowGet new_row pkc.name) new_row) := by
    simp [IndexManagerState.update_row, hpk, hov, hon, hnn]
  rw [h1, sget_sset_self, Option.getD_some, sget_sset_self, Option.getD_some]

theorem update_row_uniq (im : IndexManagerState) (t : Table) (old_row new_row : Row)
    (pkc : Column) (hpk : t.get_primary_key_column = some pkc) (c : Column)
    (hc : c ∈ t.columns) (hu : (c.is_unique && !c.is_primary_key) = true)
    (hnd : (t.columns.map Column.name).Nodup) :
    uniqLook (im.update_row t old_row new_row).unique_indexes t.name c.name
      = uniqColUpd c.name (uniqLook im.unique_indexes t.name c.name) old_row new_row := by
  have h1 : (im.update_row t old_row new_row).unique_indexes
      = t.columns.foldl (updUniqStep t.name old_row new_row) im.unique_indexes := by
    simp [IndexManagerState.update_row, hpk]
  rw [h1]
  rw [fold_uniq_lookup_target t.name (updUniqStep t.name old_row new_row)
    (fun cn sub => uniqColUpd cn sub old_row new_row)
    (fun u c2 hu2 => updUniqStep_self t.name old_row new_row u c2 hu2)
    (fun u c2 cn hu2 hne => updUniqStep_other t.name old_row new_row u c2 cn hu2 hne)
    (fun u c2 hu2 => updUniqStep_skip t.name old_row new_row u c2 hu2)
    t.columns _ c hc hu hnd]

theorem remove_row_pk (im : IndexManagerState) (t : Table) (row : Row)
    (pkc : Column) (hpk : t.get_primary_key_column = some pkc) (d : VDict)
    (hud : sget im.primary_key_indexes t.name = some d)
    (hov : vmem d (rowGet row pkc.name) = true)
    (hon : rowGet row pkc.name ≠ Value.none) :
    (sget (im.remove_row t row).primary_key_indexes t.name).getD []
      = vdel d (rowGet row pkc.name) := by
  simp only [IndexManagerState.remove_row, hpk, hud]
  rw [if_pos ⟨hon, hov⟩, sget_sset_self, Option.getD_some]

theorem remove_row_uniq (im : IndexManagerState) (t : Table) (row : Row)
    (pkc : Column) (hpk : t.get_primary_key_column = some pkc) (c : Column)
    (hc : c ∈ t.columns) (hu : (c.is_unique && !c.is_primary_key) = true)
    (hnd : (t.columns.map Column.name).Nodup) :
    uniqLook (im.remove_row t row).unique_indexes t.name c.name
      = uniqColRem c.name (uniqLook im.unique_indexes t.name c.name) row := by
  have h1 : (im.remove_row t row).unique_indexes
      = t.columns.foldl (remUniqStep t.name row) im.unique_indexes := by
    simp [IndexManagerState.remove_row, hpk]
  rw [h1]
  rw [fold_uniq_lookup_target t.name (remUniqStep t.name row)
    (fun cn sub => uniqColRem cn sub row)
    (fun u c2 hu2 => remUniqStep_self t.name row u c2 hu2)
    (fun u c2 cn hu2 hne => remUniqStep_other t.name row u c2 cn hu2 hne)
    (fun u c2 hu2 => remUniqStep_skip t.name row u c2 hu2)
    t.columns _ c hc hu hnd]

-- What the validators guarantee on success.

theorem uniqNonPK_elim {c : Column} (h : (c.is_unique && !c.is_primary_key) = true) :
    c.is_unique = true ∧ c.is_primary_key = false := by
  simp only [Bool.and_eq_true, Bool.not_eq_true'] at h
  exact h

theorem validate_primary_key_ok_elim {t : Table} {row : Row} {existing : List Row}
    {idx : Option VDict} {pkc : Column}
    (hpk : t.get_primary_key_column = some pkc)
    (h : validate_primary_key t row existing idx = .ok ()) :
    rowGet row pkc.name ≠ Value.none ∧
    (∀ d, idx = some d → vmem d (rowGet row pkc.name) = false) := by
  simp only [validate_primary_key, hpk] at h
  by_cases h1 : rowGet row pkc.name = Value.none
  · rw [if_pos h1] at h
    exact absurd h (by simp)
  · rw [if_neg h1] at h
    cases idx with
    | none => exact ⟨h1, fun d hd => by simp at hd⟩
    | some d0 =>
      refine ⟨h1, fun d hd => ?_⟩
      have hd0 : d0 = d := Option.some_inj.mp hd
      subst hd0
      have h2 : (if vmem d0 (rowGet row pkc.name) then
          (Except.error Err.constraintViolation : Except Err Unit) else .ok ()) = .ok () := h
      cases hv : vmem d0 (rowGet row pkc.name)
      · rfl
      · rw [if_pos hv] at h2
        exact absurd h2 (by simp)

theorem uniqueLoop_ok_absent {row : Row} {existing : List Row}
    {ui : List (String × VDict)} :
    ∀ (cols : List Column), uniqueLoop row existing (some ui) cols = .ok () →
    ∀ (c : Column), c ∈ cols → (c.is_unique && !c.is_primary_key) = true →
    rowGet row c.name ≠ Value.none →
    ∀ (d : VDict), sget ui c.name = some d →
    vmem d (rowGet row c.name) = false
  | [], _, c, hc, _, _, _, _ => by simp at hc
  | hd :: tl, h, c, hc, hcu, hcn, d, hsget => by
    have hcu2 := uniqNonPK_elim hcu
    simp only [uniqueLoop] at h
    by_cases h1 : ¬(hd.is_unique = true ∧ hd.is_primary_key = false)
    · rw [if_pos h1] at h
      rcases List.mem_cons.mp hc with h2 | h2
      · rw [← h2] at h1
        exact absurd ⟨hcu2.1, hcu2.2⟩ h1
      · exact uniqueLoop_ok_absent tl h c h2 hcu hcn d hsget
    · rw [if_neg h1] at h
      by_cases h2 : rowGet row hd.name = Value.none
      · rw [if_pos h2] at h
        rcases List.mem_cons.mp hc with h3 | h3
        · rw [← h3] at h2
          exact absurd h2 hcn
        · exact uniqueLoop_ok_absent tl h c h3 hcu hcn d hsget
      · rw [if_neg h2] at h
        rcases List.mem_cons.mp hc with h3 | h3
        · subst h3
          rw [hsget] at h
          have h4 : (if vmem d (rowGet row c.name) then
              (Except.error Err.constraintViolation : Except Err Unit)
              else uniqueLoop row existing (some ui) tl) = .ok () := h
          cases hv : vmem d (rowGet row c.name)
          · rfl
          · rw [if_pos hv] at h4
            exact absurd h4 (by simp)
        · cases hsg : sget ui hd.name with
          | some dd =>
            rw [hsg] at h
            have h4 : (if vmem dd (rowGet row hd.name) then
                (Except.error Err.constraintViolation : Except Err Unit)
                else uniqueLoop row existing (some ui) tl) = .ok () := h
            cases hv : vmem dd (rowGet row hd.name)
            · rw [if_neg (by simp [hv])] at h4
              exact uniqueLoop_ok_absent tl h4 c h3 hcu hcn d hsget
            · rw [if_pos hv] at h4
              exact absurd h4 (by simp)
          | none =>
            rw [hsg] at h
            have h4 : (if existing.any
                  (fun r => pyEq (rowGet r hd.name) (rowGet row hd.name)) then
                (Except.error Err.constraintViolation : Except Err Unit)
                else uniqueLoop row existing (some ui) tl) = .ok () := h
            by_cases ha : existing.any
                (fun r => pyEq (rowGet r hd.name) (rowGet row hd.name)) = true
            · rw [if_pos ha] at h4
              exact absurd h4 (by simp)
            · rw [if_neg ha] at h4
              exact uniqueLoop_ok_absent tl h4 c h3 hcu hcn d hsget

theorem updateUniqueLoop_ok_triggered {t : Table} {old_row new_row : Row}
    {existing : List Row} {uniqIdx : Option (List (String × VDict))} :
    ∀ (cols : List Column),
    updateUniqueLoop t old_row new_row existing uniqIdx cols = .ok () →
    ∀ (c : Column), c ∈ cols → (c.is_unique && !c.is_primary_key) = true →
    ¬pyEq (rowGet old_row c.name) (rowGet new_row c.name) = true →
    rowGet new_row c.name ≠ Value.none →
    validate_unique_constraints t new_row existing uniqIdx = .ok ()
  | [], _, c, hc, _, _, _ => by simp at hc
  | hd :: tl, h, c, hc, hcu, hch, hcn => by
    have hcu2 := uniqNonPK_elim hcu
    simp only [updateUniqueLoop] at h
    by_cases h1 : ¬(hd.is_unique = true ∧ hd.is_primary_key = false)
    · rw [if_pos h1] at h
      rcases List.mem_cons.mp hc with h2 | h2
      · rw [← h2] at h1
        exact absurd ⟨hcu2.1, hcu2.2⟩ h1
      · exact updateUniqueLoop_ok_triggered tl h c h2 hcu hch hcn
    · rw [if_neg h1] at h
      by_cases h2 : ¬pyEq (rowGet old_row hd.name) (rowGet new_row hd.name) = true
          ∧ rowGet new_row hd.name ≠ Value.none
      · rw [if_pos h2] at h
        cases hvv : validate_unique_constraints t new_row existing uniqIdx with
        | ok u =>
          cases u
          rfl
        | error e =>
          rw [hvv] at h
          exact absurd h (by simp)
      · rw [if_neg h2] at h
        rcases List.mem_cons.mp hc with h3 | h3
        · rw [← h3] at h2
          exact absurd ⟨hch, hcn⟩ h2
        · exact updateUniqueLoop_ok_triggered tl h c h3 hcu hch hcn

theorem vcfu_ok_elim {t : Table} {old_row new_row : Row} {existing : List Row}
    {pkIdx : Option VDict} {uniqIdx : Option (List (String × VDict))} {pkc : Column}
    (hpk : t.get_primary_key_column = some pkc)
    (heq : rowGet new_row pkc.name = rowGet old_row pkc.name)
    (h : validate_constraints_for_update t old_row new_row existing pkIdx uniqIdx = .ok ()) :
    updateUniqueLoop t old_row new_row existing uniqIdx t.columns = .ok () := by
  simp only [validate_constraints_for_update, hpk, heq, pyEq_refl] at h
  simpa using h

theorem vmem_false_elim {d : VDict} {k : Value} (h : vmem d k = false) :
    vget d k = Option.none := by
  cases hv : vget d k with
  | none => rfl
  | some r => simp [vmem, hv] at h

theorem getTable_ok_elim {s : EngineState} {name : String} {t : Table}
    (h : getTable s name = .ok t) : sget s.schemas name = some t := by
  cases hsg : sget s.schemas name with
  | none =>
    rw [show getTable s name = .error .valueError by simp [getTable, hsg]] at h
    exact absurd h (by simp)
  | some t1 =>
    rw [show getTable s name = .ok t1 by simp [getTable, hsg]] at h
    have : t1 = t := by simpa using h
    exact congrArg some this

theorem getPKCol_ok_elim {t : Table} {c : Column} (h : getPKCol t = .ok c) :
    t.get_primary_key_column = some c := by
  cases hg : t.get_primary_key_column with
  | none =>
    rw [show getPKCol t = .error .valueError by simp [getPKCol, hg]] at h
    exact absurd h (by simp)
  | some c1 =>
    rw [show getPKCol t = .ok c1 by simp [getPKCol, hg]] at h
    have : c1 = c := by simpa using h
    exact congrArg some this

theorem insertChecks_ok_elim {s : EngineState} {stmt : InsertStatement} {t : Table}
    {row : Row} (h : insertChecks s stmt = .ok (t, row)) :
    sget s.schemas stmt.table_name = some t ∧
    ∃ pkc, t.get_primary_key_column = some pkc ∧
      validate_primary_key t row
        (reconstruct_state_with_primary_key s.ledger stmt.table_name pkc.name)
        (sget s.indexes.primary_key_indexes stmt.table_name) = .ok () ∧
      validate_unique_constraints t row
        (reconstruct_state_with_primary_key s.ledger stmt.table_name pkc.name)
        (sget s.indexes.unique_indexes stmt.table_name) = .ok () := by
  cases hgt : getTable s stmt.table_name with
  | error e =>
    rw [show insertChecks s stmt = .error e by
      simp [insertChecks, hgt, Bind.bind, Except.bind]] at h
    exact absurd h (by simp)
  | ok t0 =>
    cases hvt : validate_row_types stmt.values t0 with
    | error e =>
      rw [show insertChecks s stmt = .error e by
        simp [insertChecks, hgt, hvt, Bind.bind, Except.bind]] at h
      exact absurd h (by simp)
    | ok u1 =>
      cases hbr : build_row_dict stmt.values t0 with
      | error e =>
        rw [show insertChecks s stmt = .error e by
          simp [insertChecks, hgt, hvt, hbr, Bind.bind, Except.bind]] at h
        exact absurd h (by simp)
      | ok row0 =>
        cases hvr : validate_row row0 t0 with
        | error e =>
          rw [show insertChecks s stmt = .error e by
            simp [insertChecks, hgt, hvt, hbr, hvr, Bind.bind, Except.bind]] at h
          exact absurd h (by simp)
        | ok u2 =>
          cases hpkc : getPKCol t0 with
          | error e =>
            rw [show insertChecks s stmt = .error e by
              simp [insertChecks, hgt, hvt, hbr, hvr, hpkc, Bind.bind, Except.bind]] at h
            exact absurd h (by simp)
          | ok pkc0 =>
            cases hvp : validate_primary_key t0 row0
                (reconstruct_state_with_primary_key s.ledger stmt.table_name pkc0.name)
                (sget s.indexes.primary_key_indexes stmt.table_name) with
            | error e =>
              rw [show insertChecks s stmt = .error e by
                simp [insertChecks, hgt, hvt, hbr, hvr, hpkc, hvp, Bind.bind,
                  Except.bind]] at h
              exact absurd h (by simp)
            | ok u3 =>
              cases hvu : validate_unique_constraints t0 row0
                  (reconstruct_state_with_primary_key s.ledger stmt.table_name pkc0.name)
                  (sget s.indexes.unique_indexes stmt.table_name) with
              | error e =>
                rw [show insertChecks s stmt = .error e by
                  simp [insertChecks, hgt, hvt, hbr, hvr, hpkc, hvp, hvu, Bind.bind,
                    Except.bind]] at h
                exact absurd h (by simp)
              | ok u4 =>
                rw [show insertChecks s stmt = .ok (t0, row0) by
                  simp [insertChecks, hgt, hvt, hbr, hvr, hpkc, hvp, hvu, Bind.bind,
                    Except.bind]] at h
                have hpr : t0 = t ∧ row0 = row := by
                  have h2 := h
                  simp only [Except.ok.injEq, Prod.mk.injEq] at h2
                  exact h2
                obtain ⟨he1, he2⟩ := hpr
                subst he1
                subst he2
                cases u3
                cases u4
                exact ⟨getTable_ok_elim hgt, pkc0, getPKCol_ok_elim hpkc, hvp, hvu⟩

/-- A successful `execute_insert` preserves the index/reconstruction
agreement of its table. -/
theorem execute_insert_preserves (s : EngineState) (stmt : InsertStatement)
    (s2 : EngineState) (m : String) (t : Table) (pkc : Column)
    (hts : sget s.schemas stmt.table_name = some t)
    (htn : t.name = stmt.table_name)
    (hpk : t.get_primary_key_column = some pkc)
    (hnd : (t.columns.map Column.name).Nodup)
    (hinv : idxAgree s t pkc)
    (hrun : execute_insert s stmt = (s2, .ok m)) :
    idxAgree s2 t pkc := by
  obtain ⟨hwfp, hagp, huniq⟩ := hinv
  unfold execute_insert at hrun
  cases hc : insertChecks s stmt with
  | error e =>
    rw [hc] at hrun
    simp at hrun
  | ok p =>
    obtain ⟨t0, row⟩ := p
    rw [hc] at hrun
    obtain ⟨hts0, pkc0, hpk0, hvp, hvu⟩ := insertChecks_ok_elim hc
    have ht0 : t0 = t := Option.some_inj.mp (hts0.symm.trans hts)
    rw [ht0] at hc hrun hts0 hpk0 hvp hvu
    have hpkc0 : pkc0 = pkc := Option.some_inj.mp (hpk0.symm.trans hpk)
    rw [hpkc0] at hpk0 hvp hvu
    rw [← htn] at hvp hvu
    obtain ⟨hpkv, hpkabs⟩ := validate_primary_key_ok_elim hpk hvp
    have hfresh_pk : vget (reconKeyed s.ledger t.name pkc.name) (rowGet row pkc.name)
        = Option.none := by
      rw [← hagp]
      cases hsg : sget s.indexes.primary_key_indexes t.name with
      | none => simp only [pkIdxOf, hsg, Option.getD_none]; rfl
      | some d =>
        simp only [pkIdxOf, hsg, Option.getD_some]
        exact vmem_false_elim (hpkabs d hsg)
    have hrun2 : ((EngineState.mk s.schemas
        (s.ledger
          ++ [create_entry s.counter stmt.table_name OperationType.INSERT
            Option.none (some row)])
        (s.counter + 1) (s.indexes.add_row t row)),
        (Except.ok "1 row inserted" : Except Err String)) = (s2, Except.ok m) := hrun
    rw [Prod.mk.injEq] at hrun2
    have hs2 := hrun2.1.symm
    have hled : s2.ledger = s.ledger
        ++ [create_entry s.counter stmt.table_name OperationType.INSERT
          Option.none (some row)] := by
      rw [hs2]
    have hidx : s2.indexes = s.indexes.add_row t row := by
      rw [hs2]
    have hrec : reconKeyed (s.ledger
          ++ [create_entry s.counter stmt.table_name OperationType.INSERT
            Option.none (some row)])
          t.name pkc.name
        = vset (reconKeyed s.ledger t.name pkc.name) (rowGet row pkc.name) row := by
      rw [reconKeyed_append]
      have hstep : reconStep t.name pkc.name (reconKeyed s.ledger t.name pkc.name)
          (create_entry s.counter stmt.table_name OperationType.INSERT
            Option.none (some row))
          = if rowGet row pkc.name = Value.none then reconKeyed s.ledger t.name pkc.name
            else vset (reconKeyed s.ledger t.name pkc.name) (rowGet row pkc.name) row := by
        simp [reconStep, create_entry, ← htn]
      rw [hstep, if_neg hpkv]
    have hrows : reconstruct_state_with_primary_key (s.ledger
          ++ [create_entry s.counter stmt.table_name OperationType.INSERT
            Option.none (some row)])
          t.name pkc.name
        = reconstruct_state_with_primary_key s.ledger t.name pkc.name ++ [row] := by
      rw [reconstruct_state_with_primary_key, hrec, vset_append_of_none hfresh_pk]
      simp [vvalues, reconstruct_state_with_primary_key]
    have hpkI : pkIdxOf s2 t.name
        = vset (pkIdxOf s t.name) (rowGet row pkc.name) row := by
      simp only [pkIdxOf, hidx]
      exact add_row_pk s.indexes t row pkc hpk hpkv
    refine ⟨?_, ?_, ?_⟩
    · rw [hpkI]
      exact vdictWF_vset hwfp _ _
    · rw [hpkI, hled, hrec]
      exact vget_vset_congr hagp _ _
    · intro c hcm hcu
      obtain ⟨hwfc, hagc, hdc⟩ := huniq c hcm hcu
      simp only [uniqProj_lookup] at hagc ⊢
      have huI : uniqIdxOf s2 t.name c.name
          = uniqColAdd c.name (uniqIdxOf s t.name c.name) row := by
        simp only [uniqIdxOf, hidx]
        exact add_row_uniq s.indexes t row pkc hpk c hcm hcu hnd
      rw [huI, hled, hrows]
      have hfreshU : rowGet row c.name ≠ Value.none →
          ∀ x ∈ reconstruct_state_with_primary_key s.ledger t.name pkc.name ++ ([] : List Row),
          uniqMatches c.name (rowGet row c.name) x = false := by
        intro hn x hx
        rw [List.append_nil] at hx
        have hlm : lastMatch (reconstruct_state_with_primary_key s.ledger t.name pkc.name)
            c.name (rowGet row c.name) = Option.none := by
          cases hsu : sget s.indexes.unique_indexes t.name with
          | none =>
            have he : uniqIdxOf s t.name c.name = [] := by
              simp only [uniqIdxOf, uniqLook, hsu, Option.getD_none]
              rfl
            rw [← hagc (rowGet row c.name), he]
            rfl
          | some ui =>
            cases hsuc : sget ui c.name with
            | none =>
              have he : uniqIdxOf s t.name c.name = [] := by
                simp only [uniqIdxOf, uniqLook, hsu, Option.getD_some, hsuc,
                  Option.getD_none]
              rw [← hagc (rowGet row c.name), he]
              rfl
            | some d =>
              rw [hsu] at hvu
              simp only [validate_unique_constraints] at hvu
              have hvm := uniqueLoop_ok_absent t.columns hvu c hcm hcu hn d hsuc
              have he : uniqIdxOf s t.name c.name = d := by
                simp [uniqIdxOf, uniqLook, hsu, hsuc]
              rw [← hagc (rowGet row c.name), he]
              exact vmem_false_elim hvm
        exact (lastMatch_eq_none_iff _ _ _).mp hlm x hx
      obtain ⟨hw2, hag2, hd2⟩ := uniq_col_addmid_step c.name (uniqIdxOf s t.name c.name)
        (reconstruct_state_with_primary_key s.ledger t.name pkc.name) [] row hwfc
        (by simpa using hagc) (by simpa using hdc) hfreshU
      exact ⟨hw2, by simpa using hag2, by simpa using hd2⟩

theorem sget_eq_none_elim {α : Type} {d : List (String × α)} {k : String}
    (h : sget d k = Option.none) : ∀ p ∈ d, p.1 ≠ k := by
  induction d with
  | nil => simp
  | cons hd tl ih =>
    rw [sget_cons] at h
    by_cases h1 : (hd.1 == k) = true
    · rw [if_pos h1] at h
      exact absurd h (by simp)
    · rw [if_neg h1] at h
      intro p hp
      rcases List.mem_cons.mp hp with h2 | h2
      · rw [h2]
        simpa using h1
      · exact ih h p h2

theorem rowGet_sset_ne {r : Row} {k1 k : String} (h : k1 ≠ k) (v : Value) :
    rowGet (sset r k1 v) k = rowGet r k := by
  rw [rowGet, rowGet, sget_sset_ne r k1 k v h]

theorem rowGet_foldl_untouched {β : Type} (k : String) (f : Row → β → Row)
    (keyOf : β → String)
    (hf : ∀ r p, keyOf p ≠ k → rowGet (f r p) k = rowGet r k) :
    ∀ (l : List β), (∀ p ∈ l, keyOf p ≠ k) →
      ∀ r : Row, rowGet (l.foldl f r) k = rowGet r k
  | [], _, r => rfl
  | hd :: tl, hl, r => by
    rw [List.foldl_cons,
      rowGet_foldl_untouched k f keyOf hf tl
        (fun p hp => hl p (List.mem_cons_of_mem hd hp)) (f r hd),
      hf r hd (hl hd (List.mem_cons_self hd tl))]

/-- A `SET` list that does not assign a column leaves that column of the
mutated row unchanged. -/
theorem applySetClauses_untouched (t : Table) (set_clauses : List (String × Value))
    (old_row : Row) (k : String) (h : sget set_clauses k = Option.none) :
    rowGet (applySetClauses t set_clauses old_row) k = rowGet old_row k := by
  have hl := sget_eq_none_elim h
  simp only [applySetClauses]
  rw [rowGet_foldl_untouched k _ Prod.fst ?_ set_clauses hl _,
    rowGet_foldl_untouched k _ Prod.fst ?_ set_clauses hl old_row]
  · intro r p hnp
    exact rowGet_sset_ne hnp _
  · intro r p hnp
    cases hgc : t.get_column p.1 with
    | none => rfl
    | some c =>
      show rowGet (match convert_value p.2 c.data_type with
        | Except.ok cv => sset r p.1 cv
        | Except.error _ => r) k = rowGet r k
      cases hcv : convert_value p.2 c.data_type with
      | ok cv => exact rowGet_sset_ne hnp _
      | error e => rfl

/-- One successful candidate iteration of `execute_update` whose `SET` list
does not assign the primary-key column preserves the agreement, appends one
UPDATE entry, and upserts the mutated row in the reconstruction dict. -/
theorem updateOneRow_preserves (s : EngineState) (t : Table) (pkc : Column)
    (set_clauses : List (String × Value)) (allRows : List Row) (old_row : Row)
    (s2 : EngineState) (u : Unit)
    (hpk : t.get_primary_key_column = some pkc)
    (hnd : (t.columns.map Column.name).Nodup)
    (hset : sget set_clauses pkc.name = Option.none)
    (hinv : idxAgree s t pkc)
    (hcur : vget (reconKeyed s.ledger t.name pkc.name) (rowGet old_row pkc.name)
      = some old_row)
    (hrun : updateOneRow s t t.name set_clauses allRows old_row = (s2, .ok u)) :
    idxAgree s2 t pkc
    ∧ s2.ledger = s.ledger ++ [create_entry s.counter t.name OperationType.UPDATE
        (some old_row) (some (applySetClauses t set_clauses old_row))]
    ∧ reconKeyed s2.ledger t.name pkc.name
      = vset (reconKeyed s.ledger t.name pkc.name) (rowGet old_row pkc.name)
          (applySetClauses t set_clauses old_row) := by
  obtain ⟨hwfp, hagp, huniq⟩ := hinv
  have hpkeq : rowGet (applySetClauses t set_clauses old_row) pkc.name
      = rowGet old_row pkc.name :=
    applySetClauses_untouched t set_clauses old_row pkc.name hset
  have hkn : rowGet old_row pkc.name ≠ Value.none := by
    intro he
    rw [he, vget_none_of_noNoneKey (noNoneKey_reconKeyed s.ledger t.name pkc.name)] at hcur
    exact absurd hcur (by simp)
  simp only [updateOneRow] at hrun
  cases hv : validate_constraints_for_update t old_row
      (applySetClauses t set_clauses old_row)
      (allRows.filter (fun r => !rowEq r old_row))
      (sget s.indexes.primary_key_indexes t.name)
      (sget s.indexes.unique_indexes t.name) with
  | error e =>
    rw [hv] at hrun
    simp at hrun
  | ok u2 =>
    cases u2
    rw [hv] at hrun
    have hul : updateUniqueLoop t old_row (applySetClauses t set_clauses old_row)
        (allRows.filter (fun r => !rowEq r old_row))
        (sget s.indexes.unique_indexes t.name) t.columns = .ok () :=
      vcfu_ok_elim hpk hpkeq hv
    have hrun2 : ((EngineState.mk s.schemas
        (s.ledger ++ [create_entry s.counter t.name OperationType.UPDATE (some old_row)
          (some (applySetClauses t set_clauses old_row))])
        (s.counter + 1)
        (s.indexes.update_row t old_row (applySetClauses t set_clauses old_row))),
        (Except.ok () : Except Err Unit)) = (s2, Except.ok u) := hrun
    rw [Prod.mk.injEq] at hrun2
    have hs2 := hrun2.1.symm
    have hled : s2.ledger = s.ledger
        ++ [create_entry s.counter t.name OperationType.UPDATE (some old_row)
          (some (applySetClauses t set_clauses old_row))] := by
      rw [hs2]
    have hidx : s2.indexes
        = s.indexes.update_row t old_row (applySetClauses t set_clauses old_row) := by
      rw [hs2]
    have hpm : vget (pkIdxOf s t.name) (rowGet old_row pkc.name) = some old_row := by
      rw [hagp]
      exact hcur
    have hvm_pk : vmem (pkIdxOf s t.name) (rowGet old_row pkc.name) = true := by
      simp [vmem, hpm]
    have hrec : reconKeyed s2.ledger t.name pkc.name
        = vset (reconKeyed s.ledger t.name pkc.name) (rowGet old_row pkc.name)
          (applySetClauses t set_clauses old_row) := by
      rw [hled, reconKeyed_append]
      have hstep : reconStep t.name pkc.name (reconKeyed s.ledger t.name pkc.name)
          (create_entry s.counter t.name OperationType.UPDATE (some old_row)
            (some (applySetClauses t set_clauses old_row)))
          = if rowGet (applySetClauses t set_clauses old_row) pkc.name = Value.none
            then reconKeyed s.ledger t.name pkc.name
            else vset (reconKeyed s.ledger t.name pkc.name)
              (rowGet (applySetClauses t set_clauses old_row) pkc.name)
              (applySetClauses t set_clauses old_row) := by
        simp [reconStep, create_entry]
      rw [hstep, hpkeq, if_neg hkn]
    have hpkI : pkIdxOf s2 t.name
        = vset (vdel (pkIdxOf s t.name) (rowGet old_row pkc.name))
          (rowGet old_row pkc.name) (applySetClauses t set_clauses old_row) := by
      simp only [pkIdxOf, hidx]
      have hupd := update_row_pk s.indexes t old_row
        (applySetClauses t set_clauses old_row) pkc hpk hvm_pk hkn
        (by rw [hpkeq]; exact hkn)
      rw [hupd, hpkeq]
    obtain ⟨d1, k0, d2, hde, hk0, hd1f, hvs, hvd⟩ :=
      vget_decomp hcur (applySetClauses t set_clauses old_row)
    have hrowsplit : reconstruct_state_with_primary_key s.ledger t.name pkc.name
        = vvalues d1 ++ old_row :: vvalues d2 := by
      rw [reconstruct_state_with_primary_key, hde]
      simp [vvalues]
    have hrows2 : reconstruct_state_with_primary_key s2.ledger t.name pkc.name
        = vvalues d1 ++ applySetClauses t set_clauses old_row :: vvalues d2 := by
      rw [reconstruct_state_with_primary_key, hrec, hvs]
      simp [vvalues]
    refine ⟨⟨?_, ?_, ?_⟩, hled, hrec⟩
    · rw [hpkI]
      exact vdictWF_vset (vdictWF_vdel hwfp _) _ _
    · intro w
      rw [hpkI, hrec]
      by_cases hw : pyEq (rowGet old_row pkc.name) w = true
      · rw [vget_vset_eq hw, vget_vset_eq hw]
      · have hwb : pyEq (rowGet old_row pkc.name) w = false := by simpa using hw
        rw [vget_vset_ne hwb, vget_vset_ne hwb, vget_vdel_ne hwb]
        exact hagp w
    · intro c hcm hcu
      obtain ⟨hwfc, hagc, hdc⟩ := huniq c hcm hcu
      simp only [uniqProj_lookup] at hagc ⊢
      rw [hrowsplit] at hagc hdc
      have huI : uniqIdxOf s2 t.name c.name
          = uniqColUpd c.name (uniqIdxOf s t.name c.name) old_row
            (applySetClauses t set_clauses old_row) := by
        simp only [uniqIdxOf, hidx]
        exact update_row_uniq s.indexes t old_row _ pkc hpk c hcm hcu hnd
      rw [huI, hrows2]
      have hfreshU : ¬pyEq (rowGet old_row c.name)
            (rowGet (applySetClauses t set_clauses old_row) c.name) = true →
          rowGet (applySetClauses t set_clauses old_row) c.name ≠ Value.none →
          lastMatch (vvalues d1 ++ old_row :: vvalues d2) c.name
            (rowGet (applySetClauses t set_clauses old_row) c.name) = Option.none := by
        intro hch hn
        have hvok := updateUniqueLoop_ok_triggered t.columns hul c hcm hcu hch hn
        cases hsu : sget s.indexes.unique_indexes t.name with
        | none =>
          have he : uniqIdxOf s t.name c.name = [] := by
            simp only [uniqIdxOf, uniqLook, hsu, Option.getD_none]
            rfl
          rw [← hagc _, he]
          rfl
        | some ui =>
          cases hsuc : sget ui c.name with
          | none =>
            have he : uniqIdxOf s t.name c.name = [] := by
              simp only [uniqIdxOf, uniqLook, hsu, Option.getD_some, hsuc,
                Option.getD_none]
            rw [← hagc _, he]
            rfl
          | some d =>
            rw [hsu] at hvok
            simp only [validate_unique_constraints] at hvok
            have hvm := uniqueLoop_ok_absent t.columns hvok c hcm hcu hn d hsuc
            have he : uniqIdxOf s t.name c.name = d := by
              simp only [uniqIdxOf, uniqLook, hsu, Option.getD_some, hsuc,
                Option.getD_some]
            rw [← hagc _, he]
            exact vmem_false_elim hvm
      exact uniq_col_update_step c.name (uniqIdxOf s t.name c.name) (vvalues d1)
        (vvalues d2) old_row (applySetClauses t set_clauses old_row) hwfc hagc hdc hfreshU

theorem whereFilterLoop_sublist (column op : String) (value : Value) :
    ∀ (rows out : List Row), whereFilterLoop column op value rows = .ok out →
      List.Sublist out rows
  | [], out, h => by
    have h2 : (Except.ok ([] : List Row) : Except Err (List Row)) = .ok out := h
    have h3 : out = [] := by simpa using h2.symm
    rw [h3]
  | r :: tl, out, h => by
    cases hev : evalCondOnRow r column op value with
    | error e =>
      rw [show whereFilterLoop column op value (r :: tl) = .error e by
        simp [whereFilterLoop, hev, Bind.bind, Except.bind]] at h
      exact absurd h (by simp)
    | ok b =>
      cases hrest : whereFilterLoop column op value tl with
      | error e =>
        rw [show whereFilterLoop column op value (r :: tl) = .error e by
          simp [whereFilterLoop, hev, hrest, Bind.bind, Except.bind]] at h
        exact absurd h (by simp)
      | ok rest =>
        have hsub := whereFilterLoop_sublist column op value tl rest hrest
        rw [show whereFilterLoop column op value (r :: tl)
            = .ok (if b then r :: rest else rest) by
          simp [whereFilterLoop, hev, hrest, Bind.bind, Except.bind]] at h
        have hout : out = if b then r :: rest else rest := by simpa using h.symm
        rw [hout]
        by_cases hb : b = true
        · rw [if_pos hb]
          exact List.Sublist.cons₂ r hsub
        · rw [if_neg hb]
          exact List.sublist_cons_of_sublist r hsub

theorem updatePre_ok_elim {s : EngineState} {stmt : UpdateStatement} {t : Table}
    {rows matching : List Row}
    (h : updatePre s stmt = .ok (t, rows, matching)) :
    sget s.schemas stmt.table_name = some t ∧
    ∃ pkc, t.get_primary_key_column = some pkc ∧
      rows = reconstruct_state_with_primary_key s.ledger stmt.table_name pkc.name ∧
      List.Sublist matching rows := by
  cases hgt : getTable s stmt.table_name with
  | error e =>
    rw [show updatePre s stmt = .error e by
      simp [updatePre, hgt, Bind.bind, Except.bind]] at h
    exact absurd h (by simp)
  | ok t0 =>
    cases hpkc : getPKCol t0 with
    | error e =>
      rw [show updatePre s stmt = .error e by
        simp [updatePre, hgt, hpkc, Bind.bind, Except.bind]] at h
      exact absurd h (by simp)
    | ok pkc0 =>
      cases hw : stmt.where_clause with
      | none =>
        rw [show updatePre s stmt = .ok (t0,
            reconstruct_state_with_primary_key s.ledger stmt.table_name pkc0.name,
            reconstruct_state_with_primary_key s.ledger stmt.table_name pkc0.name) by
          simp [updatePre, hgt, hpkc, hw, Bind.bind, Except.bind]] at h
        simp only [Except.ok.injEq, Prod.mk.injEq] at h
        obtain ⟨he1, he2, he3⟩ := h
        refine ⟨he1 ▸ getTable_ok_elim hgt, pkc0, he1 ▸ getPKCol_ok_elim hpkc,
          he2.symm, ?_⟩
        rw [← he3, ← he2]
      | some w =>
        cases happ : applyWhereClause
            (reconstruct_state_with_primary_key s.ledger stmt.table_name pkc0.name) w with
        | error e =>
          rw [show updatePre s stmt = .error e by
            simp [updatePre, hgt, hpkc, hw, happ, Bind.bind, Except.bind]] at h
          exact absurd h (by simp)
        | ok out =>
          rw [show updatePre s stmt = .ok (t0,
              reconstruct_state_with_primary_key s.ledger stmt.table_name pkc0.name,
              out) by
            simp [updatePre, hgt, hpkc, hw, happ, Bind.bind, Except.bind]] at h
          simp only [Except.ok.injEq, Prod.mk.injEq] at h
          obtain ⟨he1, he2, he3⟩ := h
          have hsubl : List.Sublist out
              (reconstruct_state_with_primary_key s.ledger stmt.table_name pkc0.name) := by
            cases w with
            | condition col op v =>
              exact whereFilterLoop_sublist col op v _ out
                (by simpa [applyWhereClause] using happ)
            | andNode a b => simp [applyWhereClause] at happ
            | orNode a b => simp [applyWhereClause] at happ
          refine ⟨he1 ▸ getTable_ok_elim hgt, pkc0, he1 ▸ getPKCol_ok_elim hpkc,
            he2.symm, ?_⟩
          rw [← he3, ← he2]
          exact hsubl

theorem deletePre_ok_elim {s : EngineState} {stmt : DeleteStatement} {t : Table}
    {matching : List Row}
    (h : deletePre s stmt = .ok (t, matching)) :
    sget s.schemas stmt.table_name = some t ∧
    ∃ pkc, t.get_primary_key_column = some pkc ∧
      List.Sublist matching
        (reconstruct_state_with_primary_key s.ledger stmt.table_name pkc.name) := by
  cases hgt : getTable s stmt.table_name with
  | error e =>
    rw [show deletePre s stmt = .error e by
      simp [deletePre, hgt, Bind.bind, Except.bind]] at h
    exact absurd h (by simp)
  | ok t0 =>
    cases hpkc : getPKCol t0 with
    | error e =>
      rw [show deletePre s stmt = .error e by
        simp [deletePre, hgt, hpkc, Bind.bind, Except.bind]] at h
      exact absurd h (by simp)
    | ok pkc0 =>
      cases hw : stmt.where_clause with
      | none =>
        rw [show deletePre s stmt = .ok (t0,
            reconstruct_state_with_primary_key s.ledger stmt.table_name pkc0.name) by
          simp [deletePre, hgt, hpkc, hw, Bind.bind, Except.bind]] at h
        simp only [Except.ok.injEq, Prod.mk.injEq] at h
        obtain ⟨he1, he2⟩ := h
        refine ⟨he1 ▸ getTable_ok_elim hgt, pkc0, he1 ▸ getPKCol_ok_elim hpkc, ?_⟩
        rw [← he2]
      | some w =>
        cases happ : applyWhereClause
            (reconstruct_state_with_primary_key s.ledger stmt.table_name pkc0.name) w with
        | error e =>
          rw [show deletePre s stmt = .error e by
            simp [deletePre, hgt, hpkc, hw, happ, Bind.bind, Except.bind]] at h
          exact absurd h (by simp)
        | ok out =>
          rw [show deletePre s stmt = .ok (t0, out) by
            simp [deletePre, hgt, hpkc, hw, happ, Bind.bind, Except.bind]] at h
          simp only [Except.ok.injEq, Prod.mk.injEq] at h
          obtain ⟨he1, he2⟩ := h
          have hsubl : List.Sublist out
              (reconstruct_state_with_primary_key s.ledger stmt.table_name pkc0.name) := by
            cases w with
            | condition col op v =>
              exact whereFilterLoop_sublist col op v _ out
                (by simpa [applyWhereClause] using happ)
            | andNode a b => simp [applyWhereClause] at happ
            | orNode a b => simp [applyWhereClause] at happ
          refine ⟨he1 ▸ getTable_ok_elim hgt, pkc0, he1 ▸ getPKCol_ok_elim hpkc, ?_⟩
          rw [← he2]
          exact hsubl

theorem matching_live_pairwise {s : EngineState} {t_name pk : String}
    {matching : List Row}
    (hsub : List.Sublist matching
      (reconstruct_state_with_primary_key s.ledger t_name pk)) :
    (∀ r ∈ matching, vget (reconKeyed s.ledger t_name pk) (rowGet r pk) = some r)
    ∧ List.Pairwise (fun r1 r2 => pyEq (rowGet r1 pk) (rowGet r2 pk) = false) matching := by
  constructor
  · intro r hr
    exact vget_of_mem_values (vdictWF_reconKeyed s.ledger t_name pk)
      (keyCoherent_reconKeyed s.ledger t_name pk) (hsub.subset hr)
  · exact List.Pairwise.sublist hsub
      (recon_values_pk_pairwise (vdictWF_reconKeyed s.ledger t_name pk)
        (keyCoherent_reconKeyed s.ledger t_name pk))

/-- One iteration of `execute_delete`'s loop preserves the agreement and
removes the row's key from the reconstruction dict. -/
theorem delete_one_preserves (s : EngineState) (t : Table) (pkc : Column) (r : Row)
    (hpk : t.get_primary_key_column = some pkc)
    (hnd : (t.columns.map Column.name).Nodup)
    (hinv : idxAgree s t pkc)
    (hcur : vget (reconKeyed s.ledger t.name pkc.name) (rowGet r pkc.name) = some r) :
    idxAgree (EngineState.mk s.schemas
        (s.ledger ++ [create_entry s.counter t.name OperationType.DELETE (some r)
          Option.none])
        (s.counter + 1) (s.indexes.remove_row t r)) t pkc
    ∧ reconKeyed (s.ledger ++ [create_entry s.counter t.name OperationType.DELETE (some r)
        Option.none]) t.name pkc.name
      = vdel (reconKeyed s.ledger t.name pkc.name) (rowGet r pkc.name) := by
  obtain ⟨hwfp, hagp, huniq⟩ := hinv
  have hkn : rowGet r pkc.name ≠ Value.none := by
    intro he
    rw [he, vget_none_of_noNoneKey (noNoneKey_reconKeyed s.ledger t.name pkc.name)] at hcur
    exact absurd hcur (by simp)
  have hvmem : vmem (reconKeyed s.ledger t.name pkc.name) (rowGet r pkc.name) = true := by
    simp [vmem, hcur]
  have hrec : reconKeyed (s.ledger
        ++ [create_entry s.counter t.name OperationType.DELETE (some r) Option.none])
        t.name pkc.name
      = vdel (reconKeyed s.ledger t.name pkc.name) (rowGet r pkc.name) := by
    rw [reconKeyed_append]
    have hstep : reconStep t.name pkc.name (reconKeyed s.ledger t.name pkc.name)
        (create_entry s.counter t.name OperationType.DELETE (some r) Option.none)
        = if rowGet r pkc.name ≠ Value.none
            ∧ vmem (reconKeyed s.ledger t.name pkc.name) (rowGet r pkc.name) = true
          then vdel (reconKeyed s.ledger t.name pkc.name) (rowGet r pkc.name)
          else reconKeyed s.ledger t.name pkc.name := by
      simp [reconStep, create_entry]
    rw [hstep, if_pos ⟨hkn, hvmem⟩]
  cases hsg : sget s.indexes.primary_key_indexes t.name with
  | none =>
    exfalso
    have h2 := hagp (rowGet r pkc.name)
    rw [hcur] at h2
    simp only [pkIdxOf, hsg, Option.getD_none] at h2
    exact absurd h2 (by simp [vget])
  | some d =>
    have hdeq : pkIdxOf s t.name = d := by
      simp only [pkIdxOf, hsg, Option.getD_some]
    have hpm : vmem d (rowGet r pkc.name) = true := by
      rw [← hdeq]
      have h2 := hagp (rowGet r pkc.name)
      rw [hcur] at h2
      simp [vmem, h2]
    have hpkI : pkIdxOf (EngineState.mk s.schemas
          (s.ledger ++ [create_entry s.counter t.name OperationType.DELETE (some r)
            Option.none])
          (s.counter + 1) (s.indexes.remove_row t r)) t.name
        = vdel d (rowGet r pkc.name) := by
      simp only [pkIdxOf]
      exact remove_row_pk s.indexes t r pkc hpk d hsg hpm hkn
    obtain ⟨d1, k0, d2, hde, hk0, hd1f, hvs, hvd⟩ := vget_decomp hcur r
    have hrowsplit : reconstruct_state_with_primary_key s.ledger t.name pkc.name
        = vvalues d1 ++ r :: vvalues d2 := by
      rw [reconstruct_state_with_primary_key, hde]
      simp [vvalues]
    have hrows2 : reconstruct_state_with_primary_key (s.ledger
          ++ [create_entry s.counter t.name OperationType.DELETE (some r) Option.none])
          t.name pkc.name
        = vvalues d1 ++ vvalues d2 := by
      rw [reconstruct_state_with_primary_key, hrec, hvd]
      simp [vvalues]
    refine ⟨⟨?_, ?_, ?_⟩, hrec⟩
    · rw [hpkI]
      exact vdictWF_vdel (hdeq ▸ hwfp) _
    · intro w
      rw [hpkI, hrec]
      exact vget_vdel_congr (hdeq ▸ hwfp)
        (vdictWF_reconKeyed s.ledger t.name pkc.name)
        (fun w2 => by rw [← hdeq]; exact hagp w2) _ w
    · intro c hcm hcu
      obtain ⟨hwfc, hagc, hdc⟩ := huniq c hcm hcu
      simp only [uniqProj_lookup] at hagc ⊢
      rw [hrowsplit] at hagc hdc
      have huI : uniqIdxOf (EngineState.mk s.schemas
            (s.ledger ++ [create_entry s.counter t.name OperationType.DELETE (some r)
              Option.none])
            (s.counter + 1) (s.indexes.remove_row t r)) t.name c.name
          = uniqColRem c.name (uniqIdxOf s t.name c.name) r := by
        simp only [uniqIdxOf]
        exact remove_row_uniq s.indexes t r pkc hpk c hcm hcu hnd
      rw [huI, hrows2]
      exact uniq_col_delete_step c.name (uniqIdxOf s t.name c.name) (vvalues d1)
        (vvalues d2) r hwfc hagc hdc

/-- The whole `execute_delete` loop preserves the agreement. -/
theorem deleteLoop_preserves (t : Table) (pkc : Column)
    (hpk : t.get_primary_key_column = some pkc)
    (hnd : (t.columns.map Column.name).Nodup) :
    ∀ (matching : List Row) (s : EngineState) (n : Nat),
      idxAgree s t pkc →
      (∀ r ∈ matching, vget (reconKeyed s.ledger t.name pkc.name) (rowGet r pkc.name)
        = some r) →
      List.Pairwise (fun r1 r2 => pyEq (rowGet r1 pkc.name) (rowGet r2 pkc.name) = false)
        matching →
      idxAgree (deleteLoop t t.name s matching n).1 t pkc
  | [], s, n, hinv, _, _ => hinv
  | r :: tl, s, n, hinv, hlive, hpw => by
    have hstep : deleteLoop t t.name s (r :: tl) n
        = deleteLoop t t.name (EngineState.mk s.schemas
            (s.ledger ++ [create_entry s.counter t.name OperationType.DELETE (some r)
              Option.none])
            (s.counter + 1) (s.indexes.remove_row t r)) tl (n + 1) := rfl
    rw [hstep]
    obtain ⟨hinv1, hrec1⟩ := delete_one_preserves s t pkc r hpk hnd hinv
      (hlive r (List.mem_cons_self r tl))
    refine deleteLoop_preserves t pkc hpk hnd tl _ (n + 1) hinv1 ?_
      ((List.pairwise_cons.mp hpw).2)
    intro r2 hr2
    have hne : pyEq (rowGet r pkc.name) (rowGet r2 pkc.name) = false :=
      (List.pairwise_cons.mp hpw).1 r2 hr2
    have hled1 : (EngineState.mk s.schemas
        (s.ledger ++ [create_entry s.counter t.name OperationType.DELETE (some r)
          Option.none])
        (s.counter + 1) (s.indexes.remove_row t r)).ledger
        = s.ledger ++ [create_entry s.counter t.name OperationType.DELETE (some r)
          Option.none] := rfl
    rw [hled1, hrec1, vget_vdel_ne hne]
    exact hlive r2 (List.mem_cons_of_mem r hr2)

/-- The whole `execute_update` candidate loop preserves the agreement when
the `SET` list does not assign the primary-key column. -/
theorem updateLoop_preserves (t : Table) (pkc : Column)
    (set_clauses : List (String × Value)) (allRows : List Row)
    (hpk : t.get_primary_key_column = some pkc)
    (hnd : (t.columns.map Column.name).Nodup)
    (hset : sget set_clauses pkc.name = Option.none) :
    ∀ (matching : List Row) (s : EngineState) (n : Nat) (s2 : EngineState) (n2 : Nat),
      idxAgree s t pkc →
      (∀ r ∈ matching, vget (reconKeyed s.ledger t.name pkc.name) (rowGet r pkc.name)
        = some r) →
      List.Pairwise (fun r1 r2 => pyEq (rowGet r1 pkc.name) (rowGet r2 pkc.name) = false)
        matching →
      updateLoop t t.name set_clauses allRows s matching n = (s2, .ok n2) →
      idxAgree s2 t pkc
  | [], s, n, s2, n2, hinv, _, _, hrun => by
    have h2 : ((s, Except.ok n) : EngineState × Except Err Nat) = (s2, .ok n2) := hrun
    rw [Prod.mk.injEq] at h2
    rw [← h2.1]
    exact hinv
  | r :: tl, s, n, s2, n2, hinv, hlive, hpw, hrun => by
    simp only [updateLoop] at hrun
    cases hone : updateOneRow s t t.name set_clauses allRows r with
    | mk s1 res =>
      cases res with
      | error e =>
        rw [hone] at hrun
        have h2 : ((s1, Except.error e) : EngineState × Except Err Nat) = (s2, .ok n2) :=
          hrun
        rw [Prod.mk.injEq] at h2
        exact absurd h2.2 (by simp)
      | ok u =>
        rw [hone] at hrun
        have h2 : updateLoop t t.name set_clauses allRows s1 tl (n + 1) = (s2, .ok n2) :=
          hrun
        obtain ⟨hinv1, hled1, hrec1⟩ := updateOneRow_preserves s t pkc set_clauses allRows
          r s1 u hpk hnd hset hinv (hlive r (List.mem_cons_self r tl)) hone
        refine updateLoop_preserves t pkc set_clauses allRows hpk hnd hset tl s1 (n + 1)
          s2 n2 hinv1 ?_ ((List.pairwise_cons.mp hpw).2) h2
        intro r2 hr2
        have hne : pyEq (rowGet r pkc.name) (rowGet r2 pkc.name) = false :=
          (List.pairwise_cons.mp hpw).1 r2 hr2
        rw [hrec1, vget_vset_ne hne]
        exact hlive r2 (List.mem_cons_of_mem r hr2)

theorem execute_update_preserves (s : EngineState) (stmt : UpdateStatement)
    (s2 : EngineState) (n : Nat) (t : Table) (pkc : Column)
    (hts : sget s.schemas stmt.table_name = some t)
    (htn : t.name = stmt.table_name)
    (hpk : t.get_primary_key_column = some pkc)
    (hnd : (t.columns.map Column.name).Nodup)
    (hset : sget stmt.set_clauses pkc.name = Option.none)
    (hinv : idxAgree s t pkc)
    (hrun : execute_update s stmt = (s2, .ok n)) :
    idxAgree s2 t pkc := by
  unfold execute_update at hrun
  cases hp : updatePre s stmt with
  | error e =>
    rw [hp] at hrun
    simp at hrun
  | ok p =>
    obtain ⟨t0, rows, matching⟩ := p
    rw [hp] at hrun
    have hrun2 : updateLoop t0 stmt.table_name stmt.set_clauses rows s matching 0
        = (s2, .ok n) := hrun
    obtain ⟨hts0, pkc0, hpk0, hrowseq, hsub⟩ := updatePre_ok_elim hp
    have ht0 : t0 = t := Option.some_inj.mp (hts0.symm.trans hts)
    rw [ht0] at hrun2 hpk0
    have hpkc0 : pkc0 = pkc := Option.some_inj.mp (hpk0.symm.trans hpk)
    rw [hpkc0] at hrowseq
    rw [← htn] at hrun2 hrowseq
    rw [hrowseq] at hsub
    obtain ⟨hlive, hpw⟩ := matching_live_pairwise hsub
    exact updateLoop_preserves t pkc stmt.set_clauses rows hpk hnd hset matching s 0 s2 n
      hinv hlive hpw hrun2

theorem execute_delete_preserves (s : EngineState) (stmt : DeleteStatement)
    (s2 : EngineState) (n : Nat) (t : Table) (pkc : Column)
    (hts : sget s.schemas stmt.table_name = some t)
    (htn : t.name = stmt.table_name)
    (hpk : t.get_primary_key_column = some pkc)
    (hnd : (t.columns.map Column.name).Nodup)
    (hinv : idxAgree s t pkc)
    (hrun : execute_delete s stmt = (s2, .ok n)) :
    idxAgree s2 t pkc := by
  unfold execute_delete at hrun
  cases hp : deletePre s stmt with
  | error e =>
    rw [hp] at hrun
    simp at hrun
  | ok p =>
    obtain ⟨t0, matching⟩ := p
    rw [hp] at hrun
    have hrun2 : (((deleteLoop t0 stmt.table_name s matching 0).1 : EngineState),
        (Except.ok (deleteLoop t0 stmt.table_name s matching 0).2 : Except Err Nat))
        = (s2, .ok n) := hrun
    rw [Prod.mk.injEq] at hrun2
    obtain ⟨hts0, pkc0, hpk0, hsub⟩ := deletePre_ok_elim hp
    have ht0 : t0 = t := Option.some_inj.mp (hts0.symm.trans hts)
    rw [ht0] at hrun2 hpk0
    have hpkc0 : pkc0 = pkc := Option.some_inj.mp (hpk0.symm.trans hpk)
    rw [hpkc0] at hsub
    rw [← htn] at hrun2 hsub
    obtain ⟨hlive, hpw⟩ := matching_live_pairwise hsub
    rw [← hrun2.1]
    exact deleteLoop_preserves t pkc hpk hnd matching s 0 hinv hlive hpw

/-- C5 (amended): after every successful INSERT and DELETE, and after every
successful UPDATE whose `SET` list does not assign the table's primary-key
column, the primary-key index of the affected table still looks up exactly
like the dict built by `reconstruct_state_with_primary_key` keyed by the
primary key, and each non-primary-key unique column's index still looks up
exactly like the projection of that row set on its column restricted to
non-null values (`idxAgree`, which also carries the well-formedness and
distinctness of these dicts).  A `SET` list that assigns the primary key can
break the agreement, so the UPDATE conjunct requires that the primary-key
column is not assigned. -/
theorem C5_amended_index_agreement_preserved :
    (∀ (s : EngineState) (stmt : InsertStatement) (s2 : EngineState) (m : String)
        (t : Table) (pkc : Column),
      sget s.schemas stmt.table_name = some t → t.name = stmt.table_name →
      t.get_primary_key_column = some pkc → (t.columns.map Column.name).Nodup →
      idxAgree s t pkc → execute_insert s stmt = (s2, .ok m) → idxAgree s2 t pkc)
    ∧ (∀ (s : EngineState) (stmt : UpdateStatement) (s2 : EngineState) (n : Nat)
        (t : Table) (pkc : Column),
      sget s.schemas stmt.table_name = some t → t.name = stmt.table_name →
      t.get_primary_key_column = some pkc → (t.columns.map Column.name).Nodup →
      sget stmt.set_clauses pkc.name = Option.none →
      idxAgree s t pkc → execute_update s stmt = (s2, .ok n) → idxAgree s2 t pkc)
    ∧ (∀ (s : EngineState) (stmt : DeleteStatement) (s2 : EngineState) (n : Nat)
        (t : Table) (pkc : Column),
      sget s.schemas stmt.table_name = some t → t.name = stmt.table_name →
      t.get_primary_key_column = some pkc → (t.columns.map Column.name).Nodup →
      idxAgree s t pkc → execute_delete s stmt = (s2, .ok n) → idxAgree s2 t pkc) :=
  ⟨fun s stmt s2 m t pkc h1 h2 h3 h4 h5 h6 =>
      execute_insert_preserves s stmt s2 m t pkc h1 h2 h3 h4 h5 h6,
    fun s stmt s2 n t pkc h1 h2 h3 h4 h5 h6 h7 =>
      execute_update_preserves s stmt s2 n t pkc h1 h2 h3 h4 h5 h6 h7,
    fun s stmt s2 n t pkc h1 h2 h3 h4 h5 h6 =>
      execute_delete_preserves s stmt s2 n t pkc h1 h2 h3 h4 h5 h6⟩

/-- The concrete table of the C5 witness: `id INT PRIMARY KEY, u TEXT UNIQUE`. -/
def c5w_table : Table :=
  Table.mk "w" [mkColumn "id" DataType.INT true false, mkColumn "u" DataType.TEXT false true]

/-- The primary-key column of the C5 witness table. -/
def c5w_pkc : Column := mkColumn "id" DataType.INT true false

/-- The concrete engine state of the C5 witness: table registered, empty
ledger, empty indexes. -/
def c5w_state : EngineState :=
  EngineState.mk [("w", c5w_table)] [] 0 (IndexManagerState.mk [] [])

/-- The concrete INSERT of the C5 witness. -/
def c5w_stmt : InsertStatement := InsertStatement.mk "w" [Value.int 1, Value.str "a"]

/-- The agreement holds at the initial witness state. -/
theorem c5w_inv : idxAgree c5w_state c5w_table c5w_pkc := by
  refine ⟨List.Pairwise.nil, fun w => rfl, ?_⟩
  intro c hc hcu
  exact ⟨List.Pairwise.nil, fun w => rfl, List.Pairwise.nil⟩

/-- Witness: the amended C5 theorem applied at a concrete successful INSERT. -/
theorem C5_amended_witness :
    idxAgree (execute_insert c5w_state c5w_stmt).1 c5w_table c5w_pkc :=
  C5_amended_index_agreement_preserved.1 c5w_state c5w_stmt
    (execute_insert c5w_state c5w_stmt).1 "1 row inserted" c5w_table c5w_pkc rfl rfl rfl
    (by decide) c5w_inv rfl
